import Mathlib

/-!
Verification development for the GRChallengeOptimizer scraping pipeline
(`scripts/grchallenges_scraper_prev.py`, `scripts/grchallenges_scraper.py`,
`scripts/grchallenges_compile.py`).

The Python code is shallowly embedded: strings are Lean `String`s processed
as `List Char`, BeautifulSoup node selection is modelled by records carrying
the selected attribute/text values in document order, fallible page fetches
are functions into `Except`, and Python's insertion-ordered dicts are
association lists extended at the tail.
-/

/-! ## Python string primitives -/

/-- Model of Python `str.strip()` on a character list. -/
def pstripL (l : List Char) : List Char :=
  ((l.dropWhile Char.isWhitespace).reverse.dropWhile Char.isWhitespace).reverse

/-- Model of Python `str.strip()`. -/
def pystrip (s : String) : String := String.mk (pstripL s.data)

/-- Model of Python `str.lower()` (character-wise lowering). -/
def pylower (s : String) : String := String.mk (s.data.map Char.toLower)

/-- Strip a literal pattern from the front of a list; `some rest` on success. -/
def stripPre : List Char → List Char → Option (List Char)
  | [], l => some l
  | _ :: _, [] => none
  | p :: ps, c :: cs => if p = c then stripPre ps cs else none

/-- Boolean test that `p` is a literal head of `l`. -/
def isPreOf (p l : List Char) : Bool := (stripPre p l).isSome

/-- Literal-substring search (Python `in`, and `re.search` of a literal). -/
def containsSub (p : List Char) : List Char → Bool
  | [] => p.isEmpty
  | c :: rest => isPreOf p (c :: rest) || containsSub p rest

/-- Fuel-indexed worker for `replaceSub`. -/
def replaceSubGo (pat rep : List Char) : Nat → List Char → List Char
  | 0, l => l
  | _ + 1, [] => []
  | fuel + 1, c :: rest =>
    match stripPre pat (c :: rest) with
    | some r => rep ++ replaceSubGo pat rep fuel r
    | none => c :: replaceSubGo pat rep fuel rest

/-- Model of Python `str.replace(pat, rep)` (all occurrences, left to right). -/
def replaceSub (pat rep l : List Char) : List Char :=
  replaceSubGo pat rep (l.length + 1) l

/-- Model of Python `str.isdigit()` restricted to ASCII digits. -/
def isPyDigit (s : String) : Bool := !s.data.isEmpty && s.data.all Char.isDigit

/-! ## URL parsing (urllib.parse as used by the scraper) -/

/-- Components of `urllib.parse.urlparse` that `_normalize_book_link` reads. -/
structure UrlParts where
  scheme : List Char
  netloc : List Char
  path : List Char
deriving Repr, DecidableEq

/-- Split a character list at the first occurrence of `"://"`. -/
def splitScheme : List Char → Option (List Char × List Char)
  | [] => none
  | c :: rest =>
    if c = ':' ∧ isPreOf ['/', '/'] rest then some ([], rest.drop 2)
    else
      match splitScheme rest with
      | some (a, b) => some (c :: a, b)
      | none => none

/-- Character class ending the netloc component (`/`, `?` or `#`). -/
def isNetlocEnd (c : Char) : Bool := c = '/' || c = '?' || c = '#'

/-- Character class ending the path component (`?` or `#`). -/
def isPathEnd (c : Char) : Bool := c = '?' || c = '#'

/-- Model of `urllib.parse.urlparse` for the scheme/netloc/path components:
the scheme is everything before the first `"://"`, the netloc runs to the
first `/`, `?` or `#`, and the path runs from there to the first `?` or `#`.
A reference without `"://"` is all path (up to any query or fragment). -/
def parseUrl (l : List Char) : UrlParts :=
  match splitScheme l with
  | some (sch, rest) =>
    { scheme := sch
      netloc := rest.takeWhile (fun c => !(isNetlocEnd c))
      path := (rest.dropWhile (fun c => !(isNetlocEnd c))).takeWhile (fun c => !(isPathEnd c)) }
  | none => { scheme := [], netloc := [], path := l.takeWhile (fun c => !(isPathEnd c)) }

/-- Keep a path up to and including its last `/` (directory of the path);
a path with no slash contributes a bare `/`. -/
def dirOf (p : List Char) : List Char :=
  if containsSub ['/'] p then (p.reverse.dropWhile (fun c => c ≠ '/')).reverse else ['/']

/-- Model of `urllib.parse.urljoin` for the reference forms the scraper
meets: a reference carrying its own scheme is returned unchanged, a
protocol-relative `//host/...` reference takes the base's scheme, a
root-relative `/...` reference replaces the base's path, an empty reference
yields the base, and any other relative reference is resolved against the
directory of the base's path (dot segments are not normalized; the scraper
never produces them). A reference carries its own scheme when a non-empty
run of scheme characters precedes `"://"`, the way `urllib` recognizes
one. -/
def hasScheme (url : List Char) : Bool :=
  match splitScheme url with
  | some (sch, _) =>
    !sch.isEmpty && sch.all (fun c => c.isAlphanum || c = '+' || c = '-' || c = '.')
  | none => false

/-- Model of `urllib.parse.urljoin` as described above. -/
def urljoinModel (base url : String) : String :=
  if hasScheme url.data then url
  else if isPreOf ['/', '/'] url.data then
    String.mk ((parseUrl base.data).scheme ++ ':' :: url.data)
  else if isPreOf ['/'] url.data then
    String.mk ((parseUrl base.data).scheme ++ "://".data ++ (parseUrl base.data).netloc ++ url.data)
  else if url.data.isEmpty then base
  else
    String.mk ((parseUrl base.data).scheme ++ "://".data ++ (parseUrl base.data).netloc
      ++ dirOf (parseUrl base.data).path ++ url.data)

/-- Model of `_abs` (`grchallenges_scraper_prev.py:106`): a reference is kept
as-is when it starts with `"http"`, otherwise it is joined onto the base. -/
def _abs (url base_url : String) : String :=
  if isPreOf "http".data url.data then url else urljoinModel base_url url

/-! ## The regular expressions of the previous scraper -/

/-- Model of matching `BOOK_ID_RE` (`/book/(?:show|details)/(\d+)`) at one
position: returns the captured maximal digit run. -/
def tryBookId (l : List Char) : Option (List Char) :=
  let rest? :=
    match stripPre "/book/show/".data l with
    | some r => some r
    | none => stripPre "/book/details/".data l
  match rest? with
  | none => none
  | some r =>
    let ds := r.takeWhile Char.isDigit
    if ds.isEmpty then none else some ds

/-- Model of `BOOK_ID_RE.search`: first position where the pattern matches. -/
def bookIdSearch : List Char → Option (List Char)
  | [] => none
  | c :: rest =>
    match tryBookId (c :: rest) with
    | some ds => some ds
    | none => bookIdSearch rest

/-- Model of `_book_id_from_href` (`grchallenges_scraper_prev.py:109-113`). -/
def _book_id_from_href (href : String) : String :=
  if href = "" then ""
  else
    match bookIdSearch href.data with
    | some ds => String.mk ds
    | none => ""

/-- Model of `BOOK_SHOW_ABS_RE.match`, the anchored prefix match of
`^https?://(?:www\.)?goodreads\.com/book/(?:show|details)/\d+`. -/
def bookShowAbsMatch (s : String) : Bool :=
  match stripPre "http".data s.data with
  | none => false
  | some r1 =>
    let r2? :=
      match stripPre "s://".data r1 with
      | some r => some r
      | none => stripPre "://".data r1
    match r2? with
    | none => false
    | some r2 =>
      let r3 :=
        match stripPre "www.".data r2 with
        | some r => r
        | none => r2
      match stripPre "goodreads.com/book/".data r3 with
      | none => false
      | some r4 =>
        let r5? :=
          match stripPre "show/".data r4 with
          | some r => some r
          | none => stripPre "details/".data r4
        match r5? with
        | none => false
        | some r5 => !(r5.takeWhile Char.isDigit).isEmpty

/-- Model of `IMG_COVER_RE.search` (`/assets/nocover|/books/|/covers/`). -/
def imgCoverSearch (s : String) : Bool :=
  containsSub "/assets/nocover".data s.data || containsSub "/books/".data s.data
    || containsSub "/covers/".data s.data

/-- Model of `re.match(r"^(/(?:en/)?book/(?:show|details)/)(\d+)", path)` in
`_normalize_book_link`: returns (group 1, group 2) on success. -/
def matchBookPath (p : List Char) : Option (List Char × List Char) :=
  match stripPre ['/'] p with
  | none => none
  | some p1 =>
    let en : List Char × List Char :=
      match stripPre "en/".data p1 with
      | some r => ("en/".data, r)
      | none => ([], p1)
    match stripPre "book/".data en.2 with
    | none => none
    | some p3 =>
      let sd? : Option (List Char × List Char) :=
        match stripPre "show/".data p3 with
        | some r => some ("show/".data, r)
        | none =>
          match stripPre "details/".data p3 with
          | some r => some ("details/".data, r)
          | none => none
      match sd? with
      | none => none
      | some (sd, p4) =>
        let ds := p4.takeWhile Char.isDigit
        if ds.isEmpty then none
        else some ('/' :: (en.1 ++ "book/".data ++ sd), ds)

/-- Path rewrite step of `_normalize_book_link`
(`grchallenges_scraper_prev.py:120-122`): when the book-path pattern
matches, the path becomes group 1 with `/details/` replaced by `/show/`,
followed by the captured digits. -/
def rewriteBookPath (p : List Char) : List Char :=
  match matchBookPath p with
  | some (g1, ds) => replaceSub "/details/".data "/show/".data g1 ++ ds
  | none => p

/-- Model of `_normalize_book_link` (`grchallenges_scraper_prev.py:115-123`):
resolve against the base, parse, strip any `?...`/`#...` tail from the path,
rewrite a `/details/` book path to `/show/`, and reassemble
`scheme://netloc/path`. -/
def _normalize_book_link (href base_url : String) : String :=
  let full := _abs href base_url
  let u := parseUrl full.data
  let path := u.path.takeWhile (fun c => !(isPathEnd c))
  let path2 := rewriteBookPath path
  String.mk (u.scheme ++ "://".data ++ u.netloc ++ path2)

/-! ## Card model and the two extraction strategies

BeautifulSoup node selection is modelled by records that carry, for one
card, the values the scraper reads: the first `a[href*='/book/']` anchor
(its `href`, `title` attribute and visible text), the first `img` (its
`alt` and `src`), the text of the first author-selector hit, and — used
only by the generic strategy — the text of the first `.bookTitle, em, i`
hit. A missing attribute is the empty string (Python truthiness collapses
`None` and `""` at every use site). -/

/-- The anchor node selected by `select_one("a[href*='/book/']")`. -/
structure AnchorInfo where
  href : String
  titleAttr : String
  text : String
deriving Repr, DecidableEq

/-- The image node selected by `select_one("img")`. -/
structure ImgInfo where
  alt : String
  src : String
deriving Repr, DecidableEq

/-- One card element, as seen through the selectors the scraper applies. -/
structure Card where
  anchor : Option AnchorInfo
  img : Option ImgInfo
  authorText : Option String
  bookTitleText : Option String
deriving Repr, DecidableEq

/-- One extracted book row (`{title, author, link, cover, gr_id}`). -/
structure BookRecord where
  title : String
  author : String
  link : String
  cover : String
  gr_id : String
deriving Repr, DecidableEq

/-- Title resolution of the tooltip strategy
(`grchallenges_scraper_prev.py:148-156`): image `alt` first, then the
anchor's `title` attribute, then the anchor's visible text. -/
def tooltipTitle (c : Card) (a : AnchorInfo) : String :=
  let t0 :=
    match c.img with
    | some img => if img.alt ≠ "" then pystrip img.alt else ""
    | none => ""
  if t0 = "" then pystrip (if a.titleAttr ≠ "" then a.titleAttr else a.text) else t0

/-- Author resolution of the tooltip strategy
(`grchallenges_scraper_prev.py:158-162`). -/
def tooltipAuthor (c : Card) : String :=
  match c.authorText with
  | some s => s
  | none => ""

/-- Cover resolution of the tooltip strategy
(`grchallenges_scraper_prev.py:164-166`). -/
def tooltipCover (c : Card) : String :=
  match c.img with
  | some img => if img.src ≠ "" && imgCoverSearch img.src then img.src else ""
  | none => ""

/-- Title resolution of the generic fallback strategy
(`grchallenges_scraper_prev.py:195-202`): the anchor's `title` attribute
first, then the `.bookTitle, em, i` node text, then the anchor's visible
text, and only then the image `alt`. -/
def genericTitle (c : Card) (a : AnchorInfo) : String :=
  let bt :=
    match c.bookTitleText with
    | some s => s
    | none => ""
  let t1 := pystrip (if a.titleAttr ≠ "" then a.titleAttr else if bt ≠ "" then bt else a.text)
  if t1 = "" then
    match c.img with
    | some img => if img.alt ≠ "" then pystrip img.alt else ""
    | none => ""
  else t1

/-- Author resolution of the generic fallback strategy
(`grchallenges_scraper_prev.py:205-208`); the selector list is the same
one the tooltip strategy uses. -/
def genericAuthor (c : Card) : String :=
  match c.authorText with
  | some s => s
  | none => ""

/-- Cover resolution of the generic fallback strategy
(`grchallenges_scraper_prev.py:210-213`). -/
def genericCover (c : Card) : String :=
  match c.img with
  | some img => if img.src ≠ "" && imgCoverSearch img.src then img.src else ""
  | none => ""

/-- Per-card record extraction of the tooltip strategy
(`grchallenges_scraper_prev.py:135-166`): the loop body up to the
id-dedupe insertion; `none` is a `continue`. -/
def tooltipRecord (base_url : String) (c : Card) : Option BookRecord :=
  match c.anchor with
  | none => none
  | some a =>
    let link := _normalize_book_link a.href base_url
    if !(bookShowAbsMatch link) then none
    else
      let gr_id := _book_id_from_href link
      if gr_id = "" then none
      else
        let title := tooltipTitle c a
        if title = "" then none
        else
          some { title := title, author := tooltipAuthor c, link := link,
                 cover := tooltipCover c, gr_id := gr_id }

/-- Per-card record extraction of the generic fallback strategy
(`grchallenges_scraper_prev.py:182-213`). -/
def genericRecord (base_url : String) (c : Card) : Option BookRecord :=
  match c.anchor with
  | none => none
  | some a =>
    let link := _normalize_book_link a.href base_url
    if !(bookShowAbsMatch link) then none
    else
      let gr_id := _book_id_from_href link
      if gr_id = "" then none
      else
        let title := genericTitle c a
        if title = "" then none
        else
          some { title := title, author := genericAuthor c, link := link,
                 cover := genericCover c, gr_id := gr_id }

/-- Insertion into the insertion-ordered result dict keyed by `gr_id`
(`if gr_id not in out: out[gr_id] = {...}`). -/
def insertRecord (acc : List BookRecord) (r : BookRecord) : List BookRecord :=
  if acc.any (fun x => x.gr_id = r.gr_id) then acc else acc ++ [r]

/-- Model of `_extract_tooltip_triggers` (`grchallenges_scraper_prev.py:126-173`)
over the document-ordered `.js-tooltipTrigger.book` cards of the scoped
root: per-card extraction, then first-occurrence dedupe by `gr_id`;
`list(out.values())` preserves insertion order. -/
def _extract_tooltip_triggers (cards : List Card) (base_url : String) : List BookRecord :=
  (cards.filterMap (tooltipRecord base_url)).foldl insertRecord []

/-- Model of `_extract_generic_scoped` (`grchallenges_scraper_prev.py:176-220`)
over the document-ordered generic container cards of the scoped root. -/
def _extract_generic_scoped (cards : List Card) (base_url : String) : List BookRecord :=
  (cards.filterMap (genericRecord base_url)).foldl insertRecord []

/-- A fetched source page, as seen through the two container selector sets:
the document-ordered card lists each strategy would select. -/
structure PageModel where
  tooltipCards : List Card
  genericCards : List Card
deriving Repr, DecidableEq

/-! ## Detail-page enrichment (pass 2) -/

/-- The fields `_scrape_book_page` returns. -/
structure PageInfo where
  title : String
  author : String
  cover : String
  link : String
deriving Repr, DecidableEq

/-- A fetched book detail page, as seen through the metadata lookups of
`_scrape_book_page`: the `og:title`/`og:image` contents, the
`h1#bookTitle`-style heading text, the author-selector text and the
fallback cover `src`; a missing node or attribute is the empty string or
`none`. -/
structure DetailPage where
  ogTitle : String
  ogImage : String
  h1Title : Option String
  authorNode : Option String
  coverSrc : Option String
deriving Repr, DecidableEq

/-- Shared detail-page field extraction
(`grchallenges_scraper_prev.py:232-258`, `grchallenges_scraper.py:104-125`):
split `og:title` on `" by "` into title and author (author cut at `|`),
fall back to the heading for the title, the author selector for the
author, and `og:image` (else the cover node) for the cover. -/
def parseBookDetail (p : DetailPage) (book_url : String) : PageInfo :=
  let ta : String × String :=
    if p.ogTitle ≠ "" then
      let parts := p.ogTitle.splitOn " by "
      if 2 ≤ parts.length then
        (pystrip (parts.headD ""), pystrip ((((parts.drop 1).headD "").splitOn "|").headD ""))
      else (pystrip (String.mk (replaceSub "| Goodreads".data [] p.ogTitle.data)), "")
    else ("", "")
  let title :=
    if ta.1 = "" then
      match p.h1Title with
      | some t => t
      | none => ""
    else ta.1
  let author :=
    if ta.2 = "" then
      match p.authorNode with
      | some a => a
      | none => ""
    else ta.2
  let cover :=
    if p.ogImage ≠ "" then p.ogImage
    else
      match p.coverSrc with
      | some s => s
      | none => ""
  { title := title, author := author, cover := cover, link := book_url }

/-- Model of `_scrape_book_page` (`grchallenges_scraper_prev.py:227-258`).
The fetch capability composed with BeautifulSoup parsing is a function
into `Except`; the `try/except` around the fetch turns any failure into
the all-empty result for that call site. -/
def _scrape_book_page (fetch : String → Except String DetailPage) (book_url : String) : PageInfo :=
  match fetch book_url with
  | Except.error _ => { title := "", author := "", cover := "", link := book_url }
  | Except.ok page => parseBookDetail page book_url

/-- Model of `enrich_books`'s loop (`grchallenges_scraper_prev.py:260-280`):
`count` fetches already spent against the cap, `filled` authors filled.
Records with a non-empty author are skipped; fetched values overwrite a
field only when non-empty. Returns the record list (mutated in place in
Python) with the final counters. -/
def enrichGo (getInfo : String → PageInfo) (cap : Int) :
    List BookRecord → Nat → Nat → List BookRecord × Nat × Nat
  | [], count, filled => ([], count, filled)
  | b :: bs, count, filled =>
    if cap ≤ (count : Int) then (b :: bs, count, filled)
    else if b.author ≠ "" then
      let r := enrichGo getInfo cap bs count filled
      (b :: r.1, r.2)
    else
      let info := getInfo b.link
      let b' : BookRecord :=
        { b with
          title := if info.title ≠ "" then info.title else b.title
          author := if info.author ≠ "" then info.author else b.author
          cover := if info.cover ≠ "" then info.cover else b.cover }
      let r := enrichGo getInfo cap bs (count + 1) (filled + (if info.author ≠ "" then 1 else 0))
      (b' :: r.1, r.2)

/-- Model of `enrich_books` (`grchallenges_scraper_prev.py:260-280`):
returns the enriched record list and the `filled` count the Python
function returns. -/
def enrich_books (getInfo : String → PageInfo) (books : List BookRecord) (cap : Int) :
    List BookRecord × Nat :=
  let r := enrichGo getInfo cap books 0 0
  (r.1, r.2.2)

/-! ## Duplicate maps (previous scraper) -/

/-- Per-achievement record set fed to the duplicate resolver. -/
structure AchBooks where
  name : String
  books : List BookRecord
deriving Repr, DecidableEq

/-- One entry of `duplicates_by_title_author`. -/
structure DupRecTA where
  title : String
  author : String
  achievements : List String
deriving Repr, DecidableEq

/-- One entry of `duplicates_by_book_id`. -/
structure DupRecID where
  gr_id : String
  title : String
  author : String
  achievements : List String
deriving Repr, DecidableEq

/-- Python `set.add` on a set modelled as an insertion-ordered duplicate-free
list (also `if aname not in list: list.append(aname)` in the compiler). -/
def addNameSet (s : List String) (nm : String) : List String :=
  if nm ∈ s then s else s ++ [nm]

/-- Code-point lexicographic strict comparison of character lists (the
ordering Python uses on strings). -/
def listLtB : List Char → List Char → Bool
  | [], [] => false
  | [], _ :: _ => true
  | _ :: _, [] => false
  | a :: as, b :: bs =>
    if a.toNat < b.toNat then true
    else if b.toNat < a.toNat then false
    else listLtB as bs

/-- Python string comparison `<` (code-point lexicographic). -/
def strLtB (a b : String) : Bool := listLtB a.data b.data

/-- Python string comparison `<=`. -/
def strLeB (a b : String) : Bool := strLtB a b || a == b

/-- Python tuple comparison of two string pairs, as used by the sort keys. -/
def pairLeB (p q : String × String) : Bool :=
  if p.1 = q.1 then strLeB p.2 q.2 else strLtB p.1 q.1

/-- Sorted insertion placing `x` before the first element not below it;
together with `psort` this is a stable ascending sort, the behaviour of
Python's `sorted`/`list.sort`. -/
def pinsert (le : α → α → Bool) (x : α) : List α → List α
  | [] => [x]
  | y :: ys => if le x y then x :: y :: ys else y :: pinsert le x ys

/-- Stable ascending sort (model of Python `sorted` / `list.sort`). -/
def psort (le : α → α → Bool) (l : List α) : List α := l.foldr (pinsert le) []

/-- Sort key of both duplicate lists:
`lambda d: (d["title"].lower(), d["author"].lower())`. -/
def dupTALeB (d e : DupRecTA) : Bool :=
  pairLeB (pylower d.title, pylower d.author) (pylower e.title, pylower e.author)

/-- Sort key of `duplicates_by_book_id`, same pair as `dupTALeB`. -/
def dupIDLeB (d e : DupRecID) : Bool :=
  pairLeB (pylower d.title, pylower d.author) (pylower e.title, pylower e.author)

/-- The `(title, author)` accumulation key of `build_duplicates_maps`:
`(b.get("title","").strip().lower(), b.get("author","").strip().lower())`. -/
def taKey (b : BookRecord) : String × String :=
  (pylower (pystrip b.title), pylower (pystrip b.author))

/-- One `setdefault`-plus-`add` step on the `by_title_author` dict
(`grchallenges_scraper_prev.py:291-292`). -/
def updTA (m : List ((String × String) × DupRecTA)) (k : String × String)
    (b : BookRecord) (nm : String) : List ((String × String) × DupRecTA) :=
  if (m.find? (fun e => e.1 = k)).isSome then
    m.map (fun e =>
      if e.1 = k then (e.1, { e.2 with achievements := addNameSet e.2.achievements nm }) else e)
  else m ++ [(k, { title := b.title, author := b.author, achievements := [nm] })]

/-- One `setdefault`-plus-`add` step on the `by_id` dict
(`grchallenges_scraper_prev.py:293-296`). -/
def updID (m : List (String × DupRecID)) (gid : String)
    (b : BookRecord) (nm : String) : List (String × DupRecID) :=
  if (m.find? (fun e => e.1 = gid)).isSome then
    m.map (fun e =>
      if e.1 = gid then (e.1, { e.2 with achievements := addNameSet e.2.achievements nm }) else e)
  else m ++ [(gid, { gr_id := gid, title := b.title, author := b.author, achievements := [nm] })]

/-- The per-book body of the accumulation loop of `build_duplicates_maps`
(`grchallenges_scraper_prev.py:288-296`): a `(title, author)` key with an
empty normalized title is skipped; an empty stripped `gr_id` skips the
id map. -/
def dupStep (nm : String)
    (st : List ((String × String) × DupRecTA) × List (String × DupRecID))
    (b : BookRecord) :
    List ((String × String) × DupRecTA) × List (String × DupRecID) :=
  let k := taKey b
  let st1 := if k.1 ≠ "" then (updTA st.1 k b nm, st.2) else st
  let gid := pystrip b.gr_id
  if gid ≠ "" then (st1.1, updID st1.2 gid b nm) else st1

/-- Model of `build_duplicates_maps` (`grchallenges_scraper_prev.py:283-313`):
accumulate both dicts over all achievements and books, keep the entries
whose achievement set has more than one element, emit them with the
achievement names sorted, and sort both lists by the case-folded
(title, author) pair. -/
def build_duplicates_maps (achievements : List AchBooks) : List DupRecTA × List DupRecID :=
  let st := achievements.foldl
    (fun st ach => ach.books.foldl (dupStep ach.name) st) ([], [])
  let dupes_ta := psort dupTALeB
    (((st.1.filter (fun e => 1 < e.2.achievements.length)).map
      (fun e => { e.2 with achievements := psort strLeB e.2.achievements })))
  let dupes_id := psort dupIDLeB
    (((st.2.filter (fun e => 1 < e.2.achievements.length)).map
      (fun e => { e.2 with achievements := psort strLeB e.2.achievements })))
  (dupes_ta, dupes_id)

/-! ## The season compiler (`grchallenges_compile.py`) -/

/-- A book row of a per-achievement JSON file read by the compiler. -/
structure CompBook where
  title : String
  author : String
  link : String
  cover : String
deriving Repr, DecidableEq

/-- An achievement object as the compiler's dedupe index consumes it. -/
structure CompAch where
  name : String
  books : List CompBook
deriving Repr, DecidableEq

/-- Model of `norm` (`grchallenges_compile.py:78-79`). -/
def norm (s : String) : String := pylower (pystrip s)

/-- The per-book body of `build_dedupe_index`'s loop
(`grchallenges_compile.py:86-93`): insert a fresh entry (with stripped
display fields and an empty achievement list) when the normalized key is
new, then append the achievement name if it is not yet listed. -/
def dedupeIndexStep (aname : String)
    (m : List ((String × String) × DupRecTA)) (b : CompBook) :
    List ((String × String) × DupRecTA) :=
  let k := (norm b.title, norm b.author)
  let m1 :=
    if (m.find? (fun e => e.1 = k)).isSome then m
    else m ++ [(k, { title := pystrip b.title, author := pystrip b.author, achievements := [] })]
  m1.map (fun e =>
    if e.1 = k then (e.1, { e.2 with achievements := addNameSet e.2.achievements aname }) else e)

/-- Model of `build_dedupe_index` (`grchallenges_compile.py:82-94`): the
values of the accumulated dict, in insertion order, restricted to entries
referenced by more than one achievement. -/
def build_dedupe_index (achievements : List CompAch) : List DupRecTA :=
  let index := achievements.foldl (fun m ach => ach.books.foldl (dedupeIndexStep ach.name) m) []
  (index.filter (fun e => 1 < e.2.achievements.length)).map (fun e => e.2)

/-- An achievement object as `to_season_json` consumes it; `book_count` is
`none` when the input file has no `book_count` key (then
`a.get("book_count", len(a.get("books",[])))` falls back to the length). -/
structure CompAchIn where
  name : String
  source_url : String
  book_count : Option Int
  books : List CompBook
deriving Repr, DecidableEq

/-- An achievement entry of the compiled season artifact. -/
structure SeasonAchEntry where
  name : String
  source_url : String
  book_count : Int
  books : List CompBook
deriving Repr, DecidableEq

/-- The per-achievement entry built by `to_season_json`
(`grchallenges_compile.py:99-112`): `book_count` is the stored value when
present, the books length otherwise; book fields are re-stripped. -/
def to_season_json_entry (a : CompAchIn) : SeasonAchEntry :=
  { name := a.name
    source_url := a.source_url
    book_count :=
      match a.book_count with
      | some n => n
      | none => (a.books.length : Int)
    books := a.books.map (fun b =>
      { title := pystrip b.title, author := pystrip b.author, link := b.link, cover := b.cover }) }

/-- The season structure assembled by `to_season_json`
(`grchallenges_compile.py:97-118`), season metadata and timestamp aside. -/
structure SeasonJson where
  achievements : List SeasonAchEntry
  duplicates_by_title_author : List DupRecTA
deriving Repr, DecidableEq

/-- Model of `to_season_json` (`grchallenges_compile.py:97-118`). -/
def to_season_json (achievements : List CompAchIn) : SeasonJson :=
  { achievements := achievements.map to_season_json_entry
    duplicates_by_title_author :=
      build_dedupe_index (achievements.map (fun a => { name := a.name, books := a.books })) }

/-! ## The previous scraper's pipeline (`scrape`, lines 316-429) -/

/-- Per-achievement configuration, after `load_config` validation:
`expected_min`/`expected_max` default to `0` and `10^9`. -/
structure AchCfg where
  name : String
  url : String
  expected_min : Int
  expected_max : Int
deriving Repr, DecidableEq

/-- One achievement entry of the previous scraper's output artifact
(`grchallenges_scraper_prev.py:376-381`). -/
structure AchOut where
  name : String
  source_url : String
  book_count : Nat
  books : List BookRecord
deriving Repr, DecidableEq

/-- The operator warning printed when a record count falls outside the
configured bound (`grchallenges_scraper_prev.py:373-374`). -/
structure WarnSig where
  name : String
  count : Nat
  lo : Int
  hi : Int
deriving Repr, DecidableEq

/-- Pass-1 extraction chain of `scrape`
(`grchallenges_scraper_prev.py:360-362`): the tooltip strategy, and the
generic fallback only when it produced nothing. -/
def extractBooksPrev (page : PageModel) (url : String) : List BookRecord :=
  let books := _extract_tooltip_triggers page.tooltipCards url
  if books.isEmpty then _extract_generic_scoped page.genericCards url else books

/-- The per-achievement body of `scrape`'s loop once the source page is in
hand (`grchallenges_scraper_prev.py:359-381`): extraction, optional
enrichment, the soft count-bound warning, and the output entry whose
`book_count` is the books length. -/
def processAchPrev (fetchDetail : String → Except String DetailPage)
    (enrichAuthors : Bool) (cap : Int) (cfg : AchCfg) (page : PageModel) :
    AchOut × List WarnSig :=
  let books := extractBooksPrev page cfg.url
  let books :=
    if enrichAuthors then (enrich_books (_scrape_book_page fetchDetail) books cap).1 else books
  let warns :=
    if cfg.expected_min ≤ (books.length : Int) ∧ (books.length : Int) ≤ cfg.expected_max then []
    else [{ name := cfg.name, count := books.length, lo := cfg.expected_min,
            hi := cfg.expected_max : WarnSig }]
  ({ name := cfg.name, source_url := cfg.url, book_count := books.length, books := books }, warns)

/-- Model of the achievement loop of `scrape`
(`grchallenges_scraper_prev.py:342-383`): the source-page fetch
`http_get_text(session, url)` is NOT guarded by any `try`, so its failure
propagates out of the whole loop; each processed achievement appends its
entry and its warnings. The fetch capability composed with BeautifulSoup
parsing is a function into `Except` yielding the page's card lists. -/
def scrapePrev (fetchSource : String → Except String PageModel)
    (fetchDetail : String → Except String DetailPage)
    (enrichAuthors : Bool) (cap : Int) :
    List AchCfg → Except String (List AchOut × List WarnSig)
  | [] => Except.ok ([], [])
  | cfg :: rest =>
    match fetchSource cfg.url with
    | Except.error e => Except.error e
    | Except.ok page =>
      let pr := processAchPrev fetchDetail enrichAuthors cap cfg page
      match scrapePrev fetchSource fetchDetail enrichAuthors cap rest with
      | Except.error e => Except.error e
      | Except.ok (outs, ws) => Except.ok (pr.1 :: outs, pr.2 ++ ws)

/-! ## The current scraper (`grchallenges_scraper.py`) -/

/-- A fetched blog page as `extract_book_links_from_blog` sees it: the
`data-resource-id` attribute values and the anchor `href`s of the chosen
article scope, both in document order. -/
structure ArticleModel where
  resourceIds : List String
  anchorHrefs : List String
deriving Repr, DecidableEq

/-- Model of `_resource_ids_in_dom_order` (`grchallenges_scraper.py:130-137`):
keep non-empty all-digit ids, first occurrence only, document order. -/
def _resource_ids_in_dom_order (attrs : List String) : List String :=
  attrs.foldl
    (fun out bid =>
      if bid ≠ "" && isPyDigit bid && !(out.contains bid) then out ++ [bid] else out) []

/-- Model of `BOOK_HREF.match` (`^/book/(?:show|details)/(\d+)`). -/
def bookHrefMatch (href : String) : Option String :=
  let r? :=
    match stripPre "/book/show/".data href.data with
    | some r => some r
    | none => stripPre "/book/details/".data href.data
  match r? with
  | none => none
  | some r =>
    let ds := r.takeWhile Char.isDigit
    if ds.isEmpty then none else some (String.mk ds)

/-- Model of `_anchors_in_dom_order` (`grchallenges_scraper.py:140-153`):
relative `/book/...` hrefs only, first occurrence of each id. -/
def _anchors_in_dom_order (hrefs : List String) : List String :=
  hrefs.foldl
    (fun out href0 =>
      let href := pystrip href0
      if !(isPreOf "/book/".data href.data) then out
      else
        match bookHrefMatch href with
        | none => out
        | some bid => if out.contains bid then out else out ++ [bid]) []

/-- Model of `extract_book_links_from_blog` (`grchallenges_scraper.py:156-169`). -/
def extract_book_links_from_blog (article : ArticleModel) : List String :=
  let ids := _resource_ids_in_dom_order article.resourceIds
  let ids := if ids.isEmpty then _anchors_in_dom_order article.anchorHrefs else ids
  ids.map (fun bid => "https://www.goodreads.com/book/show/" ++ bid)

/-- Model of `scrape_book_page` (`grchallenges_scraper.py:99-125`); same
call-site-local failure handling as `_scrape_book_page`. -/
def scrape_book_page (fetch : String → Except String DetailPage) (book_url : String) : PageInfo :=
  match fetch book_url with
  | Except.error _ => { title := "", author := "", cover := "", link := book_url }
  | Except.ok page => parseBookDetail page book_url

/-- One CSV/JSON row of the current scraper (`grchallenges_scraper.py:240-249`). -/
structure RowOut where
  book : String
  author : String
  achievement : String
  active_dates : String
  source : String
  link : String
  cover : String
  season : String
deriving Repr, DecidableEq

/-- The row loop of `main` (`grchallenges_scraper.py:235-250`): fetch each
book page, drop rows lacking a title or an author. -/
def rowsForLinks (fetchDetail : String → Except String DetailPage) (links : List String)
    (name dates url season_label : String) : List RowOut :=
  links.filterMap (fun burl =>
    let info := scrape_book_page fetchDetail burl
    if info.title = "" || info.author = "" then none
    else
      some { book := info.title, author := info.author, achievement := name,
             active_dates := dates, source := url, link := info.link,
             cover := info.cover, season := season_label })

/-- A per-achievement JSON document of the current scraper, season metadata
and timestamp aside. -/
structure AchJson where
  name : String
  source_url : String
  book_count : Nat
  books : List CompBook
deriving Repr, DecidableEq

/-- Model of `write_achievement_json` (`grchallenges_scraper.py:174-192`):
`book_count` is `len(book_rows)`. -/
def write_achievement_json (ach_name source_url : String) (book_rows : List RowOut) : AchJson :=
  { name := ach_name, source_url := source_url, book_count := book_rows.length,
    books := book_rows.map (fun r =>
      { title := r.book, author := r.author, link := r.link, cover := r.cover }) }

/-- Per-achievement source configuration of the current scraper. -/
structure SrcCfg where
  name : String
  url : String
  active_dates : String
deriving Repr, DecidableEq

/-- Model of the achievement loop of `main` (`grchallenges_scraper.py:216-259`):
the whole per-achievement body sits in a `try/except`, so a failing
source-page fetch only skips that achievement; within an achievement the
detail fetches are already failure-local. Returns the per-achievement
JSON documents and the accumulated CSV rows. -/
def mainLoop (fetchSource : String → Except String ArticleModel)
    (fetchDetail : String → Except String DetailPage) (season_label : String) :
    List SrcCfg → List AchJson × List RowOut
  | [] => ([], [])
  | src :: rest =>
    match fetchSource src.url with
    | Except.error _ => mainLoop fetchSource fetchDetail season_label rest
    | Except.ok article =>
      let links := extract_book_links_from_blog article
      let rows := rowsForLinks fetchDetail links src.name src.active_dates src.url season_label
      let entry := write_achievement_json src.name src.url rows
      let r := mainLoop fetchSource fetchDetail season_label rest
      (entry :: r.1, rows ++ r.2)

/-! ## Lemmas: first-occurrence dedupe (claims C1, C10) -/

/-- Characterization helper for the insertion-ordered dict fold: the records
whose id is not yet in `seen`, first occurrence each, document order. -/
def dedupeNew (seen : List String) : List BookRecord → List BookRecord
  | [] => []
  | r :: rs =>
    if r.gr_id ∈ seen then dedupeNew seen rs
    else r :: dedupeNew (r.gr_id :: seen) rs

theorem dedupeNew_congr (s t : List String) (l : List BookRecord)
    (h : ∀ x, x ∈ s ↔ x ∈ t) : dedupeNew s l = dedupeNew t l := by
  induction l generalizing s t with
  | nil => rfl
  | cons r rs ih =>
    by_cases hr : r.gr_id ∈ s
    · rw [dedupeNew, if_pos hr, dedupeNew, if_pos ((h r.gr_id).mp hr), ih s t h]
    · rw [dedupeNew, if_neg hr, dedupeNew, if_neg (fun hc => hr ((h r.gr_id).mpr hc))]
      exact congrArg (r :: ·) (ih _ _ (fun x => by
        simp only [List.mem_cons]
        exact or_congr Iff.rfl (h x)))

theorem foldl_insertRecord (rs : List BookRecord) (acc : List BookRecord) :
    rs.foldl insertRecord acc = acc ++ dedupeNew (acc.map (fun r => r.gr_id)) rs := by
  induction rs generalizing acc with
  | nil => simp [dedupeNew]
  | cons r rs ih =>
    rw [List.foldl_cons, ih]
    by_cases h : r.gr_id ∈ acc.map (fun r => r.gr_id)
    · have hany : acc.any (fun x => x.gr_id = r.gr_id) = true := by
        rcases List.mem_map.mp h with ⟨x, hx, hxe⟩
        exact List.any_eq_true.mpr ⟨x, hx, by simp [hxe]⟩
      simp only [insertRecord, hany, if_true]
      rw [dedupeNew, if_pos h]
    · have hany : acc.any (fun x => x.gr_id = r.gr_id) = false := by
        rw [Bool.eq_false_iff]
        intro hc
        rcases List.any_eq_true.mp hc with ⟨x, hx, hxe⟩
        exact h (List.mem_map.mpr ⟨x, hx, of_decide_eq_true hxe⟩)
      simp only [insertRecord, hany, Bool.false_eq_true, if_false]
      rw [dedupeNew, if_neg h, List.append_assoc, List.singleton_append]
      refine congrArg (fun l => acc ++ r :: l) (dedupeNew_congr _ _ _ (fun x => ?_))
      simp only [List.map_append, List.map_cons, List.map_nil, List.mem_append,
        List.mem_cons, List.not_mem_nil, or_false]
      tauto

theorem dedupeNew_sublist (seen : List String) (rs : List BookRecord) :
    (dedupeNew seen rs).Sublist rs := by
  induction rs generalizing seen with
  | nil => exact List.Sublist.refl _
  | cons r rs ih =>
    rw [dedupeNew]
    by_cases hr : r.gr_id ∈ seen
    · rw [if_pos hr]; exact (ih seen).cons r
    · rw [if_neg hr]; exact (ih (r.gr_id :: seen)).cons₂ r

theorem mem_dedupeNew_not_seen (seen : List String) (rs : List BookRecord)
    (r' : BookRecord) (h : r' ∈ dedupeNew seen rs) : r'.gr_id ∉ seen := by
  induction rs generalizing seen with
  | nil => simp [dedupeNew] at h
  | cons r rs ih =>
    rw [dedupeNew] at h
    by_cases hr : r.gr_id ∈ seen
    · rw [if_pos hr] at h; exact ih seen h
    · rw [if_neg hr] at h
      rcases List.mem_cons.mp h with h1 | h2
      · rw [h1]; exact hr
      · intro hc
        exact ih (r.gr_id :: seen) h2 (List.mem_cons_of_mem _ hc)

theorem dedupeNew_pairwise (seen : List String) (rs : List BookRecord) :
    (dedupeNew seen rs).Pairwise (fun a b => a.gr_id ≠ b.gr_id) := by
  induction rs generalizing seen with
  | nil => exact List.Pairwise.nil
  | cons r rs ih =>
    rw [dedupeNew]
    by_cases hr : r.gr_id ∈ seen
    · rw [if_pos hr]; exact ih seen
    · rw [if_neg hr]
      refine List.Pairwise.cons (fun b hb hc => ?_) (ih (r.gr_id :: seen))
      exact mem_dedupeNew_not_seen _ _ b hb (by rw [← hc]; exact List.mem_cons_self _ _)

theorem dedupeNew_complete (seen : List String) (rs : List BookRecord)
    (r : BookRecord) (h : r ∈ rs) :
    r.gr_id ∈ seen ∨ ∃ r' ∈ dedupeNew seen rs, r'.gr_id = r.gr_id := by
  induction rs generalizing seen with
  | nil => simp at h
  | cons a rs ih =>
    rw [dedupeNew]
    by_cases ha : a.gr_id ∈ seen
    · rw [if_pos ha]
      rcases List.mem_cons.mp h with h1 | h2
      · left; rw [h1]; exact ha
      · exact ih seen h2
    · rw [if_neg ha]
      rcases List.mem_cons.mp h with h1 | h2
      · right; exact ⟨a, List.mem_cons_self _ _, by rw [h1]⟩
      · rcases ih (a.gr_id :: seen) h2 with hs | ⟨r', hr', he⟩
        · rcases List.mem_cons.mp hs with h3 | h4
          · right; exact ⟨a, List.mem_cons_self _ _, h3.symm⟩
          · left; exact h4
        · right; exact ⟨r', List.mem_cons_of_mem _ hr', he⟩

theorem dedupeNew_first (seen : List String) (rs : List BookRecord)
    (r' : BookRecord) (h : r' ∈ dedupeNew seen rs) :
    ∃ pre post, rs = pre ++ r' :: post ∧
      ∀ x ∈ pre, x.gr_id ∉ seen → x.gr_id ≠ r'.gr_id := by
  induction rs generalizing seen with
  | nil => simp [dedupeNew] at h
  | cons a rs ih =>
    rw [dedupeNew] at h
    by_cases ha : a.gr_id ∈ seen
    · rw [if_pos ha] at h
      rcases ih seen h with ⟨pre, post, he, hp⟩
      refine ⟨a :: pre, post, by rw [he, List.cons_append], fun x hx hxs => ?_⟩
      rcases List.mem_cons.mp hx with h1 | h2
      · exact absurd (h1 ▸ ha) hxs
      · exact hp x h2 hxs
    · rw [if_neg ha] at h
      rcases List.mem_cons.mp h with h1 | h2
      · exact ⟨[], rs, by rw [h1, List.nil_append], by simp⟩
      · rcases ih (a.gr_id :: seen) h2 with ⟨pre, post, he, hp⟩
        have hne : r'.gr_id ≠ a.gr_id := by
          have := mem_dedupeNew_not_seen _ _ r' h2
          intro hc
          exact this (hc ▸ List.mem_cons_self _ _)
        refine ⟨a :: pre, post, by rw [he, List.cons_append], fun x hx hxs => ?_⟩
        rcases List.mem_cons.mp hx with h1 | h2'
        · rw [h1]; exact fun hc => hne hc.symm
        · intro hc
          exact hp x h2' (fun hm => hxs (by
            rcases List.mem_cons.mp hm with h3 | h4
            · exact absurd (hc.symm.trans h3) hne
            · exact h4)) hc

/-- First-occurrence deduplication, the ordering/uniqueness contract of one
extraction pass: the output is a subsequence of the per-card record stream,
its ids are pairwise distinct, every id of the stream is represented, and
each retained record is the first record of the stream carrying its id. -/
def FirstOccurrenceDedup (rs out : List BookRecord) : Prop :=
  out.Sublist rs ∧
  out.Pairwise (fun a b => a.gr_id ≠ b.gr_id) ∧
  (∀ r ∈ rs, ∃ r' ∈ out, r'.gr_id = r.gr_id) ∧
  (∀ r' ∈ out, ∃ pre post, rs = pre ++ r' :: post ∧ ∀ x ∈ pre, x.gr_id ≠ r'.gr_id)

theorem dedupeNew_firstOccurrenceDedup (rs : List BookRecord) :
    FirstOccurrenceDedup rs (dedupeNew [] rs) := by
  refine ⟨dedupeNew_sublist [] rs, dedupeNew_pairwise [] rs, fun r hr => ?_, fun r' hr' => ?_⟩
  · rcases dedupeNew_complete [] rs r hr with hs | h
    · simp at hs
    · exact h
  · rcases dedupeNew_first [] rs r' hr' with ⟨pre, post, he, hp⟩
    exact ⟨pre, post, he, fun x hx => hp x hx (by simp)⟩

theorem extract_tooltip_eq_dedupe (cards : List Card) (base_url : String) :
    _extract_tooltip_triggers cards base_url =
      dedupeNew [] (cards.filterMap (tooltipRecord base_url)) := by
  rw [_extract_tooltip_triggers, foldl_insertRecord, List.map_nil, List.nil_append]

theorem extract_generic_eq_dedupe (cards : List Card) (base_url : String) :
    _extract_generic_scoped cards base_url =
      dedupeNew [] (cards.filterMap (genericRecord base_url)) := by
  rw [_extract_generic_scoped, foldl_insertRecord, List.map_nil, List.nil_append]

/-- C1: for every page markup and base URL, each extraction strategy returns
a record sequence with pairwise-distinct `gr_id`s, ordered by the document
order of each id's first record-yielding occurrence, and retaining the
field values of that first occurrence. -/
theorem extract_strategies_first_occurrence_dedup (cards : List Card) (base_url : String) :
    FirstOccurrenceDedup (cards.filterMap (tooltipRecord base_url))
      (_extract_tooltip_triggers cards base_url) ∧
    FirstOccurrenceDedup (cards.filterMap (genericRecord base_url))
      (_extract_generic_scoped cards base_url) := by
  rw [extract_tooltip_eq_dedupe, extract_generic_eq_dedupe]
  exact ⟨dedupeNew_firstOccurrenceDedup _, dedupeNew_firstOccurrenceDedup _⟩

/-- Demo base URL for concrete instantiations. -/
def baseDemo : String := "https://www.goodreads.com/blog"

/-- A card for book id 42 titled "Alpha" (the spec's duplicate scenario). -/
def cardAlpha : Card :=
  { anchor := some { href := "/book/show/42-alpha", titleAttr := "", text := "Alpha" },
    img := none, authorText := none, bookTitleText := none }

/-- A second card for the same id 42, titled "Alpha v2". -/
def cardAlphaV2 : Card :=
  { anchor := some { href := "/book/details/42?x=1", titleAttr := "", text := "Alpha v2" },
    img := none, authorText := none, bookTitleText := none }

/-- The record the first Alpha card yields. -/
def recAlpha : BookRecord :=
  { title := "Alpha", author := "", link := "https://www.goodreads.com/book/show/42",
    cover := "", gr_id := "42" }

theorem extract_strategies_first_occurrence_dedup_witness :
    ((_extract_tooltip_triggers [cardAlpha, cardAlphaV2] baseDemo).Pairwise
      (fun a b => a.gr_id ≠ b.gr_id)) ∧
    (∃ pre post, [cardAlpha, cardAlphaV2].filterMap (tooltipRecord baseDemo) =
      pre ++ recAlpha :: post ∧ ∀ x ∈ pre, x.gr_id ≠ recAlpha.gr_id) := by
  have h := extract_strategies_first_occurrence_dedup [cardAlpha, cardAlphaV2] baseDemo
  refine ⟨h.1.2.1, h.1.2.2.2 recAlpha ?_⟩
  rw [extract_tooltip_eq_dedupe]
  decide

/-! ## Lemmas: non-destructive enrichment (claim C2) -/

theorem overwrite_empty (x y : String) (h : (if x ≠ "" then x else y) = "") : y = "" := by
  by_cases hx : x = ""
  · rwa [if_neg (by simpa using hx)] at h
  · rw [if_pos hx] at h
    exact absurd h hx

theorem enrichGo_spec (getInfo : String → PageInfo) (cap : Int) (books : List BookRecord)
    (count filled : Nat) (i : Nat) (b : BookRecord) (h : books[i]? = some b) :
    ∃ b', (enrichGo getInfo cap books count filled).1[i]? = some b' ∧
      b'.link = b.link ∧ b'.gr_id = b.gr_id ∧
      (b.author ≠ "" → b' = b) ∧
      (b'.title = "" → b.title = "") ∧ (b'.author = "" → b.author = "") ∧
      (b'.cover = "" → b.cover = "") := by
  induction books generalizing count filled i with
  | nil => simp at h
  | cons b0 bs ih =>
    rw [enrichGo]
    by_cases hcap : cap ≤ (count : Int)
    · rw [if_pos hcap]
      exact ⟨b, h, rfl, rfl, fun _ => rfl, fun e => e, fun e => e, fun e => e⟩
    · rw [if_neg hcap]
      by_cases hauth : b0.author ≠ ""
      · rw [if_pos hauth]
        cases i with
        | zero =>
          rw [List.getElem?_cons_zero] at h
          injection h with h
          exact ⟨b0, by simp, by rw [← h], by rw [← h], fun _ => by rw [h],
            fun e => by rw [← h]; exact e, fun e => by rw [← h]; exact e,
            fun e => by rw [← h]; exact e⟩
        | succ j =>
          rw [List.getElem?_cons_succ] at h
          rcases ih count filled j h with ⟨b', hb', rest⟩
          exact ⟨b', by simpa using hb', rest⟩
      · rw [if_neg hauth]
        push_neg at hauth
        cases i with
        | zero =>
          rw [List.getElem?_cons_zero] at h
          injection h with h
          subst h
          refine ⟨{ b0 with
              title := if (getInfo b0.link).title ≠ "" then (getInfo b0.link).title else b0.title
              author :=
                if (getInfo b0.link).author ≠ "" then (getInfo b0.link).author else b0.author
              cover := if (getInfo b0.link).cover ≠ "" then (getInfo b0.link).cover else b0.cover },
            by simp, rfl, rfl, fun hc => absurd hauth hc,
            fun he => overwrite_empty _ _ he, fun he => overwrite_empty _ _ he,
            fun he => overwrite_empty _ _ he⟩
        | succ j =>
          rw [List.getElem?_cons_succ] at h
          rcases ih (count + 1) (filled + (if (getInfo b0.link).author ≠ "" then 1 else 0)) j h
            with ⟨b', hb', rest⟩
          exact ⟨b', by simpa using hb', rest⟩

/-- C2: enrichment is non-destructive — a record with a non-empty author is
left entirely unchanged, `link` and `gr_id` never change, and no field is
ever overwritten with an empty value (a field that ends empty was already
empty). -/
theorem enrich_books_non_destructive (getInfo : String → PageInfo) (books : List BookRecord)
    (cap : Int) (i : Nat) (b : BookRecord) (h : books[i]? = some b) :
    ∃ b', (enrich_books getInfo books cap).1[i]? = some b' ∧
      b'.link = b.link ∧ b'.gr_id = b.gr_id ∧
      (b.author ≠ "" → b' = b) ∧
      (b'.title = "" → b.title = "") ∧ (b'.author = "" → b.author = "") ∧
      (b'.cover = "" → b.cover = "") := by
  rw [enrich_books]
  exact enrichGo_spec getInfo cap books 0 0 i b h

/-- A record that already has an author, for the C2 witness. -/
def recKnown : BookRecord :=
  { title := "K", author := "Known", link := "L", cover := "", gr_id := "6" }

/-- A demo enrichment source returning a fixed author. -/
def demoGetInfo (u : String) : PageInfo :=
  { title := "", author := "Frank Herbert", cover := "", link := u }

theorem enrich_books_non_destructive_witness :
    ∃ b', (enrich_books demoGetInfo [recKnown] 300).1[0]? = some b' ∧
      b'.link = recKnown.link ∧ b'.gr_id = recKnown.gr_id ∧
      (recKnown.author ≠ "" → b' = recKnown) ∧
      (b'.title = "" → recKnown.title = "") ∧ (b'.author = "" → recKnown.author = "") ∧
      (b'.cover = "" → recKnown.cover = "") :=
  enrich_books_non_destructive demoGetInfo [recKnown] 300 0 recKnown (by decide)

/-! ## Lemmas: soft count-bound warning (claim C9) -/

/-- C9: an achievement whose record count falls outside
`[expected_min, expected_max]` emits the warning signal (and only such an
achievement does), while the pipeline still appends the achievement entry
with exactly the extracted-and-enriched records and processes the rest of
the achievement list. -/
theorem count_bound_warning_soft (fetchS : String → Except String PageModel)
    (fetchD : String → Except String DetailPage) (enrichAuthors : Bool) (cap : Int)
    (cfg : AchCfg) (page : PageModel) (rest : List AchCfg)
    (hfetch : fetchS cfg.url = Except.ok page) :
    ∃ books warns,
      processAchPrev fetchD enrichAuthors cap cfg page =
        ({ name := cfg.name, source_url := cfg.url, book_count := books.length,
           books := books }, warns) ∧
      books = (if enrichAuthors then
          (enrich_books (_scrape_book_page fetchD) (extractBooksPrev page cfg.url) cap).1
        else extractBooksPrev page cfg.url) ∧
      (warns = [] ↔
        cfg.expected_min ≤ (books.length : Int) ∧ (books.length : Int) ≤ cfg.expected_max) ∧
      scrapePrev fetchS fetchD enrichAuthors cap (cfg :: rest) =
        (match scrapePrev fetchS fetchD enrichAuthors cap rest with
         | Except.error e => Except.error e
         | Except.ok (outs, ws) =>
           Except.ok ((processAchPrev fetchD enrichAuthors cap cfg page).1 :: outs,
             (processAchPrev fetchD enrichAuthors cap cfg page).2 ++ ws)) := by
  refine ⟨_, _, rfl, rfl, ?_, ?_⟩
  · by_cases h : cfg.expected_min ≤
        (((if enrichAuthors then
            (enrich_books (_scrape_book_page fetchD) (extractBooksPrev page cfg.url) cap).1
          else extractBooksPrev page cfg.url)).length : Int) ∧
        (((if enrichAuthors then
            (enrich_books (_scrape_book_page fetchD) (extractBooksPrev page cfg.url) cap).1
          else extractBooksPrev page cfg.url)).length : Int) ≤ cfg.expected_max
    · simp [h]
    · simp [h]
  · rw [scrapePrev, hfetch]

/-- Demo achievement configuration expecting between 10 and 50 records. -/
def cfgTen : AchCfg :=
  { name := "Ten", url := "https://www.goodreads.com/blog", expected_min := 10,
    expected_max := 50 }

/-- A page yielding a single record (the Alpha card), used by the C9 witness. -/
def pageOne : PageModel := { tooltipCards := [cardAlpha], genericCards := [] }

theorem count_bound_warning_soft_witness :
    ∃ books warns,
      processAchPrev (fun _ => Except.error "down") false 300 cfgTen pageOne =
        ({ name := cfgTen.name, source_url := cfgTen.url, book_count := books.length,
           books := books }, warns) ∧
      books = (if false then
          (enrich_books (_scrape_book_page (fun _ => Except.error "down"))
            (extractBooksPrev pageOne cfgTen.url) 300).1
        else extractBooksPrev pageOne cfgTen.url) ∧
      (warns = [] ↔
        cfgTen.expected_min ≤ (books.length : Int) ∧
          (books.length : Int) ≤ cfgTen.expected_max) ∧
      scrapePrev (fun _ => Except.ok pageOne) (fun _ => Except.error "down") false 300
          (cfgTen :: []) =
        (match scrapePrev (fun _ => Except.ok pageOne) (fun _ => Except.error "down") false 300
            [] with
         | Except.error e => Except.error e
         | Except.ok (outs, ws) =>
           Except.ok
             ((processAchPrev (fun _ => Except.error "down") false 300 cfgTen pageOne).1 :: outs,
               (processAchPrev (fun _ => Except.error "down") false 300 cfgTen pageOne).2 ++ ws)) :=
  count_bound_warning_soft (fun _ => Except.ok pageOne) (fun _ => Except.error "down") false 300
    cfgTen pageOne [] rfl

/-! ## Lemmas: fetch-failure locality (claim C3) -/

/-- Demo achievement configurations for the pipeline counterexamples. -/
def cfgA : AchCfg :=
  { name := "A", url := "uA", expected_min := 0, expected_max := 1000000000 }

/-- Second demo achievement configuration. -/
def cfgB : AchCfg :=
  { name := "B", url := "uB", expected_min := 0, expected_max := 1000000000 }

/-- C3 counterexample: in the previous scraper's pipeline a failing
source-page fetch IS pipeline-fatal — with two achievements configured and
every source fetch failing, the whole run aborts with the fetch error and
the sibling achievement is never processed, contradicting the claim that a
fetch failure never propagates as a pipeline-fatal error. -/
theorem source_fetch_failure_fatal_prev :
    scrapePrev (fun _ => Except.error "boom") (fun _ => Except.error "x") true 300
      [cfgA, cfgB] = Except.error "boom" := rfl

/-- C3 amended: a detail-page fetch failure is "no content" for that call
site in both scrapers; in the current scraper a source-page fetch failure
skips exactly that achievement and the siblings are still processed, and
the previous scraper's run succeeds whenever every source-page fetch
succeeds (detail-page failures notwithstanding) — but, per the
counterexample, a source-page fetch failure in the previous scraper aborts
the remaining achievements. -/
theorem fetch_failure_locality (fetchD : String → Except String DetailPage)
    (url : String) (e : String) (hfail : fetchD url = Except.error e) :
    _scrape_book_page fetchD url = { title := "", author := "", cover := "", link := url } ∧
    scrape_book_page fetchD url = { title := "", author := "", cover := "", link := url } ∧
    (∀ (fetchS : String → Except String ArticleModel) (season_label : String)
       (src : SrcCfg) (rest : List SrcCfg) (e' : String),
       fetchS src.url = Except.error e' →
       mainLoop fetchS fetchD season_label (src :: rest) =
         mainLoop fetchS fetchD season_label rest) ∧
    (∀ (fetchS : String → Except String PageModel) (enrichAuthors : Bool) (cap : Int)
       (cfgs : List AchCfg),
       (∀ c ∈ cfgs, ∃ p, fetchS c.url = Except.ok p) →
       ∃ res, scrapePrev fetchS fetchD enrichAuthors cap cfgs = Except.ok res) := by
  refine ⟨by rw [_scrape_book_page, hfail], by rw [scrape_book_page, hfail], ?_, ?_⟩
  · intro fetchS season_label src rest e' hS
    rw [mainLoop, hS]
  · intro fetchS enrichAuthors cap cfgs hok
    induction cfgs with
    | nil => exact ⟨([], []), rfl⟩
    | cons cfg rest ih =>
      rcases hok cfg (List.mem_cons_self _ _) with ⟨p, hp⟩
      rcases ih (fun c hc => hok c (List.mem_cons_of_mem _ hc)) with ⟨res, hres⟩
      refine ⟨((processAchPrev fetchD enrichAuthors cap cfg p).1 :: res.1,
        (processAchPrev fetchD enrichAuthors cap cfg p).2 ++ res.2), ?_⟩
      rw [scrapePrev, hp, hres]

/-- Demo source configurations for the C3 witness. -/
def srcA : SrcCfg := { name := "A", url := "uA", active_dates := "" }

/-- Second demo source configuration. -/
def srcB : SrcCfg := { name := "B", url := "uB", active_dates := "" }

theorem fetch_failure_locality_witness :
    _scrape_book_page (fun _ => Except.error "down") "L" =
      { title := "", author := "", cover := "", link := "L" } ∧
    scrape_book_page (fun _ => Except.error "down") "L" =
      { title := "", author := "", cover := "", link := "L" } ∧
    (∀ (fetchS : String → Except String ArticleModel) (season_label : String)
       (src : SrcCfg) (rest : List SrcCfg) (e' : String),
       fetchS src.url = Except.error e' →
       mainLoop fetchS (fun _ => Except.error "down") season_label (src :: rest) =
         mainLoop fetchS (fun _ => Except.error "down") season_label rest) ∧
    (∀ (fetchS : String → Except String PageModel) (enrichAuthors : Bool) (cap : Int)
       (cfgs : List AchCfg),
       (∀ c ∈ cfgs, ∃ p, fetchS c.url = Except.ok p) →
       ∃ res, scrapePrev fetchS (fun _ => Except.error "down") enrichAuthors cap cfgs =
         Except.ok res) :=
  fetch_failure_locality (fun _ => Except.error "down") "L" "down" rfl

/-! ## Lemmas: book_count derivation (claim C8) -/

/-- An input achievement carrying a stored `book_count` that disagrees with
its books list. -/
def achStored : CompAchIn := { name := "A", source_url := "", book_count := some 5, books := [] }

/-- C8 counterexample: `to_season_json` copies a stored `book_count` when
the input achievement object carries one, so the emitted entry's
`book_count` (here 5) diverges from the length of its books sequence
(here 0), contradicting the claim that `book_count` is always derived from
the books list. -/
theorem book_count_stored_diverges :
    (to_season_json_entry achStored).book_count ≠
      ((to_season_json_entry achStored).books.length : Int) := by decide

/-- C8 amended: every entry emitted by the previous scraper's pipeline and
by the current scraper's per-achievement writer has `book_count` equal to
the length of its books sequence; the compiler's `to_season_json` derives
`book_count` from the books list only when the input stores none —
a stored value is copied through and may diverge. -/
theorem book_count_derived :
    (∀ (fetchD : String → Except String DetailPage) (ea : Bool) (cap : Int)
       (cfg : AchCfg) (page : PageModel),
       (processAchPrev fetchD ea cap cfg page).1.book_count =
         (processAchPrev fetchD ea cap cfg page).1.books.length) ∧
    (∀ (fetchS : String → Except String PageModel) (fetchD : String → Except String DetailPage)
       (ea : Bool) (cap : Int) (cfgs : List AchCfg) (outs : List AchOut) (ws : List WarnSig),
       scrapePrev fetchS fetchD ea cap cfgs = Except.ok (outs, ws) →
       ∀ o ∈ outs, o.book_count = o.books.length) ∧
    (∀ (ach_name source_url : String) (rows : List RowOut),
       (write_achievement_json ach_name source_url rows).book_count =
         (write_achievement_json ach_name source_url rows).books.length) ∧
    (∀ (fetchS : String → Except String ArticleModel) (fetchD : String → Except String DetailPage)
       (sl : String) (srcs : List SrcCfg),
       ∀ entry ∈ (mainLoop fetchS fetchD sl srcs).1, entry.book_count = entry.books.length) ∧
    (∀ a : CompAchIn, a.book_count = none →
       (to_season_json_entry a).book_count = ((to_season_json_entry a).books.length : Int)) := by
  refine ⟨fun _ _ _ _ _ => rfl, ?_, ?_, ?_, ?_⟩
  · intro fetchS fetchD ea cap cfgs
    induction cfgs with
    | nil =>
      intro outs ws h o ho
      rw [scrapePrev] at h
      injection h with h
      rw [(Prod.mk.injEq _ _ _ _).mp h.symm |>.1] at ho
      simp at ho
    | cons cfg rest ih =>
      intro outs ws h o ho
      rw [scrapePrev] at h
      cases hfs : fetchS cfg.url with
      | error e => rw [hfs] at h; exact absurd h (by simp)
      | ok page =>
        rw [hfs] at h
        cases hr : scrapePrev fetchS fetchD ea cap rest with
        | error e => rw [hr] at h; exact absurd h (by simp)
        | ok res =>
          obtain ⟨outs', ws'⟩ := res
          rw [hr] at h
          injection h with h
          rw [← (Prod.mk.injEq _ _ _ _).mp h |>.1] at ho
          rcases List.mem_cons.mp ho with h1 | h2
          · rw [h1]; rfl
          · exact ih outs' ws' hr o h2
  · intro ach_name source_url rows
    simp [write_achievement_json]
  · intro fetchS fetchD sl srcs
    induction srcs with
    | nil => intro entry he; simp [mainLoop] at he
    | cons src rest ih =>
      intro entry he
      rw [mainLoop] at he
      cases hfs : fetchS src.url with
      | error e => rw [hfs] at he; exact ih entry he
      | ok article =>
        rw [hfs] at he
        rcases List.mem_cons.mp he with h1 | h2
        · rw [h1]; simp [write_achievement_json]
        · exact ih entry h2
  · intro a h
    simp [to_season_json_entry, h]

/-- The concrete achievement entry produced for `cfgTen` over `pageOne`. -/
def outTen : AchOut :=
  { name := "Ten", source_url := "https://www.goodreads.com/blog", book_count := 1,
    books := [recAlpha] }

/-- An input achievement with no stored `book_count`. -/
def achNoCount : CompAchIn := { name := "A", source_url := "", book_count := none, books := [] }

theorem book_count_derived_witness :
    outTen.book_count = outTen.books.length ∧
    (to_season_json_entry achNoCount).book_count =
      ((to_season_json_entry achNoCount).books.length : Int) :=
  ⟨book_count_derived.2.1 (fun _ => Except.ok pageOne) (fun _ => Except.error "down") false 300
      [cfgTen] [outTen] [{ name := "Ten", count := 1, lo := 10, hi := 50 }] rfl
      outTen (List.mem_singleton.mpr rfl),
    book_count_derived.2.2.2.2 _ rfl⟩

/-! ## Lemmas: strategy field-extraction comparison (claim C7) -/

/-- A card carrying both an image alt text and an anchor title attribute. -/
def cardBoth : Card :=
  { anchor := some { href := "/book/show/42-alpha", titleAttr := "B title", text := "anchor" },
    img := some { alt := "A alt", src := "/books/1.jpg" },
    authorText := some "Auth", bookTitleText := some "BT" }

/-- C7 counterexample: on a card carrying both an image alt text and an
anchor title attribute the two strategies resolve different titles
(the primary takes the image alt, the fallback takes the anchor title
attribute), so their field-extraction logic is not identical and their
title preference orders differ. -/
theorem strategy_title_order_differs :
    tooltipRecord baseDemo cardBoth ≠ genericRecord baseDemo cardBoth := by decide

/-- C7 amended: the fallback strategy shares the primary strategy's author
and cover extraction exactly, but not its title preference order — on any
card whose image alt text strips to something non-empty the primary
resolves the title from the image alt, while on any anchor whose title
attribute strips to something non-empty the fallback resolves the title
from the anchor title attribute. -/
theorem strategies_field_extraction (c : Card) :
    tooltipAuthor c = genericAuthor c ∧
    tooltipCover c = genericCover c ∧
    (∀ (a : AnchorInfo) (img : ImgInfo), c.img = some img → pystrip img.alt ≠ "" →
      tooltipTitle c a = pystrip img.alt) ∧
    (∀ a : AnchorInfo, pystrip a.titleAttr ≠ "" → genericTitle c a = pystrip a.titleAttr) := by
  refine ⟨rfl, rfl, ?_, ?_⟩
  · intro a img himg halt
    have halt0 : img.alt ≠ "" := by
      intro he
      exact halt (by rw [he]; rfl)
    simp [tooltipTitle, himg, halt0, halt]
  · intro a hta
    have hta0 : a.titleAttr ≠ "" := by
      intro he
      exact hta (by rw [he]; rfl)
    simp [genericTitle, hta0, hta]

/-- The anchor of `cardBoth`. -/
def anchorBoth : AnchorInfo := { href := "/book/show/42-alpha", titleAttr := "B title", text := "anchor" }

/-- The image of `cardBoth`. -/
def imgBoth : ImgInfo := { alt := "A alt", src := "/books/1.jpg" }

theorem strategies_field_extraction_witness :
    tooltipAuthor cardBoth = genericAuthor cardBoth ∧
    tooltipCover cardBoth = genericCover cardBoth ∧
    tooltipTitle cardBoth anchorBoth = pystrip "A alt" ∧
    genericTitle cardBoth anchorBoth = pystrip "B title" := by
  have h := strategies_field_extraction cardBoth
  exact ⟨h.1, h.2.1, h.2.2.1 anchorBoth imgBoth rfl (by decide), h.2.2.2 anchorBoth (by decide)⟩

/-! ## Lemmas: duplicate maps (claims C5, C6) -/

/-- The (achievement name, book) pairs of a collection, in processing order
of the accumulation loops. -/
def achPairs : List AchBooks → List (String × BookRecord)
  | [] => []
  | a :: rest => a.books.map (fun b => (a.name, b)) ++ achPairs rest

/-- Fold `addNameSet` over a name list (set-union in encounter order). -/
def addAll (s : List String) (ns : List String) : List String := ns.foldl addNameSet s

/-- The pairs whose book carries the normalized `(title, author)` key `k`. -/
def pairsTA (achs : List AchBooks) (k : String × String) : List (String × BookRecord) :=
  (achPairs achs).filter (fun p => taKey p.2 = k)

/-- The distinct achievement names referencing key `k`, in first-reference
order: the accumulated achievement-name set of the `(title, author)` map. -/
def refNamesTA (achs : List AchBooks) (k : String × String) : List String :=
  addAll [] ((pairsTA achs k).map Prod.fst)

/-- The id-map key of a record (`(b.get("gr_id") or "").strip()`). -/
def idKey (b : BookRecord) : String := pystrip b.gr_id

/-- The pairs whose book carries the stripped id key `k`. -/
def pairsID (achs : List AchBooks) (k : String) : List (String × BookRecord) :=
  (achPairs achs).filter (fun p => idKey p.2 = k)

/-- The distinct achievement names referencing id `k`. -/
def refNamesID (achs : List AchBooks) (k : String) : List String :=
  addAll [] ((pairsID achs k).map Prod.fst)

/-- Association-list lookup on the `(title, author)` dict. -/
def findTA (m : List ((String × String) × DupRecTA)) (k : String × String) : Option DupRecTA :=
  (m.find? (fun e => e.1 = k)).map Prod.snd

/-- Association-list lookup on the id dict. -/
def findID (m : List (String × DupRecID)) (k : String) : Option DupRecID :=
  (m.find? (fun e => e.1 = k)).map Prod.snd

theorem findTA_updTA_same_some (m : List ((String × String) × DupRecTA))
    (k : String × String) (b : BookRecord) (nm : String) (rec : DupRecTA)
    (h : findTA m k = some rec) :
    findTA (updTA m k b nm) k =
      some { rec with achievements := addNameSet rec.achievements nm } := by
  rw [findTA] at h
  cases hf : m.find? (fun e => e.1 = k) with
  | none => rw [hf] at h; exact absurd h (by simp)
  | some e =>
    rw [hf] at h
    have he2 : e.2 = rec := by simpa using h
    rw [updTA, if_pos (by rw [hf]; rfl), findTA]
    subst he2
    revert hf
    induction m with
    | nil => intro hf; simp at hf
    | cons e0 m ih =>
      intro hf
      rw [List.map_cons]
      by_cases he0 : e0.1 = k
      · rw [List.find?_cons_of_pos _ (by simpa using he0)] at hf
        injection hf with hf
        rw [if_pos he0, List.find?_cons_of_pos _ (by simpa using he0)]
        rw [hf]
        rfl
      · rw [List.find?_cons_of_neg _ (by simpa using he0)] at hf
        rw [if_neg he0, List.find?_cons_of_neg _ (by simpa using he0)]
        exact ih hf

theorem findTA_updTA_same_none (m : List ((String × String) × DupRecTA))
    (k : String × String) (b : BookRecord) (nm : String)
    (h : findTA m k = none) :
    findTA (updTA m k b nm) k =
      some { title := b.title, author := b.author, achievements := [nm] } := by
  have hnone : m.find? (fun e => e.1 = k) = none := by
    rw [findTA] at h
    cases hf : m.find? (fun e => e.1 = k) with
    | none => rfl
    | some e => rw [hf] at h; simp at h
  rw [updTA, if_neg (by rw [hnone]; simp), findTA, List.find?_append, hnone, Option.none_or]
  rw [List.find?_cons_of_pos _ (by simp)]
  rfl

theorem findTA_map_add_ne (m : List ((String × String) × DupRecTA))
    (k' k : String × String) (nm : String) (h : k' ≠ k) :
    List.find? (fun e => e.1 = k)
        (m.map (fun e =>
          if e.1 = k' then (e.1, { e.2 with achievements := addNameSet e.2.achievements nm })
          else e)) =
      List.find? (fun e => e.1 = k) m := by
  induction m with
  | nil => rfl
  | cons e0 m ih =>
    rw [List.map_cons]
    by_cases he : e0.1 = k
    · have : (if e0.1 = k' then (e0.1, { e0.2 with achievements := addNameSet e0.2.achievements nm }) else e0) = e0 := by
        rw [if_neg (fun hc => h (hc.symm.trans he))]
      rw [this, List.find?_cons_of_pos _ (by simpa using he),
        List.find?_cons_of_pos _ (by simpa using he)]
    · have hkey : (if e0.1 = k' then (e0.1, { e0.2 with achievements := addNameSet e0.2.achievements nm }) else e0).1 = e0.1 := by
        by_cases hk' : e0.1 = k' <;> simp [hk']
      rw [List.find?_cons_of_neg _ (by simpa [hkey] using he),
        List.find?_cons_of_neg _ (by simpa using he), ih]

theorem findTA_updTA_ne (m : List ((String × String) × DupRecTA))
    (k' k : String × String) (b : BookRecord) (nm : String) (h : k' ≠ k) :
    findTA (updTA m k' b nm) k = findTA m k := by
  rw [updTA]
  by_cases hsome : (m.find? (fun e => e.1 = k')).isSome
  · rw [if_pos hsome, findTA, findTA, findTA_map_add_ne m k' k nm h]
  · rw [if_neg hsome, findTA, findTA, List.find?_append]
    have hone : List.find? (fun e => e.1 = k)
        [(k', { title := b.title, author := b.author, achievements := [nm] : DupRecTA })] =
        none := by
      simp [List.find?, h]
    rw [hone, Option.or_none]

theorem findID_updID_same_some (m : List (String × DupRecID))
    (k : String) (b : BookRecord) (nm : String) (rec : DupRecID)
    (h : findID m k = some rec) :
    findID (updID m k b nm) k =
      some { rec with achievements := addNameSet rec.achievements nm } := by
  rw [findID] at h
  cases hf : m.find? (fun e => e.1 = k) with
  | none => rw [hf] at h; exact absurd h (by simp)
  | some e =>
    rw [hf] at h
    have he2 : e.2 = rec := by simpa using h
    rw [updID, if_pos (by rw [hf]; rfl), findID]
    subst he2
    revert hf
    induction m with
    | nil => intro hf; simp at hf
    | cons e0 m ih =>
      intro hf
      rw [List.map_cons]
      by_cases he0 : e0.1 = k
      · rw [List.find?_cons_of_pos _ (by simpa using he0)] at hf
        injection hf with hf
        rw [if_pos he0, List.find?_cons_of_pos _ (by simpa using he0)]
        rw [hf]
        rfl
      · rw [List.find?_cons_of_neg _ (by simpa using he0)] at hf
        rw [if_neg he0, List.find?_cons_of_neg _ (by simpa using he0)]
        exact ih hf

theorem findID_updID_same_none (m : List (String × DupRecID))
    (k : String) (b : BookRecord) (nm : String)
    (h : findID m k = none) :
    findID (updID m k b nm) k =
      some { gr_id := k, title := b.title, author := b.author, achievements := [nm] } := by
  have hnone : m.find? (fun e => e.1 = k) = none := by
    cases hf : m.find? (fun e => e.1 = k) with
    | none => rfl
    | some e => rw [findID, hf] at h; simp at h
  rw [updID, if_neg (by rw [hnone]; simp), findID, List.find?_append, hnone, Option.none_or]
  rw [List.find?_cons_of_pos _ (by simp)]
  rfl

theorem findID_map_add_ne (m : List (String × DupRecID))
    (k' k : String) (nm : String) (h : k' ≠ k) :
    List.find? (fun e => e.1 = k)
        (m.map (fun e =>
          if e.1 = k' then (e.1, { e.2 with achievements := addNameSet e.2.achievements nm })
          else e)) =
      List.find? (fun e => e.1 = k) m := by
  induction m with
  | nil => rfl
  | cons e0 m ih =>
    rw [List.map_cons]
    by_cases he : e0.1 = k
    · have : (if e0.1 = k' then (e0.1, { e0.2 with achievements := addNameSet e0.2.achievements nm }) else e0) = e0 := by
        rw [if_neg (fun hc => h (hc.symm.trans he))]
      rw [this, List.find?_cons_of_pos _ (by simpa using he),
        List.find?_cons_of_pos _ (by simpa using he)]
    · have hkey : (if e0.1 = k' then (e0.1, { e0.2 with achievements := addNameSet e0.2.achievements nm }) else e0).1 = e0.1 := by
        by_cases hk' : e0.1 = k' <;> simp [hk']
      rw [List.find?_cons_of_neg _ (by simpa [hkey] using he),
        List.find?_cons_of_neg _ (by simpa using he), ih]

theorem findID_updID_ne (m : List (String × DupRecID))
    (k' k : String) (b : BookRecord) (nm : String) (h : k' ≠ k) :
    findID (updID m k' b nm) k = findID m k := by
  rw [updID]
  by_cases hsome : (m.find? (fun e => e.1 = k')).isSome
  · rw [if_pos hsome, findID, findID, findID_map_add_ne m k' k nm h]
  · rw [if_neg hsome, findID, findID, List.find?_append]
    have hone : List.find? (fun e => e.1 = k)
        [(k', { gr_id := k', title := b.title, author := b.author, achievements := [nm] : DupRecID })] =
        none := by
      simp [List.find?, h]
    rw [hone, Option.or_none]

/-- The normalized key of the compiler's dedupe index. -/
def compKey (b : CompBook) : String × String := (norm b.title, norm b.author)

theorem findTA_map_add_none (m : List ((String × String) × DupRecTA))
    (k : String × String) (nm : String)
    (h : m.find? (fun e => e.1 = k) = none) :
    (m.map (fun e =>
        if e.1 = k then (e.1, { e.2 with achievements := addNameSet e.2.achievements nm })
        else e)).find? (fun e => e.1 = k) = none := by
  induction m with
  | nil => rfl
  | cons e0 m ih =>
    have he0 : ¬(e0.1 = k) := by
      intro hc
      rw [List.find?_cons_of_pos _ (by simpa using hc)] at h
      exact absurd h (by simp)
    rw [List.find?_cons_of_neg _ (by simpa using he0)] at h
    rw [List.map_cons, if_neg he0, List.find?_cons_of_neg _ (by simpa using he0)]
    exact ih h

theorem findTA_compStep_same_some (m : List ((String × String) × DupRecTA))
    (aname : String) (b : CompBook) (rec : DupRecTA)
    (h : findTA m (compKey b) = some rec) :
    findTA (dedupeIndexStep aname m b) (compKey b) =
      some { rec with achievements := addNameSet rec.achievements aname } := by
  rw [findTA, compKey] at h
  cases hf : m.find? (fun e => e.1 = (norm b.title, norm b.author)) with
  | none => rw [hf] at h; exact absurd h (by simp)
  | some e =>
    rw [hf] at h
    have he2 : e.2 = rec := by simpa using h
    rw [dedupeIndexStep]
    simp only [if_pos (by rw [hf]; rfl : (m.find? (fun e => e.1 = ((norm b.title, norm b.author) : String × String))).isSome = true)]
    rw [compKey, findTA]
    subst he2
    revert hf
    induction m with
    | nil => intro hf; simp at hf
    | cons e0 m ih =>
      intro hf
      rw [List.map_cons]
      by_cases he0 : e0.1 = ((norm b.title, norm b.author) : String × String)
      · rw [List.find?_cons_of_pos _ (by simpa using he0)] at hf
        injection hf with hf
        rw [if_pos he0, List.find?_cons_of_pos _ (by simpa using he0)]
        rw [hf]
        rfl
      · rw [List.find?_cons_of_neg _ (by simpa using he0)] at hf
        rw [if_neg he0, List.find?_cons_of_neg _ (by simpa using he0)]
        exact ih hf

theorem findTA_compStep_same_none (m : List ((String × String) × DupRecTA))
    (aname : String) (b : CompBook)
    (h : findTA m (compKey b) = none) :
    findTA (dedupeIndexStep aname m b) (compKey b) =
      some { title := pystrip b.title, author := pystrip b.author, achievements := [aname] } := by
  have hnone : m.find? (fun e => e.1 = ((norm b.title, norm b.author) : String × String)) = none := by
    cases hf : m.find? (fun e => e.1 = ((norm b.title, norm b.author) : String × String)) with
    | none => rfl
    | some e => rw [findTA, compKey, hf] at h; exact absurd h (by simp)
  rw [dedupeIndexStep]
  simp only [if_neg (by rw [hnone]; simp : ¬((m.find? (fun e => e.1 = ((norm b.title, norm b.author) : String × String))).isSome = true))]
  rw [compKey, findTA, List.map_append, List.find?_append, findTA_map_add_none m _ aname hnone,
    Option.none_or, List.map_cons, List.map_nil, if_pos rfl, List.find?_cons_of_pos _ (by simp)]
  rfl

theorem findTA_compStep_ne (m : List ((String × String) × DupRecTA))
    (aname : String) (b : CompBook) (k : String × String)
    (h : compKey b ≠ k) :
    findTA (dedupeIndexStep aname m b) k = findTA m k := by
  rw [compKey] at h
  rw [dedupeIndexStep]
  by_cases hsome : (m.find? (fun e => e.1 = ((norm b.title, norm b.author) : String × String))).isSome
  · simp only [if_pos hsome]
    rw [findTA, findTA, findTA_map_add_ne m _ k aname h]
  · simp only [if_neg hsome]
    rw [findTA, findTA, List.map_append, List.find?_append, findTA_map_add_ne m _ k aname h,
      List.map_cons, List.map_nil, if_pos rfl]
    have hone : List.find? (fun e => e.1 = k)
        [(((norm b.title, norm b.author) : String × String),
          { title := pystrip b.title, author := pystrip b.author,
            achievements := addNameSet [] aname : DupRecTA })] = none := by
      simp [List.find?, h]
    rw [hone, Option.or_none]

theorem dup_fold_flatten (achs : List AchBooks)
    (st : List ((String × String) × DupRecTA) × List (String × DupRecID)) :
    achs.foldl (fun st ach => ach.books.foldl (dupStep ach.name) st) st
      = (achPairs achs).foldl (fun st p => dupStep p.1 st p.2) st := by
  induction achs generalizing st with
  | nil => rfl
  | cons a rest ih =>
    rw [List.foldl_cons, achPairs, List.foldl_append, List.foldl_map]
    exact ih _

theorem dupStep_fst (nm : String)
    (st : List ((String × String) × DupRecTA) × List (String × DupRecID)) (b : BookRecord) :
    (dupStep nm st b).1 =
      (if (taKey b).1 ≠ "" then updTA st.1 (taKey b) b nm else st.1) := by
  rw [dupStep]
  by_cases h1 : (taKey b).1 ≠ "" <;> by_cases h2 : pystrip b.gr_id ≠ "" <;> simp [h1, h2]

theorem dupStep_snd (nm : String)
    (st : List ((String × String) × DupRecTA) × List (String × DupRecID)) (b : BookRecord) :
    (dupStep nm st b).2 =
      (if pystrip b.gr_id ≠ "" then updID st.2 (pystrip b.gr_id) b nm else st.2) := by
  rw [dupStep]
  by_cases h1 : (taKey b).1 ≠ "" <;> by_cases h2 : pystrip b.gr_id ≠ "" <;> simp [h1, h2]

theorem dupFold_fst (ps : List (String × BookRecord))
    (st : List ((String × String) × DupRecTA) × List (String × DupRecID)) :
    (ps.foldl (fun st p => dupStep p.1 st p.2) st).1 =
      ps.foldl (fun m p => if (taKey p.2).1 ≠ "" then updTA m (taKey p.2) p.2 p.1 else m) st.1 := by
  induction ps generalizing st with
  | nil => rfl
  | cons p ps ih =>
    rw [List.foldl_cons, List.foldl_cons, ih, dupStep_fst]

theorem dupFold_snd (ps : List (String × BookRecord))
    (st : List ((String × String) × DupRecTA) × List (String × DupRecID)) :
    (ps.foldl (fun st p => dupStep p.1 st p.2) st).2 =
      ps.foldl
        (fun m p => if pystrip p.2.gr_id ≠ "" then updID m (pystrip p.2.gr_id) p.2 p.1 else m)
        st.2 := by
  induction ps generalizing st with
  | nil => rfl
  | cons p ps ih =>
    rw [List.foldl_cons, List.foldl_cons, ih, dupStep_snd]

theorem taFold_lookup (ps : List (String × BookRecord))
    (m : List ((String × String) × DupRecTA)) (k : String × String) (hk : k.1 ≠ "") :
    findTA
        (ps.foldl (fun m p => if (taKey p.2).1 ≠ "" then updTA m (taKey p.2) p.2 p.1 else m) m)
        k =
      match findTA m k with
      | some rec =>
        some { rec with
               achievements :=
                 addAll rec.achievements ((ps.filter (fun p => taKey p.2 = k)).map Prod.fst) }
      | none =>
        ((ps.filter (fun p => taKey p.2 = k)).head?).map
          (fun p => { title := p.2.title, author := p.2.author,
                      achievements :=
                        addAll [] ((ps.filter (fun p => taKey p.2 = k)).map Prod.fst) }) := by
  induction ps generalizing m with
  | nil =>
    simp only [List.foldl_nil, List.filter_nil, List.map_nil, List.head?_nil]
    cases h : findTA m k with
    | none => rfl
    | some rec => rfl
  | cons p ps ih =>
    simp only [List.foldl_cons]
    by_cases hk' : (taKey p.2).1 ≠ ""
    · rw [if_pos hk']
      by_cases hkk : taKey p.2 = k
      · rw [List.filter_cons_of_pos (by simpa using hkk)]
        cases hm : findTA m k with
        | some rec =>
          have h2 := findTA_updTA_same_some m k p.2 p.1 rec hm
          rw [ih (updTA m (taKey p.2) p.2 p.1), hkk, h2]
          rfl
        | none =>
          have h2 := findTA_updTA_same_none m k p.2 p.1 hm
          rw [ih (updTA m (taKey p.2) p.2 p.1), hkk, h2]
          simp only [List.head?_cons, Option.map_some]
          rfl
      · rw [List.filter_cons_of_neg (by simpa using hkk)]
        have h2 := findTA_updTA_ne m (taKey p.2) k p.2 p.1 hkk
        rw [ih (updTA m (taKey p.2) p.2 p.1), h2]
    · rw [if_neg hk']
      have hne : ¬(taKey p.2 = k) := by
        intro hc
        rw [hc] at hk'
        exact hk' hk
      rw [List.filter_cons_of_neg (by simpa using hne)]
      exact ih m

theorem idFold_lookup (ps : List (String × BookRecord))
    (m : List (String × DupRecID)) (k : String) (hk : k ≠ "") :
    findID
        (ps.foldl
          (fun m p => if pystrip p.2.gr_id ≠ "" then updID m (pystrip p.2.gr_id) p.2 p.1 else m)
          m)
        k =
      match findID m k with
      | some rec =>
        some { rec with
               achievements :=
                 addAll rec.achievements ((ps.filter (fun p => idKey p.2 = k)).map Prod.fst) }
      | none =>
        ((ps.filter (fun p => idKey p.2 = k)).head?).map
          (fun p => { gr_id := k, title := p.2.title, author := p.2.author,
                      achievements :=
                        addAll [] ((ps.filter (fun p => idKey p.2 = k)).map Prod.fst) }) := by
  induction ps generalizing m with
  | nil =>
    simp only [List.foldl_nil, List.filter_nil, List.map_nil, List.head?_nil]
    cases h : findID m k with
    | none => rfl
    | some rec => rfl
  | cons p ps ih =>
    simp only [List.foldl_cons]
    by_cases hk' : pystrip p.2.gr_id ≠ ""
    · rw [if_pos hk']
      by_cases hkk : idKey p.2 = k
      · rw [List.filter_cons_of_pos (by simpa using hkk)]
        rw [idKey] at hkk
        cases hm : findID m k with
        | some rec =>
          have h2 := findID_updID_same_some m k p.2 p.1 rec hm
          rw [ih (updID m (pystrip p.2.gr_id) p.2 p.1), hkk, h2]
          rfl
        | none =>
          have h2 := findID_updID_same_none m k p.2 p.1 hm
          rw [ih (updID m (pystrip p.2.gr_id) p.2 p.1), hkk, h2]
          simp only [List.head?_cons, Option.map_some]
          rfl
      · rw [List.filter_cons_of_neg (by simpa using hkk)]
        rw [idKey] at hkk
        have h2 := findID_updID_ne m (pystrip p.2.gr_id) k p.2 p.1 hkk
        rw [ih (updID m (pystrip p.2.gr_id) p.2 p.1), h2]
    · rw [if_neg hk']
      have hne : ¬(idKey p.2 = k) := by
        rw [idKey]
        intro hc
        rw [hc] at hk'
        exact hk' hk
      rw [List.filter_cons_of_neg (by simpa using hne)]
      exact ih m

/-- The (achievement name, book) pairs the compiler's index loop processes. -/
def compPairs : List CompAch → List (String × CompBook)
  | [] => []
  | a :: rest => a.books.map (fun b => (a.name, b)) ++ compPairs rest

theorem comp_fold_flatten (achs : List CompAch)
    (m : List ((String × String) × DupRecTA)) :
    achs.foldl (fun m ach => ach.books.foldl (dedupeIndexStep ach.name) m) m
      = (compPairs achs).foldl (fun m p => dedupeIndexStep p.1 m p.2) m := by
  induction achs generalizing m with
  | nil => rfl
  | cons a rest ih =>
    rw [List.foldl_cons, compPairs, List.foldl_append, List.foldl_map]
    exact ih _

theorem compFold_lookup (ps : List (String × CompBook))
    (m : List ((String × String) × DupRecTA)) (k : String × String) :
    findTA (ps.foldl (fun m p => dedupeIndexStep p.1 m p.2) m) k =
      match findTA m k with
      | some rec =>
        some { rec with
               achievements :=
                 addAll rec.achievements ((ps.filter (fun p => compKey p.2 = k)).map Prod.fst) }
      | none =>
        ((ps.filter (fun p => compKey p.2 = k)).head?).map
          (fun p => { title := pystrip p.2.title, author := pystrip p.2.author,
                      achievements :=
                        addAll [] ((ps.filter (fun p => compKey p.2 = k)).map Prod.fst) }) := by
  induction ps generalizing m with
  | nil =>
    simp only [List.foldl_nil, List.filter_nil, List.map_nil, List.head?_nil]
    cases h : findTA m k with
    | none => rfl
    | some rec => rfl
  | cons p ps ih =>
    simp only [List.foldl_cons]
    by_cases hkk : compKey p.2 = k
    · rw [List.filter_cons_of_pos (by simpa using hkk)]
      cases hm : findTA m k with
      | some rec =>
        have h2 := findTA_compStep_same_some m p.1 p.2 rec (hkk ▸ hm)
        rw [hkk] at h2
        rw [ih (dedupeIndexStep p.1 m p.2), h2]
        rfl
      | none =>
        have h2 := findTA_compStep_same_none m p.1 p.2 (hkk ▸ hm)
        rw [hkk] at h2
        rw [ih (dedupeIndexStep p.1 m p.2), h2]
        simp only [List.head?_cons, Option.map_some]
        rfl
    · rw [List.filter_cons_of_neg (by simpa using hkk)]
      have h2 := findTA_compStep_ne m p.1 p.2 k hkk
      rw [ih (dedupeIndexStep p.1 m p.2), h2]

theorem findTA_mem (m : List ((String × String) × DupRecTA)) (k : String × String)
    (rec : DupRecTA) (h : findTA m k = some rec) : (k, rec) ∈ m := by
  rw [findTA] at h
  cases hf : m.find? (fun e => e.1 = k) with
  | none => rw [hf] at h; exact absurd h (by simp)
  | some e =>
    rw [hf] at h
    have h2 : e.2 = rec := by simpa using h
    have h1 : e.1 = k := by simpa using List.find?_some hf
    have hm := List.mem_of_find?_eq_some hf
    rw [← h1, ← h2]
    exact hm

theorem mem_findTA (m : List ((String × String) × DupRecTA))
    (hnd : (m.map Prod.fst).Nodup) (k : String × String) (rec : DupRecTA)
    (h : (k, rec) ∈ m) : findTA m k = some rec := by
  induction m with
  | nil => simp at h
  | cons e0 m ih =>
    rw [List.map_cons, List.nodup_cons] at hnd
    rcases List.mem_cons.mp h with h1 | h2
    · rw [findTA, List.find?_cons_of_pos _ (by simp [← h1]), ← h1]
      rfl
    · have hk : ¬(e0.1 = k) := by
        intro hc
        exact hnd.1 (hc ▸ List.mem_map.mpr ⟨(k, rec), h2, rfl⟩)
      rw [findTA, List.find?_cons_of_neg _ (by simpa using hk)]
      exact ih hnd.2 h2

theorem findID_mem (m : List (String × DupRecID)) (k : String)
    (rec : DupRecID) (h : findID m k = some rec) : (k, rec) ∈ m := by
  rw [findID] at h
  cases hf : m.find? (fun e => e.1 = k) with
  | none => rw [hf] at h; exact absurd h (by simp)
  | some e =>
    rw [hf] at h
    have h2 : e.2 = rec := by simpa using h
    have h1 : e.1 = k := by simpa using List.find?_some hf
    have hm := List.mem_of_find?_eq_some hf
    rw [← h1, ← h2]
    exact hm

theorem mem_findID (m : List (String × DupRecID))
    (hnd : (m.map Prod.fst).Nodup) (k : String) (rec : DupRecID)
    (h : (k, rec) ∈ m) : findID m k = some rec := by
  induction m with
  | nil => simp at h
  | cons e0 m ih =>
    rw [List.map_cons, List.nodup_cons] at hnd
    rcases List.mem_cons.mp h with h1 | h2
    · rw [findID, List.find?_cons_of_pos _ (by simp [← h1]), ← h1]
      rfl
    · have hk : ¬(e0.1 = k) := by
        intro hc
        exact hnd.1 (hc ▸ List.mem_map.mpr ⟨(k, rec), h2, rfl⟩)
      rw [findID, List.find?_cons_of_neg _ (by simpa using hk)]
      exact ih hnd.2 h2

theorem updTA_keys_nodup (m : List ((String × String) × DupRecTA)) (k : String × String)
    (b : BookRecord) (nm : String) (h : (m.map Prod.fst).Nodup) :
    ((updTA m k b nm).map Prod.fst).Nodup := by
  rw [updTA]
  by_cases hsome : (m.find? (fun e => e.1 = k)).isSome
  · rw [if_pos hsome, List.map_map]
    have heq : (Prod.fst ∘ fun e : (String × String) × DupRecTA =>
        if e.1 = k then (e.1, { e.2 with achievements := addNameSet e.2.achievements nm })
        else e) = Prod.fst := by
      funext e
      by_cases he : e.1 = k <;> simp [he]
    rw [heq]
    exact h
  · rw [if_neg hsome, List.map_append]
    have hnone : m.find? (fun e => e.1 = k) = none := by
      cases hf : m.find? (fun e => e.1 = k) with
      | none => rfl
      | some e => rw [hf] at hsome; exact absurd rfl hsome
    refine List.Nodup.append h (List.nodup_singleton _) ?_
    intro x hx hxk
    rcases List.mem_map.mp hx with ⟨e, he, hek⟩
    have hk : x = k := by simpa using hxk
    have hne := List.find?_eq_none.mp hnone e he
    simp only [decide_eq_true_eq] at hne
    exact hne (hek.trans hk)

theorem updID_keys_nodup (m : List (String × DupRecID)) (k : String)
    (b : BookRecord) (nm : String) (h : (m.map Prod.fst).Nodup) :
    ((updID m k b nm).map Prod.fst).Nodup := by
  rw [updID]
  by_cases hsome : (m.find? (fun e => e.1 = k)).isSome
  · rw [if_pos hsome, List.map_map]
    have heq : (Prod.fst ∘ fun e : String × DupRecID =>
        if e.1 = k then (e.1, { e.2 with achievements := addNameSet e.2.achievements nm })
        else e) = Prod.fst := by
      funext e
      by_cases he : e.1 = k <;> simp [he]
    rw [heq]
    exact h
  · rw [if_neg hsome, List.map_append]
    have hnone : m.find? (fun e => e.1 = k) = none := by
      cases hf : m.find? (fun e => e.1 = k) with
      | none => rfl
      | some e => rw [hf] at hsome; exact absurd rfl hsome
    refine List.Nodup.append h (List.nodup_singleton _) ?_
    intro x hx hxk
    rcases List.mem_map.mp hx with ⟨e, he, hek⟩
    have hk : x = k := by simpa using hxk
    have hne := List.find?_eq_none.mp hnone e he
    simp only [decide_eq_true_eq] at hne
    exact hne (hek.trans hk)

theorem compStep_keys_nodup (m : List ((String × String) × DupRecTA)) (aname : String)
    (b : CompBook) (h : (m.map Prod.fst).Nodup) :
    ((dedupeIndexStep aname m b).map Prod.fst).Nodup := by
  rw [dedupeIndexStep]
  have heq : (Prod.fst ∘ fun e : (String × String) × DupRecTA =>
      if e.1 = ((norm b.title, norm b.author) : String × String) then
        (e.1, { e.2 with achievements := addNameSet e.2.achievements aname })
      else e) = Prod.fst := by
    funext e
    by_cases he : e.1 = ((norm b.title, norm b.author) : String × String) <;> simp [he]
  by_cases hsome :
      (m.find? (fun e => e.1 = ((norm b.title, norm b.author) : String × String))).isSome
  · simp only [if_pos hsome]
    rw [List.map_map, heq]
    exact h
  · simp only [if_neg hsome]
    rw [List.map_map, heq, List.map_append]
    have hnone :
        m.find? (fun e => e.1 = ((norm b.title, norm b.author) : String × String)) = none := by
      cases hf : m.find? (fun e => e.1 = ((norm b.title, norm b.author) : String × String)) with
      | none => rfl
      | some e => rw [hf] at hsome; exact absurd rfl hsome
    refine List.Nodup.append h (List.nodup_singleton _) ?_
    intro x hx hxk
    rcases List.mem_map.mp hx with ⟨e, he, hek⟩
    have hk : x = ((norm b.title, norm b.author) : String × String) := by simpa using hxk
    have hne := List.find?_eq_none.mp hnone e he
    simp only [decide_eq_true_eq] at hne
    exact hne (hek.trans hk)

theorem taFold_keys_nodup (ps : List (String × BookRecord))
    (m : List ((String × String) × DupRecTA)) (h : (m.map Prod.fst).Nodup) :
    (((ps.foldl (fun m p => if (taKey p.2).1 ≠ "" then updTA m (taKey p.2) p.2 p.1 else m) m)).map
      Prod.fst).Nodup := by
  induction ps generalizing m with
  | nil => exact h
  | cons p ps ih =>
    rw [List.foldl_cons]
    by_cases hp : (taKey p.2).1 ≠ ""
    · rw [if_pos hp]
      exact ih _ (updTA_keys_nodup m _ p.2 p.1 h)
    · rw [if_neg hp]
      exact ih m h

theorem idFold_keys_nodup (ps : List (String × BookRecord))
    (m : List (String × DupRecID)) (h : (m.map Prod.fst).Nodup) :
    (((ps.foldl
        (fun m p => if pystrip p.2.gr_id ≠ "" then updID m (pystrip p.2.gr_id) p.2 p.1 else m)
        m)).map Prod.fst).Nodup := by
  induction ps generalizing m with
  | nil => exact h
  | cons p ps ih =>
    rw [List.foldl_cons]
    by_cases hp : pystrip p.2.gr_id ≠ ""
    · rw [if_pos hp]
      exact ih _ (updID_keys_nodup m _ p.2 p.1 h)
    · rw [if_neg hp]
      exact ih m h

theorem compFold_keys_nodup (ps : List (String × CompBook))
    (m : List ((String × String) × DupRecTA)) (h : (m.map Prod.fst).Nodup) :
    (((ps.foldl (fun m p => dedupeIndexStep p.1 m p.2) m)).map Prod.fst).Nodup := by
  induction ps generalizing m with
  | nil => exact h
  | cons p ps ih =>
    rw [List.foldl_cons]
    exact ih _ (compStep_keys_nodup m p.1 p.2 h)

theorem taFold_lookup_empty (ps : List (String × BookRecord))
    (m : List ((String × String) × DupRecTA)) (k : String × String) (hk : k.1 = "") :
    findTA
        (ps.foldl (fun m p => if (taKey p.2).1 ≠ "" then updTA m (taKey p.2) p.2 p.1 else m) m)
        k = findTA m k := by
  induction ps generalizing m with
  | nil => rfl
  | cons p ps ih =>
    rw [List.foldl_cons]
    by_cases hp : (taKey p.2).1 ≠ ""
    · rw [if_pos hp]
      rw [ih (updTA m (taKey p.2) p.2 p.1)]
      exact findTA_updTA_ne m (taKey p.2) k p.2 p.1 (fun hc => hp (by rw [hc]; exact hk))
    · rw [if_neg hp]
      exact ih m

theorem idFold_lookup_empty (ps : List (String × BookRecord))
    (m : List (String × DupRecID)) (k : String) (hk : k = "") :
    findID
        (ps.foldl
          (fun m p => if pystrip p.2.gr_id ≠ "" then updID m (pystrip p.2.gr_id) p.2 p.1 else m)
          m)
        k = findID m k := by
  induction ps generalizing m with
  | nil => rfl
  | cons p ps ih =>
    rw [List.foldl_cons]
    by_cases hp : pystrip p.2.gr_id ≠ ""
    · rw [if_pos hp]
      rw [ih (updID m (pystrip p.2.gr_id) p.2 p.1)]
      exact findID_updID_ne m (pystrip p.2.gr_id) k p.2 p.1 (fun hc => hp (by rw [hc]; exact hk))
    · rw [if_neg hp]
      exact ih m

theorem pinsert_perm (le : α → α → Bool) (x : α) (l : List α) :
    (pinsert le x l).Perm (x :: l) := by
  induction l with
  | nil => exact List.Perm.refl _
  | cons y ys ih =>
    rw [pinsert]
    by_cases h : le x y = true
    · rw [if_pos h]
    · rw [if_neg h]
      exact (ih.cons y).trans (List.Perm.swap x y ys)

theorem psort_perm (le : α → α → Bool) (l : List α) : (psort le l).Perm l := by
  induction l with
  | nil => exact List.Perm.refl _
  | cons x xs ih =>
    exact (pinsert_perm le x (psort le xs)).trans (ih.cons x)

theorem mem_psort (le : α → α → Bool) (l : List α) (a : α) : a ∈ psort le l ↔ a ∈ l :=
  (psort_perm le l).mem_iff

theorem pinsert_pairwise (le : α → α → Bool)
    (htot : ∀ a b, le a b = true ∨ le b a = true)
    (htr : ∀ a b c, le a b = true → le b c = true → le a c = true) (x : α) (l : List α)
    (h : l.Pairwise (fun a b => le a b = true)) :
    (pinsert le x l).Pairwise (fun a b => le a b = true) := by
  induction l with
  | nil => simp [pinsert]
  | cons y ys ih =>
    rw [pinsert]
    rcases List.pairwise_cons.mp h with ⟨hy, hys⟩
    by_cases hxy : le x y = true
    · rw [if_pos hxy]
      refine List.Pairwise.cons ?_ h
      intro b hb
      rcases List.mem_cons.mp hb with h1 | h2
      · exact h1 ▸ hxy
      · exact htr x y b hxy (hy b h2)
    · rw [if_neg hxy]
      refine List.Pairwise.cons ?_ (ih hys)
      intro b hb
      rcases List.mem_cons.mp ((pinsert_perm le x ys).mem_iff.mp hb) with h1 | h2
      · rcases htot x y with hcase | hcase
        · exact absurd hcase hxy
        · exact h1 ▸ hcase
      · exact hy b h2

theorem psort_pairwise (le : α → α → Bool)
    (htot : ∀ a b, le a b = true ∨ le b a = true)
    (htr : ∀ a b c, le a b = true → le b c = true → le a c = true) (l : List α) :
    (psort le l).Pairwise (fun a b => le a b = true) := by
  induction l with
  | nil => simp [psort]
  | cons x xs ih => exact pinsert_pairwise le htot htr x (psort le xs) ih

theorem mem_addNameSet (s : List String) (n x : String) :
    x ∈ addNameSet s n ↔ x ∈ s ∨ x = n := by
  rw [addNameSet]
  by_cases h : n ∈ s
  · rw [if_pos h]
    constructor
    · exact fun hx => Or.inl hx
    · rintro (hx | hx)
      · exact hx
      · exact hx ▸ h
  · rw [if_neg h]
    simp

theorem mem_addAll (s ns : List String) (x : String) :
    x ∈ addAll s ns ↔ x ∈ s ∨ x ∈ ns := by
  induction ns generalizing s with
  | nil => simp [addAll]
  | cons n ns ih =>
    have : addAll s (n :: ns) = addAll (addNameSet s n) ns := rfl
    rw [this, ih, mem_addNameSet]
    simp only [List.mem_cons]
    tauto

theorem addAll_nodup (s ns : List String) (h : s.Nodup) : (addAll s ns).Nodup := by
  induction ns generalizing s with
  | nil => exact h
  | cons n ns ih =>
    have : addAll s (n :: ns) = addAll (addNameSet s n) ns := rfl
    rw [this]
    refine ih _ ?_
    rw [addNameSet]
    by_cases hn : n ∈ s
    · rw [if_pos hn]; exact h
    · rw [if_neg hn]
      refine List.Nodup.append h (List.nodup_singleton _) ?_
      intro x hx hxn
      exact hn ((List.mem_singleton.mp hxn) ▸ hx)

theorem listLtB_irrefl (a : List Char) : listLtB a a = false := by
  induction a with
  | nil => rfl
  | cons x xs ih => simp [listLtB, ih]

theorem listLtB_trans (a b c : List Char) (h1 : listLtB a b = true)
    (h2 : listLtB b c = true) : listLtB a c = true := by
  induction a generalizing b c with
  | nil =>
    cases c with
    | nil =>
      cases b with
      | nil => exact h1
      | cons y ys => simp [listLtB] at h2
    | cons z zs => rfl
  | cons x xs ih =>
    cases b with
    | nil => simp [listLtB] at h1
    | cons y ys =>
      cases c with
      | nil => simp [listLtB] at h2
      | cons z zs =>
        rw [listLtB] at h1 h2 ⊢
        by_cases hxy : x.toNat < y.toNat <;> by_cases hyz : y.toNat < z.toNat
        · rw [if_pos (by omega)]
        · rw [if_neg hyz] at h2
          by_cases hzy : z.toNat < y.toNat
          · rw [if_pos hzy] at h2; exact absurd h2 (by simp)
          · rw [if_neg hzy] at h2
            rw [if_pos (by omega)]
        · rw [if_neg hxy] at h1
          by_cases hyx : y.toNat < x.toNat
          · rw [if_pos hyx] at h1; exact absurd h1 (by simp)
          · rw [if_neg hyx] at h1
            rw [if_pos (by omega)]
        · rw [if_neg hxy] at h1
          rw [if_neg hyz] at h2
          by_cases hyx : y.toNat < x.toNat
          · rw [if_pos hyx] at h1; exact absurd h1 (by simp)
          · by_cases hzy : z.toNat < y.toNat
            · rw [if_pos hzy] at h2; exact absurd h2 (by simp)
            · rw [if_neg hyx] at h1
              rw [if_neg hzy] at h2
              rw [if_neg (by omega), if_neg (by omega)]
              exact ih ys zs h1 h2

theorem listLtB_trichotomy (a b : List Char) :
    listLtB a b = true ∨ listLtB b a = true ∨ a = b := by
  induction a generalizing b with
  | nil =>
    cases b with
    | nil => exact Or.inr (Or.inr rfl)
    | cons y ys => exact Or.inl rfl
  | cons x xs ih =>
    cases b with
    | nil => exact Or.inr (Or.inl rfl)
    | cons y ys =>
      by_cases hxy : x.toNat < y.toNat
      · exact Or.inl (by rw [listLtB, if_pos hxy])
      · by_cases hyx : y.toNat < x.toNat
        · exact Or.inr (Or.inl (by rw [listLtB, if_pos hyx]))
        · have hn : x.toNat = y.toNat := by omega
          have hx : x = y := Char.ext (UInt32.toNat.inj hn)
          rcases ih ys with h | h | h
          · exact Or.inl (by rw [listLtB, if_neg hxy, if_neg hyx]; exact h)
          · refine Or.inr (Or.inl ?_)
            rw [listLtB, if_neg hyx, if_neg hxy]
            exact h
          · exact Or.inr (Or.inr (by rw [hx, h]))

theorem strData_eq (a b : String) (h : a.data = b.data) : a = b := by
  cases a
  cases b
  exact congrArg String.mk (by simpa using h)

theorem strLeB_total (a b : String) : strLeB a b = true ∨ strLeB b a = true := by
  rw [strLeB, strLeB, strLtB, strLtB]
  rcases listLtB_trichotomy a.data b.data with h | h | h
  · exact Or.inl (by rw [h]; rfl)
  · exact Or.inr (by rw [h]; rfl)
  · exact Or.inl (by simp [strData_eq a b h])

theorem strLeB_trans (a b c : String) (h1 : strLeB a b = true) (h2 : strLeB b c = true) :
    strLeB a c = true := by
  rw [strLeB, Bool.or_eq_true] at h1 h2 ⊢
  rcases h1 with h1 | h1 <;> rcases h2 with h2 | h2
  · exact Or.inl (listLtB_trans _ _ _ h1 h2)
  · have : b = c := by simpa using h2
    exact Or.inl (this ▸ h1)
  · have : a = b := by simpa using h1
    exact Or.inl (this ▸ h2)
  · have hab : a = b := by simpa using h1
    have hbc : b = c := by simpa using h2
    exact Or.inr (by simp [hab.trans hbc])

theorem strLtB_ne (a b : String) (h : strLtB a b = true) : a ≠ b := by
  intro hc
  rw [hc, strLtB, listLtB_irrefl] at h
  exact absurd h (by simp)

theorem strLtB_trans (a b c : String) (h1 : strLtB a b = true) (h2 : strLtB b c = true) :
    strLtB a c = true :=
  listLtB_trans _ _ _ h1 h2

theorem pairLeB_total (p q : String × String) : pairLeB p q = true ∨ pairLeB q p = true := by
  rw [pairLeB, pairLeB]
  by_cases h : p.1 = q.1
  · rw [if_pos h, if_pos h.symm]
    exact strLeB_total p.2 q.2
  · rw [if_neg h, if_neg (fun hc => h hc.symm)]
    rcases listLtB_trichotomy p.1.data q.1.data with h1 | h1 | h1
    · exact Or.inl h1
    · exact Or.inr h1
    · exact absurd (strData_eq _ _ h1) h

theorem pairLeB_trans (p q r : String × String)
    (h1 : pairLeB p q = true) (h2 : pairLeB q r = true) : pairLeB p r = true := by
  rw [pairLeB] at h1 h2 ⊢
  by_cases hpq : p.1 = q.1 <;> by_cases hqr : q.1 = r.1
  · rw [if_pos hpq] at h1
    rw [if_pos hqr] at h2
    rw [if_pos (hpq.trans hqr)]
    exact strLeB_trans _ _ _ h1 h2
  · rw [if_pos hpq] at h1
    rw [if_neg hqr] at h2
    have hlt : strLtB p.1 r.1 = true := hpq ▸ h2
    rw [if_neg (strLtB_ne _ _ hlt)]
    exact hlt
  · rw [if_neg hpq] at h1
    rw [if_pos hqr] at h2
    have hlt : strLtB p.1 r.1 = true := hqr ▸ h1
    rw [if_neg (strLtB_ne _ _ hlt)]
    exact hlt
  · rw [if_neg hpq] at h1
    rw [if_neg hqr] at h2
    have hlt : strLtB p.1 r.1 = true := strLtB_trans _ _ _ h1 h2
    rw [if_neg (strLtB_ne _ _ hlt)]
    exact hlt

theorem dupTALeB_total (d e : DupRecTA) : dupTALeB d e = true ∨ dupTALeB e d = true :=
  pairLeB_total _ _

theorem dupTALeB_trans (d e f : DupRecTA) (h1 : dupTALeB d e = true)
    (h2 : dupTALeB e f = true) : dupTALeB d f = true :=
  pairLeB_trans _ _ _ h1 h2

theorem dupIDLeB_total (d e : DupRecID) : dupIDLeB d e = true ∨ dupIDLeB e d = true :=
  pairLeB_total _ _

theorem dupIDLeB_trans (d e f : DupRecID) (h1 : dupIDLeB d e = true)
    (h2 : dupIDLeB e f = true) : dupIDLeB d f = true :=
  pairLeB_trans _ _ _ h1 h2

theorem mem_achPairs (achs : List AchBooks) (p : String × BookRecord) :
    p ∈ achPairs achs ↔ ∃ ach ∈ achs, ach.name = p.1 ∧ p.2 ∈ ach.books := by
  induction achs with
  | nil => simp [achPairs]
  | cons a rest ih =>
    rw [achPairs, List.mem_append, ih, List.mem_map]
    constructor
    · rintro (⟨b, hb, hbp⟩ | ⟨ach, hach, hn, hb⟩)
      · refine ⟨a, List.mem_cons_self _ _, congrArg Prod.fst hbp, ?_⟩
        have h2 := congrArg Prod.snd hbp
        simpa [← h2] using hb
      · exact ⟨ach, List.mem_cons_of_mem _ hach, hn, hb⟩
    · rintro ⟨ach, hach, hn, hb⟩
      rcases List.mem_cons.mp hach with h1 | h2
      · subst h1
        exact Or.inl ⟨p.2, hb, Prod.ext hn rfl⟩
      · exact Or.inr ⟨ach, h2, hn, hb⟩

theorem mem_compPairs (cachs : List CompAch) (p : String × CompBook) :
    p ∈ compPairs cachs ↔ ∃ ach ∈ cachs, ach.name = p.1 ∧ p.2 ∈ ach.books := by
  induction cachs with
  | nil => simp [compPairs]
  | cons a rest ih =>
    rw [compPairs, List.mem_append, ih, List.mem_map]
    constructor
    · rintro (⟨b, hb, hbp⟩ | ⟨ach, hach, hn, hb⟩)
      · refine ⟨a, List.mem_cons_self _ _, congrArg Prod.fst hbp, ?_⟩
        have h2 := congrArg Prod.snd hbp
        simpa [← h2] using hb
      · exact ⟨ach, List.mem_cons_of_mem _ hach, hn, hb⟩
    · rintro ⟨ach, hach, hn, hb⟩
      rcases List.mem_cons.mp hach with h1 | h2
      · subst h1
        exact Or.inl ⟨p.2, hb, Prod.ext hn rfl⟩
      · exact Or.inr ⟨ach, h2, hn, hb⟩

/-- The pairs whose book carries the compiler key `k`. -/
def pairsComp (cachs : List CompAch) (k : String × String) : List (String × CompBook) :=
  (compPairs cachs).filter (fun p => compKey p.2 = k)

/-- The distinct achievement names referencing compiler key `k`. -/
def refNamesComp (cachs : List CompAch) (k : String × String) : List String :=
  addAll [] ((pairsComp cachs k).map Prod.fst)

theorem mem_refNamesTA (achs : List AchBooks) (k : String × String) (nm : String) :
    nm ∈ refNamesTA achs k ↔ ∃ ach ∈ achs, ach.name = nm ∧ ∃ b ∈ ach.books, taKey b = k := by
  rw [refNamesTA, mem_addAll]
  simp only [List.not_mem_nil, false_or, List.mem_map]
  constructor
  · rintro ⟨p, hp, hpn⟩
    rcases List.mem_filter.mp hp with ⟨hpm, hpk⟩
    rcases (mem_achPairs achs p).mp hpm with ⟨ach, hach, hn, hb⟩
    exact ⟨ach, hach, hn.trans hpn, ⟨p.2, hb, by simpa using hpk⟩⟩
  · rintro ⟨ach, hach, hn, b, hb, hk⟩
    refine ⟨(ach.name, b), ?_, hn⟩
    exact List.mem_filter.mpr ⟨(mem_achPairs achs _).mpr ⟨ach, hach, rfl, hb⟩, by simpa using hk⟩

theorem mem_refNamesID (achs : List AchBooks) (k : String) (nm : String) :
    nm ∈ refNamesID achs k ↔ ∃ ach ∈ achs, ach.name = nm ∧ ∃ b ∈ ach.books, idKey b = k := by
  rw [refNamesID, mem_addAll]
  simp only [List.not_mem_nil, false_or, List.mem_map]
  constructor
  · rintro ⟨p, hp, hpn⟩
    rcases List.mem_filter.mp hp with ⟨hpm, hpk⟩
    rcases (mem_achPairs achs p).mp hpm with ⟨ach, hach, hn, hb⟩
    exact ⟨ach, hach, hn.trans hpn, ⟨p.2, hb, by simpa using hpk⟩⟩
  · rintro ⟨ach, hach, hn, b, hb, hk⟩
    refine ⟨(ach.name, b), ?_, hn⟩
    exact List.mem_filter.mpr ⟨(mem_achPairs achs _).mpr ⟨ach, hach, rfl, hb⟩, by simpa using hk⟩

theorem mem_refNamesComp (cachs : List CompAch) (k : String × String) (nm : String) :
    nm ∈ refNamesComp cachs k ↔
      ∃ ach ∈ cachs, ach.name = nm ∧ ∃ b ∈ ach.books, compKey b = k := by
  rw [refNamesComp, mem_addAll]
  simp only [List.not_mem_nil, false_or, List.mem_map]
  constructor
  · rintro ⟨p, hp, hpn⟩
    rcases List.mem_filter.mp hp with ⟨hpm, hpk⟩
    rcases (mem_compPairs cachs p).mp hpm with ⟨ach, hach, hn, hb⟩
    exact ⟨ach, hach, hn.trans hpn, ⟨p.2, hb, by simpa using hpk⟩⟩
  · rintro ⟨ach, hach, hn, b, hb, hk⟩
    refine ⟨(ach.name, b), ?_, hn⟩
    exact List.mem_filter.mpr ⟨(mem_compPairs cachs _).mpr ⟨ach, hach, rfl, hb⟩, by simpa using hk⟩

theorem build_duplicates_maps_fst (achs : List AchBooks) :
    (build_duplicates_maps achs).1 =
      psort dupTALeB
        (((((achPairs achs).foldl
            (fun m p => if (taKey p.2).1 ≠ "" then updTA m (taKey p.2) p.2 p.1 else m)
            []).filter (fun e => 1 < e.2.achievements.length)).map
          (fun e => { e.2 with achievements := psort strLeB e.2.achievements }))) := by
  simp only [build_duplicates_maps]
  rw [dup_fold_flatten, dupFold_fst]

theorem build_duplicates_maps_snd (achs : List AchBooks) :
    (build_duplicates_maps achs).2 =
      psort dupIDLeB
        (((((achPairs achs).foldl
            (fun m p =>
              if pystrip p.2.gr_id ≠ "" then updID m (pystrip p.2.gr_id) p.2 p.1 else m)
            []).filter (fun e => 1 < e.2.achievements.length)).map
          (fun e => { e.2 with achievements := psort strLeB e.2.achievements }))) := by
  simp only [build_duplicates_maps]
  rw [dup_fold_flatten, dupFold_snd]

theorem build_dedupe_index_eq (cachs : List CompAch) :
    build_dedupe_index cachs =
      ((((compPairs cachs).foldl (fun m p => dedupeIndexStep p.1 m p.2) []).filter
        (fun e => 1 < e.2.achievements.length)).map (fun e => e.2)) := by
  simp only [build_dedupe_index]
  rw [comp_fold_flatten]

theorem ta_entry_sound (achs : List AchBooks) (e : DupRecTA)
    (he : e ∈ (build_duplicates_maps achs).1) :
    ∃ k : String × String, k.1 ≠ "" ∧
      (pylower (pystrip e.title), pylower (pystrip e.author)) = k ∧
      2 ≤ (refNamesTA achs k).length ∧
      e.achievements = psort strLeB (refNamesTA achs k) ∧
      ∃ p, (pairsTA achs k).head? = some p ∧ e.title = p.2.title ∧ e.author = p.2.author := by
  rw [build_duplicates_maps_fst] at he
  rcases List.mem_map.mp ((mem_psort _ _ e).mp he) with ⟨em, hem, hg⟩
  rcases List.mem_filter.mp hem with ⟨hm, hlen⟩
  have hlen' : 1 < em.2.achievements.length := by simpa using hlen
  have hnod := taFold_keys_nodup (achPairs achs) [] (by simp)
  have hfind : findTA
      ((achPairs achs).foldl
        (fun m p => if (taKey p.2).1 ≠ "" then updTA m (taKey p.2) p.2 p.1 else m) [])
      em.1 = some em.2 :=
    mem_findTA _ hnod em.1 em.2 (by rw [Prod.mk.eta]; exact hm)
  have hk : em.1.1 ≠ "" := by
    intro hc
    rw [taFold_lookup_empty _ [] em.1 hc] at hfind
    simp [findTA] at hfind
  have hchar2 : some em.2 =
      (pairsTA achs em.1).head?.map
        (fun p => { title := p.2.title, author := p.2.author,
                    achievements := refNamesTA achs em.1 : DupRecTA }) := by
    have hchar := taFold_lookup (achPairs achs) [] em.1 hk
    rw [hfind] at hchar
    exact hchar
  cases hh : (pairsTA achs em.1).head? with
  | none => rw [hh] at hchar2; simp at hchar2
  | some p =>
    rw [hh] at hchar2
    have hchar3 : some em.2 =
        some { title := p.2.title, author := p.2.author,
               achievements := refNamesTA achs em.1 : DupRecTA } := hchar2
    injection hchar3 with hrec
    have hpmem : p ∈ pairsTA achs em.1 := by
      cases hl : pairsTA achs em.1 with
      | nil => rw [hl] at hh; exact absurd hh (by simp)
      | cons q rest =>
        rw [hl] at hh
        injection hh with hh
        rw [hh]
        exact List.mem_cons_self _ _
    have hpmem2 : p ∈ (achPairs achs).filter (fun p => taKey p.2 = em.1) := by
      rw [pairsTA] at hpmem
      exact hpmem
    have hkey : taKey p.2 = em.1 := of_decide_eq_true (List.mem_filter.mp hpmem2).2
    refine ⟨em.1, hk, ?_, ?_, ?_, p, hh, ?_, ?_⟩
    · rw [← hg, hrec]
      rw [taKey] at hkey
      exact hkey
    · have hach : em.2.achievements = refNamesTA achs em.1 := by rw [hrec]
      rw [← hach]
      omega
    · rw [← hg, hrec]
    · rw [← hg, hrec]
    · rw [← hg, hrec]

theorem ta_entry_complete (achs : List AchBooks) (k : String × String) (hk : k.1 ≠ "")
    (hlen : 2 ≤ (refNamesTA achs k).length) :
    ∃ e ∈ (build_duplicates_maps achs).1,
      e.achievements = psort strLeB (refNamesTA achs k) ∧
      ∃ p, (pairsTA achs k).head? = some p ∧ e.title = p.2.title ∧ e.author = p.2.author := by
  cases hh : (pairsTA achs k).head? with
  | none =>
    have hnil : pairsTA achs k = [] := by
      cases hl : pairsTA achs k with
      | nil => rfl
      | cons q rest => rw [hl] at hh; exact absurd hh (by simp)
    rw [refNamesTA, hnil] at hlen
    simp [addAll] at hlen
  | some p =>
    have hchar2 : findTA
        ((achPairs achs).foldl
          (fun m p => if (taKey p.2).1 ≠ "" then updTA m (taKey p.2) p.2 p.1 else m) [])
        k =
        (pairsTA achs k).head?.map
          (fun p => { title := p.2.title, author := p.2.author,
                      achievements := refNamesTA achs k : DupRecTA }) :=
      taFold_lookup (achPairs achs) [] k hk
    rw [hh] at hchar2
    have hchar3 : findTA
        ((achPairs achs).foldl
          (fun m p => if (taKey p.2).1 ≠ "" then updTA m (taKey p.2) p.2 p.1 else m) [])
        k = some { title := p.2.title, author := p.2.author,
                   achievements := refNamesTA achs k : DupRecTA } := hchar2
    have hmem := findTA_mem _ k _ hchar3
    refine ⟨{ title := p.2.title, author := p.2.author,
              achievements := psort strLeB (refNamesTA achs k) }, ?_, rfl, p, rfl, rfl, rfl⟩
    rw [build_duplicates_maps_fst]
    refine (mem_psort _ _ _).mpr ?_
    refine List.mem_map.mpr
      ⟨(k, { title := p.2.title, author := p.2.author,
             achievements := refNamesTA achs k : DupRecTA }),
        List.mem_filter.mpr ⟨hmem, ?_⟩, rfl⟩
    have : 1 < (refNamesTA achs k).length := by omega
    simpa using this

theorem id_entry_sound (achs : List AchBooks) (e : DupRecID)
    (he : e ∈ (build_duplicates_maps achs).2) :
    e.gr_id ≠ "" ∧ 2 ≤ (refNamesID achs e.gr_id).length ∧
    e.achievements = psort strLeB (refNamesID achs e.gr_id) ∧
    ∃ p, (pairsID achs e.gr_id).head? = some p ∧ e.title = p.2.title ∧ e.author = p.2.author := by
  rw [build_duplicates_maps_snd] at he
  rcases List.mem_map.mp ((mem_psort _ _ e).mp he) with ⟨em, hem, hg⟩
  rcases List.mem_filter.mp hem with ⟨hm, hlen⟩
  have hlen' : 1 < em.2.achievements.length := by simpa using hlen
  have hnod := idFold_keys_nodup (achPairs achs) [] (by simp)
  have hfind : findID
      ((achPairs achs).foldl
        (fun m p => if pystrip p.2.gr_id ≠ "" then updID m (pystrip p.2.gr_id) p.2 p.1 else m)
        [])
      em.1 = some em.2 :=
    mem_findID _ hnod em.1 em.2 (by rw [Prod.mk.eta]; exact hm)
  have hk : em.1 ≠ "" := by
    intro hc
    rw [idFold_lookup_empty _ [] em.1 hc] at hfind
    simp [findID] at hfind
  have hchar2 : some em.2 =
      (pairsID achs em.1).head?.map
        (fun p => { gr_id := em.1, title := p.2.title, author := p.2.author,
                    achievements := refNamesID achs em.1 : DupRecID }) := by
    have hchar := idFold_lookup (achPairs achs) [] em.1 hk
    rw [hfind] at hchar
    exact hchar
  cases hh : (pairsID achs em.1).head? with
  | none => rw [hh] at hchar2; simp at hchar2
  | some p =>
    rw [hh] at hchar2
    have hchar3 : some em.2 =
        some { gr_id := em.1, title := p.2.title, author := p.2.author,
               achievements := refNamesID achs em.1 : DupRecID } := hchar2
    injection hchar3 with hrec
    have hegr : e.gr_id = em.1 := by rw [← hg, hrec]
    rw [hegr]
    refine ⟨hk, ?_, ?_, p, hh, ?_, ?_⟩
    · have hach : em.2.achievements = refNamesID achs em.1 := by rw [hrec]
      rw [← hach]
      omega
    · rw [← hg, hrec]
    · rw [← hg, hrec]
    · rw [← hg, hrec]

theorem id_entry_complete (achs : List AchBooks) (k : String) (hk : k ≠ "")
    (hlen : 2 ≤ (refNamesID achs k).length) :
    ∃ e ∈ (build_duplicates_maps achs).2, e.gr_id = k ∧
      e.achievements = psort strLeB (refNamesID achs k) ∧
      ∃ p, (pairsID achs k).head? = some p ∧ e.title = p.2.title ∧ e.author = p.2.author := by
  cases hh : (pairsID achs k).head? with
  | none =>
    have hnil : pairsID achs k = [] := by
      cases hl : pairsID achs k with
      | nil => rfl
      | cons q rest => rw [hl] at hh; exact absurd hh (by simp)
    rw [refNamesID, hnil] at hlen
    simp [addAll] at hlen
  | some p =>
    have hchar2 : findID
        ((achPairs achs).foldl
          (fun m p => if pystrip p.2.gr_id ≠ "" then updID m (pystrip p.2.gr_id) p.2 p.1 else m)
          [])
        k =
        (pairsID achs k).head?.map
          (fun p => { gr_id := k, title := p.2.title, author := p.2.author,
                      achievements := refNamesID achs k : DupRecID }) :=
      idFold_lookup (achPairs achs) [] k hk
    rw [hh] at hchar2
    have hchar3 : findID
        ((achPairs achs).foldl
          (fun m p => if pystrip p.2.gr_id ≠ "" then updID m (pystrip p.2.gr_id) p.2 p.1 else m)
          [])
        k = some { gr_id := k, title := p.2.title, author := p.2.author,
                   achievements := refNamesID achs k : DupRecID } := hchar2
    have hmem := findID_mem _ k _ hchar3
    refine ⟨{ gr_id := k, title := p.2.title, author := p.2.author,
              achievements := psort strLeB (refNamesID achs k) }, ?_, rfl, rfl, p, rfl, rfl, rfl⟩
    rw [build_duplicates_maps_snd]
    refine (mem_psort _ _ _).mpr ?_
    refine List.mem_map.mpr
      ⟨(k, { gr_id := k, title := p.2.title, author := p.2.author,
             achievements := refNamesID achs k : DupRecID }),
        List.mem_filter.mpr ⟨hmem, ?_⟩, rfl⟩
    have : 1 < (refNamesID achs k).length := by omega
    simpa using this

theorem comp_entry_sound (cachs : List CompAch) (e : DupRecTA)
    (he : e ∈ build_dedupe_index cachs) :
    2 ≤ e.achievements.length ∧
    ∃ k p, (pairsComp cachs k).head? = some p ∧ e.title = pystrip p.2.title ∧
      e.author = pystrip p.2.author ∧ e.achievements = refNamesComp cachs k ∧
      2 ≤ (refNamesComp cachs k).length := by
  rw [build_dedupe_index_eq] at he
  rcases List.mem_map.mp he with ⟨em, hem, hg⟩
  rcases List.mem_filter.mp hem with ⟨hm, hlen⟩
  have hlen' : 1 < em.2.achievements.length := by simpa using hlen
  have hnod := compFold_keys_nodup (compPairs cachs) [] (by simp)
  have hfind : findTA
      ((compPairs cachs).foldl (fun m p => dedupeIndexStep p.1 m p.2) []) em.1 = some em.2 :=
    mem_findTA _ hnod em.1 em.2 (by rw [Prod.mk.eta]; exact hm)
  have hchar2 : some em.2 =
      (pairsComp cachs em.1).head?.map
        (fun p => { title := pystrip p.2.title, author := pystrip p.2.author,
                    achievements := refNamesComp cachs em.1 : DupRecTA }) := by
    have hchar := compFold_lookup (compPairs cachs) [] em.1
    rw [hfind] at hchar
    exact hchar
  cases hh : (pairsComp cachs em.1).head? with
  | none => rw [hh] at hchar2; simp at hchar2
  | some p =>
    rw [hh] at hchar2
    have hchar3 : some em.2 =
        some { title := pystrip p.2.title, author := pystrip p.2.author,
               achievements := refNamesComp cachs em.1 : DupRecTA } := hchar2
    injection hchar3 with hrec
    have hach : em.2.achievements = refNamesComp cachs em.1 := by rw [hrec]
    constructor
    · rw [← hg]
      omega
    · refine ⟨em.1, p, hh, ?_, ?_, ?_, ?_⟩
      · rw [← hg, hrec]
      · rw [← hg, hrec]
      · rw [← hg, hach]
      · rw [← hach]
        omega

theorem comp_entry_complete (cachs : List CompAch) (k : String × String)
    (hlen : 2 ≤ (refNamesComp cachs k).length) :
    ∃ e ∈ build_dedupe_index cachs, e.achievements = refNamesComp cachs k ∧
      ∃ p, (pairsComp cachs k).head? = some p ∧ e.title = pystrip p.2.title ∧
        e.author = pystrip p.2.author := by
  cases hh : (pairsComp cachs k).head? with
  | none =>
    have hnil : pairsComp cachs k = [] := by
      cases hl : pairsComp cachs k with
      | nil => rfl
      | cons q rest => rw [hl] at hh; exact absurd hh (by simp)
    rw [refNamesComp, hnil] at hlen
    simp [addAll] at hlen
  | some p =>
    have hchar2 : findTA
        ((compPairs cachs).foldl (fun m p => dedupeIndexStep p.1 m p.2) []) k =
        (pairsComp cachs k).head?.map
          (fun p => { title := pystrip p.2.title, author := pystrip p.2.author,
                      achievements := refNamesComp cachs k : DupRecTA }) :=
      compFold_lookup (compPairs cachs) [] k
    rw [hh] at hchar2
    have hchar3 : findTA
        ((compPairs cachs).foldl (fun m p => dedupeIndexStep p.1 m p.2) []) k =
        some { title := pystrip p.2.title, author := pystrip p.2.author,
               achievements := refNamesComp cachs k : DupRecTA } := hchar2
    have hmem := findTA_mem _ k _ hchar3
    refine ⟨{ title := pystrip p.2.title, author := pystrip p.2.author,
              achievements := refNamesComp cachs k }, ?_, rfl, p, rfl, rfl, rfl⟩
    rw [build_dedupe_index_eq]
    refine List.mem_map.mpr
      ⟨(k, { title := pystrip p.2.title, author := pystrip p.2.author,
             achievements := refNamesComp cachs k : DupRecTA }),
        List.mem_filter.mpr ⟨hmem, ?_⟩, rfl⟩
    have : 1 < (refNamesComp cachs k).length := by omega
    simpa using this

/-- C5 amended: in the previous scraper's duplicate maps an entry exists
exactly for the keys referenced by at least two distinct achievement names,
`(title, author)` keys with an empty normalized title are skipped, and
entries carry the raw first-seen display fields; the compiler's dedupe
index also emits an entry exactly when at least two distinct achievement
names reference the key, but it does not skip empty normalized titles and
its entries carry the trimmed (stripped) first-seen display fields. The
final conjuncts ground the accumulated name sets in the data. -/
theorem duplicate_maps_membership (achs : List AchBooks) (cachs : List CompAch) :
    (∀ e ∈ (build_duplicates_maps achs).1,
      ∃ k : String × String, k.1 ≠ "" ∧
        (pylower (pystrip e.title), pylower (pystrip e.author)) = k ∧
        2 ≤ (refNamesTA achs k).length ∧
        e.achievements = psort strLeB (refNamesTA achs k) ∧
        ∃ p, (pairsTA achs k).head? = some p ∧ e.title = p.2.title ∧ e.author = p.2.author) ∧
    (∀ k : String × String, k.1 ≠ "" → 2 ≤ (refNamesTA achs k).length →
      ∃ e ∈ (build_duplicates_maps achs).1,
        e.achievements = psort strLeB (refNamesTA achs k) ∧
        ∃ p, (pairsTA achs k).head? = some p ∧ e.title = p.2.title ∧ e.author = p.2.author) ∧
    (∀ e ∈ (build_duplicates_maps achs).2,
      e.gr_id ≠ "" ∧ 2 ≤ (refNamesID achs e.gr_id).length ∧
      e.achievements = psort strLeB (refNamesID achs e.gr_id) ∧
      ∃ p, (pairsID achs e.gr_id).head? = some p ∧ e.title = p.2.title ∧
        e.author = p.2.author) ∧
    (∀ k : String, k ≠ "" → 2 ≤ (refNamesID achs k).length →
      ∃ e ∈ (build_duplicates_maps achs).2, e.gr_id = k ∧
        e.achievements = psort strLeB (refNamesID achs k) ∧
        ∃ p, (pairsID achs k).head? = some p ∧ e.title = p.2.title ∧ e.author = p.2.author) ∧
    (∀ e ∈ build_dedupe_index cachs,
      2 ≤ e.achievements.length ∧
      ∃ k p, (pairsComp cachs k).head? = some p ∧ e.title = pystrip p.2.title ∧
        e.author = pystrip p.2.author ∧ e.achievements = refNamesComp cachs k ∧
        2 ≤ (refNamesComp cachs k).length) ∧
    (∀ k : String × String, 2 ≤ (refNamesComp cachs k).length →
      ∃ e ∈ build_dedupe_index cachs, e.achievements = refNamesComp cachs k ∧
        ∃ p, (pairsComp cachs k).head? = some p ∧ e.title = pystrip p.2.title ∧
          e.author = pystrip p.2.author) ∧
    (∀ (k : String × String) (nm : String),
      nm ∈ refNamesTA achs k ↔ ∃ ach ∈ achs, ach.name = nm ∧ ∃ b ∈ ach.books, taKey b = k) ∧
    (∀ (k : String) (nm : String),
      nm ∈ refNamesID achs k ↔ ∃ ach ∈ achs, ach.name = nm ∧ ∃ b ∈ ach.books, idKey b = k) ∧
    (∀ (k : String × String) (nm : String),
      nm ∈ refNamesComp cachs k ↔
        ∃ ach ∈ cachs, ach.name = nm ∧ ∃ b ∈ ach.books, compKey b = k) :=
  ⟨ta_entry_sound achs, ta_entry_complete achs, id_entry_sound achs, id_entry_complete achs,
    comp_entry_sound cachs, comp_entry_complete cachs, mem_refNamesTA achs,
    mem_refNamesID achs, mem_refNamesComp cachs⟩

/-- A book with an empty title (compiler input). -/
def bookEmptyTitle : CompBook := { title := "", author := "x", link := "", cover := "" }

/-- A book whose title is whitespace only and author differs in case. -/
def bookBlankTitle : CompBook := { title := " ", author := "X ", link := "", cover := "" }

/-- First achievement carrying an empty-titled book. -/
def achEmptyA : CompAch := { name := "A", books := [bookEmptyTitle] }

/-- Second achievement carrying an empty-titled book under the same key. -/
def achEmptyB : CompAch := { name := "B", books := [bookBlankTitle] }

/-- C5 counterexample: the compiler's `build_dedupe_index` does not skip
`(title, author)` keys whose normalized title is empty — two achievements
sharing an empty-normalized-title book produce an emitted entry (with the
trimmed, here empty, display title), contradicting the claim that such
keys are skipped entirely. -/
theorem dedupe_index_keeps_empty_title :
    build_dedupe_index [achEmptyA, achEmptyB] =
      [{ title := "", author := "x", achievements := ["A", "B"] }] ∧
    norm "" = "" := by
  constructor
  · rfl
  · rfl

/-- A book titled "zeta" with id 7. -/
def bookZeta1 : BookRecord := { title := "zeta", author := "q", link := "", cover := "", gr_id := "7" }

/-- The same book with drifted casing and spacing. -/
def bookZeta2 : BookRecord := { title := "Zeta ", author := "Q", link := "", cover := "", gr_id := "7" }

/-- Achievement results sharing the book id 7 and the normalized title
key (zeta, q) across two achievements. -/
def achZetaB : AchBooks := { name := "B ach", books := [bookZeta1] }

/-- Second achievement referencing the same book id with drifted casing. -/
def achZetaA : AchBooks := { name := "A ach", books := [bookZeta2] }

theorem duplicate_maps_membership_witness :
    (∃ k : String × String, k.1 ≠ "" ∧
      (pylower (pystrip "zeta"), pylower (pystrip "q")) = k ∧
      2 ≤ (refNamesTA [achZetaB, achZetaA] k).length ∧
      (["A ach", "B ach"] : List String) = psort strLeB (refNamesTA [achZetaB, achZetaA] k) ∧
      ∃ p, (pairsTA [achZetaB, achZetaA] k).head? = some p ∧ "zeta" = p.2.title ∧
        "q" = p.2.author) ∧
    (∃ e ∈ (build_duplicates_maps [achZetaB, achZetaA]).2, e.gr_id = "7" ∧
      e.achievements = psort strLeB (refNamesID [achZetaB, achZetaA] "7") ∧
      ∃ p, (pairsID [achZetaB, achZetaA] "7").head? = some p ∧ e.title = p.2.title ∧
        e.author = p.2.author) := by
  have h := duplicate_maps_membership [achZetaB, achZetaA] []
  constructor
  · have hs := h.1 { title := "zeta", author := "q", achievements := ["A ach", "B ach"] }
      (by decide)
    exact hs
  · exact h.2.2.2.1 "7" (by decide) (by decide)

/-- C6 amended: the previous scraper's two duplicate-map sequences are both
sorted ascending by the case-folded (title, author) pair; the compiler's
`build_dedupe_index` emits its sequence in first-insertion order, which is
not sorted in general (see the counterexample). -/
theorem duplicates_maps_sorted (achs : List AchBooks) :
    ((build_duplicates_maps achs).1).Pairwise (fun d e => dupTALeB d e = true) ∧
    ((build_duplicates_maps achs).2).Pairwise (fun d e => dupIDLeB d e = true) := by
  constructor
  · rw [build_duplicates_maps_fst]
    exact psort_pairwise dupTALeB dupTALeB_total dupTALeB_trans _
  · rw [build_duplicates_maps_snd]
    exact psort_pairwise dupIDLeB dupIDLeB_total dupIDLeB_trans _

/-- A book titled "b" shared by both demo achievements. -/
def bookBx : CompBook := { title := "b", author := "x", link := "", cover := "" }

/-- A book titled "a" shared by both demo achievements. -/
def bookAx : CompBook := { title := "a", author := "x", link := "", cover := "" }

/-- First achievement listing the books in the order b, a. -/
def achSortA : CompAch := { name := "A", books := [bookBx, bookAx] }

/-- Second achievement listing the same books. -/
def achSortB : CompAch := { name := "B", books := [bookBx, bookAx] }

/-- C6 counterexample: the compiler's duplicate sequence is emitted in
first-insertion order, not sorted — with both shared books first seen in
the order b, a the emitted sequence has title "b" before "a", so it is not
sorted ascending by the case-folded (title, author) pair. -/
theorem dedupe_index_not_sorted :
    build_dedupe_index [achSortA, achSortB] =
      [{ title := "b", author := "x", achievements := ["A", "B"] },
       { title := "a", author := "x", achievements := ["A", "B"] }] ∧
    ¬ (build_dedupe_index [achSortA, achSortB]).Pairwise (fun d e => dupTALeB d e = true) := by
  constructor
  · rfl
  · intro h
    have h' : ([{ title := "b", author := "x", achievements := ["A", "B"] },
        { title := "a", author := "x", achievements := ["A", "B"] }] : List DupRecTA).Pairwise
        (fun d e => dupTALeB d e = true) := h
    have h2 := (List.pairwise_cons.mp h').1
      { title := "a", author := "x", achievements := ["A", "B"] } (by simp)
    exact absurd h2 (by decide)

/-! ## Lemmas: URL structure (claims C4, C10) -/

theorem stripPre_append (p r : List Char) : stripPre p (p ++ r) = some r := by
  induction p with
  | nil => rfl
  | cons c p ih => simp [stripPre, ih]

theorem stripPre_some (p l r : List Char) (h : stripPre p l = some r) : l = p ++ r := by
  induction p generalizing l with
  | nil =>
    rw [stripPre] at h
    rw [List.nil_append]
    exact Option.some.inj h
  | cons c p ih =>
    cases l with
    | nil => simp [stripPre] at h
    | cons d l =>
      rw [stripPre] at h
      by_cases hd : c = d
      · rw [if_pos hd] at h
        rw [List.cons_append, ← hd, ih l h]
      · rw [if_neg hd] at h
        exact absurd h (by simp)

theorem isPre_iff (p l : List Char) : isPreOf p l = true ↔ ∃ r, l = p ++ r := by
  rw [isPreOf]
  constructor
  · intro h
    cases hs : stripPre p l with
    | none => rw [hs] at h; exact absurd h (by simp)
    | some r => exact ⟨r, stripPre_some p l r hs⟩
  · rintro ⟨r, rfl⟩
    rw [stripPre_append]
    rfl

theorem takeWhile_all (p : Char → Bool) (l : List Char) (h : ∀ c ∈ l, p c = true) :
    l.takeWhile p = l := by
  induction l with
  | nil => rfl
  | cons c cs ih =>
    rw [List.takeWhile_cons, if_pos (h c (List.mem_cons_self _ _))]
    rw [ih (fun x hx => h x (List.mem_cons_of_mem _ hx))]

theorem takeWhile_append_all (p : Char → Bool) (u v : List Char)
    (h : ∀ c ∈ u, p c = true) :
    (u ++ v).takeWhile p = u ++ v.takeWhile p := by
  induction u with
  | nil => rfl
  | cons c cs ih =>
    rw [List.cons_append, List.takeWhile_cons, if_pos (h c (List.mem_cons_self _ _)),
      ih (fun x hx => h x (List.mem_cons_of_mem _ hx))]
    rfl

theorem takeWhile_stop (p : Char → Bool) (v : List Char)
    (h : v = [] ∨ ∃ c cs, v = c :: cs ∧ p c = false) : v.takeWhile p = [] := by
  rcases h with rfl | ⟨c, cs, rfl, hc⟩
  · rfl
  · rw [List.takeWhile_cons, if_neg (by simp [hc])]

theorem takedrop_split (p : Char → Bool) (u v : List Char)
    (hu : ∀ c ∈ u, p c = true)
    (hv : v = [] ∨ ∃ c cs, v = c :: cs ∧ p c = false) :
    (u ++ v).takeWhile p = u ∧ (u ++ v).dropWhile p = v := by
  constructor
  · rw [takeWhile_append_all p u v hu, takeWhile_stop p v hv, List.append_nil]
  · induction u with
    | nil =>
      rcases hv with rfl | ⟨c, cs, rfl, hc⟩
      · rfl
      · rw [List.nil_append, List.dropWhile_cons, if_neg (by simp [hc])]
    | cons c cs ih =>
      rw [List.cons_append, List.dropWhile_cons, if_pos (hu c (List.mem_cons_self _ _))]
      exact ih (fun x hx => hu x (List.mem_cons_of_mem _ hx))

theorem splitScheme_some (s a b : List Char) (h : splitScheme s = some (a, b)) :
    s = a ++ ':' :: '/' :: '/' :: b ∧ splitScheme a = none := by
  induction s generalizing a b with
  | nil => simp [splitScheme] at h
  | cons c rest ih =>
    rw [splitScheme] at h
    by_cases hc : c = ':' ∧ isPreOf ['/', '/'] rest = true
    · rw [if_pos hc] at h
      injection h with h
      obtain ⟨h1, h2⟩ := (Prod.mk.injEq _ _ _ _).mp h
      subst h1
      subst h2
      rcases (isPre_iff _ _).mp hc.2 with ⟨t, rfl⟩
      rw [hc.1]
      exact ⟨rfl, rfl⟩
    · rw [if_neg hc] at h
      cases hr : splitScheme rest with
      | none => rw [hr] at h; exact absurd h (by simp)
      | some ab =>
        obtain ⟨a0, b0⟩ := ab
        rw [hr] at h
        injection h with h
        obtain ⟨h1, h2⟩ := (Prod.mk.injEq _ _ _ _).mp h
        subst h1
        subst h2
        rcases ih a0 b0 hr with ⟨hrest, hnone⟩
        constructor
        · rw [hrest]
          rfl
        · rw [splitScheme]
          have hcond : ¬(c = ':' ∧ isPreOf ['/', '/'] a0 = true) := by
            rintro ⟨hcc, hpre⟩
            rcases (isPre_iff _ _).mp hpre with ⟨t, rfl⟩
            refine hc ⟨hcc, (isPre_iff _ _).mpr ⟨t ++ ':' :: '/' :: '/' :: b0, ?_⟩⟩
            rw [hrest]
            simp
          rw [if_neg hcond, hnone]

theorem splitScheme_append (a b : List Char) (ha : splitScheme a = none) :
    splitScheme (a ++ ':' :: '/' :: '/' :: b) = some (a, b) := by
  induction a with
  | nil =>
    rw [List.nil_append, splitScheme,
      if_pos ⟨rfl, (isPre_iff _ _).mpr ⟨b, rfl⟩⟩]
    rfl
  | cons c a0 ih =>
    rw [splitScheme] at ha
    have hcond : ¬(c = ':' ∧ isPreOf ['/', '/'] a0 = true) := by
      intro hcc
      rw [if_pos hcc] at ha
      exact absurd ha (by simp)
    rw [if_neg hcond] at ha
    have ha0 : splitScheme a0 = none := by
      cases hr : splitScheme a0 with
      | none => rfl
      | some ab => rw [hr] at ha; exact absurd ha (by simp)
    rw [List.cons_append, splitScheme]
    have hcond2 : ¬(c = ':' ∧ isPreOf ['/', '/'] (a0 ++ ':' :: '/' :: '/' :: b) = true) := by
      rintro ⟨hcc, hpre⟩
      rcases (isPre_iff _ _).mp hpre with ⟨t, ht⟩
      cases a0 with
      | nil =>
        rw [List.nil_append] at ht
        injection ht with he _
        exact absurd he (by decide)
      | cons d a1 =>
        rw [List.cons_append] at ht
        injection ht with hd ht
        cases a1 with
        | nil =>
          rw [List.nil_append] at ht
          injection ht with he _
          exact absurd he (by decide)
        | cons e a2 =>
          rw [List.cons_append] at ht
          injection ht with he _
          refine hcond ⟨hcc, (isPre_iff _ _).mpr ⟨a2, ?_⟩⟩
          rw [hd, he]
          rfl
    rw [if_neg hcond2, ih ha0]

theorem unique_split (P : Char → Bool) (u v u' v' : List Char) (h : u ++ v = u' ++ v')
    (hu : ∀ c ∈ u, P c = false) (hu' : ∀ c ∈ u', P c = false)
    (hv : v = [] ∨ ∃ c cs, v = c :: cs ∧ P c = true)
    (hv' : v' = [] ∨ ∃ c cs, v' = c :: cs ∧ P c = true) :
    u = u' ∧ v = v' := by
  induction u generalizing u' with
  | nil =>
    cases u' with
    | nil => exact ⟨rfl, h⟩
    | cons d u'' =>
      rw [List.nil_append, List.cons_append] at h
      rcases hv with rfl | ⟨c, cs, rfl, hc⟩
      · simp at h
      · injection h with h1 _
        have := hu' d (List.mem_cons_self _ _)
        rw [← h1, hc] at this
        exact absurd this (by simp)
  | cons c u0 ih =>
    cases u' with
    | nil =>
      rw [List.nil_append, List.cons_append] at h
      rcases hv' with rfl | ⟨d, ds, rfl, hd⟩
      · simp at h
      · injection h with h1 _
        have := hu c (List.mem_cons_self _ _)
        rw [h1, hd] at this
        exact absurd this (by simp)
    | cons d u1 =>
      rw [List.cons_append, List.cons_append] at h
      injection h with h1 h2
      rcases ih u1 h2 (fun x hx => hu x (List.mem_cons_of_mem _ hx))
        (fun x hx => hu' x (List.mem_cons_of_mem _ hx)) with ⟨he1, he2⟩
      exact ⟨by rw [h1, he1], he2⟩

theorem parseUrl_reconstruct (sch netloc path : List Char)
    (hs : splitScheme sch = none)
    (hn : ∀ c ∈ netloc, isNetlocEnd c = false)
    (hp : path = [] ∨ ∃ ps, path = '/' :: ps)
    (hp2 : ∀ c ∈ path, isPathEnd c = false) :
    parseUrl (sch ++ ':' :: '/' :: '/' :: (netloc ++ path)) =
      { scheme := sch, netloc := netloc, path := path } := by
  have hsplit := takedrop_split (fun c => !(isNetlocEnd c)) netloc path
    (fun c hc => by simp [hn c hc])
    (by
      rcases hp with rfl | ⟨ps, rfl⟩
      · exact Or.inl rfl
      · exact Or.inr ⟨'/', ps, rfl, by rfl⟩)
  simp only [parseUrl, splitScheme_append sch (netloc ++ path) hs]
  rw [hsplit.1, hsplit.2, takeWhile_all _ path (fun c hc => by simp [hp2 c hc])]

theorem dropWhile_head (p : Char → Bool) (l : List Char) :
    l.dropWhile p = [] ∨ ∃ c cs, l.dropWhile p = c :: cs ∧ p c = false := by
  induction l with
  | nil => exact Or.inl rfl
  | cons c cs ih =>
    rw [List.dropWhile_cons]
    by_cases hc : p c = true
    · rw [if_pos hc]
      exact ih
    · rw [if_neg hc]
      exact Or.inr ⟨c, cs, rfl, by simpa using hc⟩

theorem digit_not_pathEnd (c : Char) (h : c.isDigit = true) : isPathEnd c = false := by
  rw [isPathEnd]
  by_cases h1 : c = '?'
  · subst h1; exact absurd h (by decide)
  by_cases h2 : c = '#'
  · subst h2; exact absurd h (by decide)
  simp [h1, h2]

theorem parseUrl_full (sch nl rest : List Char)
    (hs : splitScheme sch = none)
    (hn : ∀ c ∈ nl, isNetlocEnd c = false)
    (hr : rest = [] ∨ ∃ t, rest = '/' :: t) :
    parseUrl (sch ++ ':' :: '/' :: '/' :: (nl ++ rest)) =
      { scheme := sch, netloc := nl, path := rest.takeWhile (fun c => !(isPathEnd c)) } := by
  have hsplit := takedrop_split (fun c => !(isNetlocEnd c)) nl rest
    (fun c hc => by simp [hn c hc])
    (by
      rcases hr with rfl | ⟨t, rfl⟩
      · exact Or.inl rfl
      · exact Or.inr ⟨'/', t, rfl, by rfl⟩)
  simp only [parseUrl, splitScheme_append sch (nl ++ rest) hs]
  rw [hsplit.1, hsplit.2]

theorem scheme_split_none (l : List Char) : splitScheme (parseUrl l).scheme = none := by
  rw [parseUrl]
  cases h : splitScheme l with
  | none => rfl
  | some ab =>
    obtain ⟨a, b⟩ := ab
    exact (splitScheme_some l a b h).2

theorem netloc_no_end (l : List Char) (c : Char) (hc : c ∈ (parseUrl l).netloc) :
    isNetlocEnd c = false := by
  rw [parseUrl] at hc
  cases h : splitScheme l with
  | none => rw [h] at hc; simp at hc
  | some ab =>
    obtain ⟨a, b⟩ := ab
    rw [h] at hc
    have := List.mem_takeWhile_imp hc
    simpa using this

theorem path_no_pathEnd (l : List Char) (c : Char) (hc : c ∈ (parseUrl l).path) :
    isPathEnd c = false := by
  rw [parseUrl] at hc
  cases h : splitScheme l with
  | none =>
    rw [h] at hc
    have := List.mem_takeWhile_imp hc
    simpa using this
  | some ab =>
    obtain ⟨a, b⟩ := ab
    rw [h] at hc
    have := List.mem_takeWhile_imp hc
    simpa using this

theorem path_shape (l : List Char) (h : (parseUrl l).scheme ≠ []) :
    (parseUrl l).path = [] ∨ ∃ t, (parseUrl l).path = '/' :: t := by
  cases hs : splitScheme l with
  | none => exact absurd (by rw [parseUrl, hs]) h
  | some ab =>
    obtain ⟨a, b⟩ := ab
    simp only [parseUrl, hs]
    rcases dropWhile_head (fun c => !(isNetlocEnd c)) b with hd | ⟨c, cs, hd, hc⟩
    · rw [hd]
      exact Or.inl rfl
    · rw [hd]
      have hc' : isNetlocEnd c = true := by simpa using hc
      by_cases h1 : c = '/'
      · subst h1
        rw [List.takeWhile_cons, if_pos (by decide)]
        exact Or.inr ⟨cs.takeWhile (fun c => !(isPathEnd c)), rfl⟩
      · have h2 : isPathEnd c = true := by
          rw [isNetlocEnd] at hc'
          simp only [Bool.or_eq_true, decide_eq_true_eq] at hc'
          rw [isPathEnd]
          rcases hc' with (h3 | h3) | h3
          · exact absurd h3 h1
          · simp [h3]
          · simp [h3]
        rw [List.takeWhile_cons, if_neg (by simp [h2])]
        exact Or.inl rfl

theorem isEmpty_false_ne (l : List Char) (h : l.isEmpty = false) : l ≠ [] := by
  intro hl
  subst hl
  simp at h

theorem ne_isEmpty_false (l : List Char) (h : l ≠ []) : l.isEmpty = false := by
  cases l with
  | nil => exact absurd rfl h
  | cons c cs => rfl

theorem matchBookPath_eval (sd ds slug : List Char)
    (hsd : sd = "show/".data ∨ sd = "details/".data)
    (hds : ds ≠ [] ∧ ∀ c ∈ ds, c.isDigit = true)
    (hslug : slug = [] ∨ ∃ c cs, slug = c :: cs ∧ c.isDigit = false) :
    matchBookPath ("/book/".data ++ sd ++ (ds ++ slug)) =
      some ('/' :: ("book/".data ++ sd), ds) := by
  have htw : (ds ++ slug).takeWhile Char.isDigit = ds := by
    rw [takeWhile_append_all _ _ _ hds.2, takeWhile_stop _ _ hslug, List.append_nil]
  have hne : ds.isEmpty = false := ne_isEmpty_false ds hds.1
  rcases hsd with rfl | rfl
  · have e1 : stripPre ['/'] ("/book/".data ++ "show/".data ++ (ds ++ slug)) =
        some ("book/show/".data ++ (ds ++ slug)) := rfl
    have e2 : stripPre "en/".data ("book/show/".data ++ (ds ++ slug)) = none := rfl
    have e3 : stripPre "book/".data ("book/show/".data ++ (ds ++ slug)) =
        some ("show/".data ++ (ds ++ slug)) := rfl
    have e4 : stripPre "show/".data ("show/".data ++ (ds ++ slug)) = some (ds ++ slug) :=
      stripPre_append _ _
    simp only [matchBookPath, e1, e2, e3, e4, htw, hne, Bool.false_eq_true, if_false,
      List.nil_append]
  · have e1 : stripPre ['/'] ("/book/".data ++ "details/".data ++ (ds ++ slug)) =
        some ("book/details/".data ++ (ds ++ slug)) := rfl
    have e2 : stripPre "en/".data ("book/details/".data ++ (ds ++ slug)) = none := rfl
    have e3 : stripPre "book/".data ("book/details/".data ++ (ds ++ slug)) =
        some ("details/".data ++ (ds ++ slug)) := rfl
    have e4 : stripPre "show/".data ("details/".data ++ (ds ++ slug)) = none := rfl
    have e5 : stripPre "details/".data ("details/".data ++ (ds ++ slug)) = some (ds ++ slug) :=
      stripPre_append _ _
    simp only [matchBookPath, e1, e2, e3, e4, e5, htw, hne, Bool.false_eq_true, if_false,
      List.nil_append]

theorem matchBookPath_inv (p g1 ds : List Char) (h : matchBookPath p = some (g1, ds)) :
    (g1 = "/book/show/".data ∨ g1 = "/book/details/".data ∨
      g1 = "/en/book/show/".data ∨ g1 = "/en/book/details/".data) ∧
    ds ≠ [] ∧ (∀ c ∈ ds, c.isDigit = true) := by
  rw [matchBookPath] at h
  cases h1 : stripPre ['/'] p with
  | none => rw [h1] at h; exact absurd h (by simp)
  | some p1 =>
    simp only [h1] at h
    cases h2 : stripPre "en/".data p1 with
    | some r =>
      simp only [h2] at h
      cases h3 : stripPre "book/".data r with
      | none => rw [h3] at h; exact absurd h (by simp)
      | some p3 =>
        simp only [h3] at h
        cases h4 : stripPre "show/".data p3 with
        | some p4 =>
          simp only [h4] at h
          by_cases h5 : (p4.takeWhile Char.isDigit).isEmpty = true
          · rw [if_pos h5] at h; exact absurd h (by simp)
          · rw [if_neg h5] at h
            injection h with h
            rw [Prod.mk.injEq] at h
            obtain ⟨hg, hd⟩ := h
            refine ⟨Or.inr (Or.inr (Or.inl (by rw [← hg]; rfl))), ?_, ?_⟩
            · rw [← hd]
              exact isEmpty_false_ne _ (Bool.not_eq_true _ ▸ (by simpa using h5))
            · intro c hc
              rw [← hd] at hc
              exact List.mem_takeWhile_imp hc
        | none =>
          simp only [h4] at h
          cases h6 : stripPre "details/".data p3 with
          | none => rw [h6] at h; exact absurd h (by simp)
          | some p4 =>
            simp only [h6] at h
            by_cases h5 : (p4.takeWhile Char.isDigit).isEmpty = true
            · rw [if_pos h5] at h; exact absurd h (by simp)
            · rw [if_neg h5] at h
              injection h with h
              rw [Prod.mk.injEq] at h
              obtain ⟨hg, hd⟩ := h
              refine ⟨Or.inr (Or.inr (Or.inr (by rw [← hg]; rfl))), ?_, ?_⟩
              · rw [← hd]
                exact isEmpty_false_ne _ (by simpa using h5)
              · intro c hc
                rw [← hd] at hc
                exact List.mem_takeWhile_imp hc
    | none =>
      simp only [h2] at h
      cases h3 : stripPre "book/".data p1 with
      | none => rw [h3] at h; exact absurd h (by simp)
      | some p3 =>
        simp only [h3] at h
        cases h4 : stripPre "show/".data p3 with
        | some p4 =>
          simp only [h4] at h
          by_cases h5 : (p4.takeWhile Char.isDigit).isEmpty = true
          · rw [if_pos h5] at h; exact absurd h (by simp)
          · rw [if_neg h5] at h
            injection h with h
            rw [Prod.mk.injEq] at h
            obtain ⟨hg, hd⟩ := h
            refine ⟨Or.inl (by rw [← hg]; rfl), ?_, ?_⟩
            · rw [← hd]
              exact isEmpty_false_ne _ (by simpa using h5)
            · intro c hc
              rw [← hd] at hc
              exact List.mem_takeWhile_imp hc
        | none =>
          simp only [h4] at h
          cases h6 : stripPre "details/".data p3 with
          | none => rw [h6] at h; exact absurd h (by simp)
          | some p4 =>
            simp only [h6] at h
            by_cases h5 : (p4.takeWhile Char.isDigit).isEmpty = true
            · rw [if_pos h5] at h; exact absurd h (by simp)
            · rw [if_neg h5] at h
              injection h with h
              rw [Prod.mk.injEq] at h
              obtain ⟨hg, hd⟩ := h
              refine ⟨Or.inr (Or.inl (by rw [← hg]; rfl)), ?_, ?_⟩
              · rw [← hd]
                exact isEmpty_false_ne _ (by simpa using h5)
              · intro c hc
                rw [← hd] at hc
                exact List.mem_takeWhile_imp hc

theorem bookIdSearch_cons_none (c : Char) (rest : List Char)
    (h : tryBookId (c :: rest) = none) :
    bookIdSearch (c :: rest) = bookIdSearch rest := by
  rw [bookIdSearch, h]

theorem seekGR (ds : List Char) (hne : (ds.takeWhile Char.isDigit).isEmpty = false) :
    bookIdSearch ("goodreads.com/book/show/".data ++ ds) =
      some (ds.takeWhile Char.isDigit) := by
  show bookIdSearch ('g' :: 'o' :: 'o' :: 'd' :: 'r' :: 'e' :: 'a' :: 'd' :: 's' :: '.' ::
    'c' :: 'o' :: 'm' :: '/' :: 'b' :: 'o' :: 'o' :: 'k' :: '/' :: 's' :: 'h' :: 'o' ::
    'w' :: '/' :: ds) = some (ds.takeWhile Char.isDigit)
  rw [bookIdSearch_cons_none 'g' _ rfl, bookIdSearch_cons_none 'o' _ rfl,
    bookIdSearch_cons_none 'o' _ rfl, bookIdSearch_cons_none 'd' _ rfl,
    bookIdSearch_cons_none 'r' _ rfl, bookIdSearch_cons_none 'e' _ rfl,
    bookIdSearch_cons_none 'a' _ rfl, bookIdSearch_cons_none 'd' _ rfl,
    bookIdSearch_cons_none 's' _ rfl, bookIdSearch_cons_none '.' _ rfl,
    bookIdSearch_cons_none 'c' _ rfl, bookIdSearch_cons_none 'o' _ rfl,
    bookIdSearch_cons_none 'm' _ rfl]
  rw [bookIdSearch]
  have hm : tryBookId ('/' :: 'b' :: 'o' :: 'o' :: 'k' :: '/' :: 's' :: 'h' :: 'o' :: 'w' ::
      '/' :: ds) = some (ds.takeWhile Char.isDigit) := by
    have h1 : stripPre "/book/show/".data ('/' :: 'b' :: 'o' :: 'o' :: 'k' :: '/' :: 's' ::
        'h' :: 'o' :: 'w' :: '/' :: ds) = some ds := stripPre_append _ _
    simp only [tryBookId, h1, hne, Bool.false_eq_true, if_false]
  rw [hm]

theorem left_ne_nil_append (u v : List Char) (h : u ≠ []) : u ++ v ≠ [] := by
  cases u with
  | nil => exact absurd rfl h
  | cons c cs => simp

theorem seekHostG (ds : List Char) (hne : (ds.takeWhile Char.isDigit).isEmpty = false) :
    bookIdSearch ('/' :: '/' :: ("goodreads.com/book/show/".data ++ ds)) =
      some (ds.takeWhile Char.isDigit) := by
  rw [bookIdSearch_cons_none '/' ('/' :: ("goodreads.com/book/show/".data ++ ds)) rfl,
    bookIdSearch_cons_none '/' ("goodreads.com/book/show/".data ++ ds) rfl]
  exact seekGR ds hne

theorem seekHostW (ds : List Char) (hne : (ds.takeWhile Char.isDigit).isEmpty = false) :
    bookIdSearch ('/' :: '/' :: 'w' :: 'w' :: 'w' :: '.' :: ("goodreads.com/book/show/".data ++ ds)) =
      some (ds.takeWhile Char.isDigit) := by
  rw [bookIdSearch_cons_none '/'
      ('/' :: 'w' :: 'w' :: 'w' :: '.' :: ("goodreads.com/book/show/".data ++ ds)) rfl,
    bookIdSearch_cons_none '/'
      ('w' :: 'w' :: 'w' :: '.' :: ("goodreads.com/book/show/".data ++ ds)) rfl,
    bookIdSearch_cons_none 'w' _ rfl, bookIdSearch_cons_none 'w' _ rfl,
    bookIdSearch_cons_none 'w' _ rfl, bookIdSearch_cons_none '.' _ rfl]
  exact seekGR ds hne

theorem book_id_from_href_eval (l ds : List Char) (h : bookIdSearch l = some ds)
    (hl : l ≠ []) :
    _book_id_from_href (String.mk l) = String.mk ds := by
  rw [_book_id_from_href]
  have hne : ¬(String.mk l = "") := by
    intro hq
    have h2 : l = [] := congrArg String.data hq
    exact hl h2
  rw [if_neg hne]
  have h3 : bookIdSearch (String.mk l).data = some ds := h
  simp only [h3]

theorem book_id_canon (sch host ds : List Char)
    (hsch : sch = "http".data ∨ sch = "https".data)
    (hhost : host = "goodreads.com".data ∨ host = "www.goodreads.com".data)
    (hds : ds ≠ [] ∧ ∀ c ∈ ds, c.isDigit = true) :
    _book_id_from_href (String.mk (sch ++ "://".data ++ host ++ "/book/show/".data ++ ds)) =
      String.mk ds := by
  have htw : ds.takeWhile Char.isDigit = ds := takeWhile_all _ _ hds.2
  have hne : (ds.takeWhile Char.isDigit).isEmpty = false := by
    rw [htw]; exact ne_isEmpty_false ds hds.1
  rcases hsch with rfl | rfl <;> rcases hhost with rfl | rfl
  · have hsr : bookIdSearch ("http".data ++ "://".data ++ "goodreads.com".data ++
        "/book/show/".data ++ ds) = some (ds.takeWhile Char.isDigit) := by
      show bookIdSearch ('h' :: 't' :: 't' :: 'p' :: ':' :: '/' :: '/' ::
        ("goodreads.com/book/show/".data ++ ds)) = some (ds.takeWhile Char.isDigit)
      rw [bookIdSearch_cons_none 'h' _ rfl, bookIdSearch_cons_none 't' _ rfl,
        bookIdSearch_cons_none 't' _ rfl, bookIdSearch_cons_none 'p' _ rfl,
        bookIdSearch_cons_none ':' _ rfl]
      exact seekHostG ds hne
    rw [htw] at hsr
    exact book_id_from_href_eval _ ds hsr (left_ne_nil_append _ _ (by decide))
  · have hsr : bookIdSearch ("http".data ++ "://".data ++ "www.goodreads.com".data ++
        "/book/show/".data ++ ds) = some (ds.takeWhile Char.isDigit) := by
      show bookIdSearch ('h' :: 't' :: 't' :: 'p' :: ':' :: '/' :: '/' :: 'w' :: 'w' :: 'w' ::
        '.' :: ("goodreads.com/book/show/".data ++ ds)) = some (ds.takeWhile Char.isDigit)
      rw [bookIdSearch_cons_none 'h' _ rfl, bookIdSearch_cons_none 't' _ rfl,
        bookIdSearch_cons_none 't' _ rfl, bookIdSearch_cons_none 'p' _ rfl,
        bookIdSearch_cons_none ':' _ rfl]
      exact seekHostW ds hne
    rw [htw] at hsr
    exact book_id_from_href_eval _ ds hsr (left_ne_nil_append _ _ (by decide))
  · have hsr : bookIdSearch ("https".data ++ "://".data ++ "goodreads.com".data ++
        "/book/show/".data ++ ds) = some (ds.takeWhile Char.isDigit) := by
      show bookIdSearch ('h' :: 't' :: 't' :: 'p' :: 's' :: ':' :: '/' :: '/' ::
        ("goodreads.com/book/show/".data ++ ds)) = some (ds.takeWhile Char.isDigit)
      rw [bookIdSearch_cons_none 'h' _ rfl, bookIdSearch_cons_none 't' _ rfl,
        bookIdSearch_cons_none 't' _ rfl, bookIdSearch_cons_none 'p' _ rfl,
        bookIdSearch_cons_none 's' _ rfl, bookIdSearch_cons_none ':' _ rfl]
      exact seekHostG ds hne
    rw [htw] at hsr
    exact book_id_from_href_eval _ ds hsr (left_ne_nil_append _ _ (by decide))
  · have hsr : bookIdSearch ("https".data ++ "://".data ++ "www.goodreads.com".data ++
        "/book/show/".data ++ ds) = some (ds.takeWhile Char.isDigit) := by
      show bookIdSearch ('h' :: 't' :: 't' :: 'p' :: 's' :: ':' :: '/' :: '/' :: 'w' :: 'w' ::
        'w' :: '.' :: ("goodreads.com/book/show/".data ++ ds)) = some (ds.takeWhile Char.isDigit)
      rw [bookIdSearch_cons_none 'h' _ rfl, bookIdSearch_cons_none 't' _ rfl,
        bookIdSearch_cons_none 't' _ rfl, bookIdSearch_cons_none 'p' _ rfl,
        bookIdSearch_cons_none 's' _ rfl, bookIdSearch_cons_none ':' _ rfl]
      exact seekHostW ds hne
    rw [htw] at hsr
    exact book_id_from_href_eval _ ds hsr (left_ne_nil_append _ _ (by decide))

theorem digit_head_of_takeWhile (r5 : List Char)
    (h : (!(r5.takeWhile Char.isDigit).isEmpty) = true) :
    ∃ d r, r5 = d :: r ∧ d.isDigit = true := by
  cases r5 with
  | nil => simp at h
  | cons d r =>
    by_cases hd : d.isDigit = true
    · exact ⟨d, r, rfl, hd⟩
    · rw [List.takeWhile_cons, if_neg (by simp [hd])] at h
      simp at h

theorem bookShowAbsMatch_inv (s : String) (h : bookShowAbsMatch s = true) :
    ∃ sch w sd d r,
      (sch = "http".data ∨ sch = "https".data) ∧
      (w = [] ∨ w = "www.".data) ∧
      (sd = "show/".data ∨ sd = "details/".data) ∧
      d.isDigit = true ∧
      s.data = sch ++ ':' :: '/' :: '/' :: ((w ++ "goodreads.com".data) ++
        '/' :: 'b' :: 'o' :: 'o' :: 'k' :: '/' :: (sd ++ d :: r)) := by
  rw [bookShowAbsMatch] at h
  cases h1 : stripPre "http".data s.data with
  | none => rw [h1] at h; exact absurd h (by simp)
  | some r1 =>
    simp only [h1] at h
    have hA := stripPre_some _ _ _ h1
    cases h2 : stripPre "s://".data r1 with
    | some r2 =>
      simp only [h2] at h
      have hB := stripPre_some _ _ _ h2
      cases h3 : stripPre "www.".data r2 with
      | some r3 =>
        simp only [h3] at h
        have hC := stripPre_some _ _ _ h3
        cases h4 : stripPre "goodreads.com/book/".data r3 with
        | none => rw [h4] at h; exact absurd h (by simp)
        | some r4 =>
          simp only [h4] at h
          have hD := stripPre_some _ _ _ h4
          cases h5 : stripPre "show/".data r4 with
          | some r5 =>
            simp only [h5] at h
            have hE := stripPre_some _ _ _ h5
            obtain ⟨d, r, rfl, hdig⟩ := digit_head_of_takeWhile r5 h
            refine ⟨"https".data, "www.".data, "show/".data, d, r,
              Or.inr rfl, Or.inr rfl, Or.inl rfl, hdig, ?_⟩
            rw [hA, hB, hC, hD, hE]
            rfl
          | none =>
            simp only [h5] at h
            cases h6 : stripPre "details/".data r4 with
            | none => rw [h6] at h; exact absurd h (by simp)
            | some r5 =>
              simp only [h6] at h
              have hE := stripPre_some _ _ _ h6
              obtain ⟨d, r, rfl, hdig⟩ := digit_head_of_takeWhile r5 h
              refine ⟨"https".data, "www.".data, "details/".data, d, r,
                Or.inr rfl, Or.inr rfl, Or.inr rfl, hdig, ?_⟩
              rw [hA, hB, hC, hD, hE]
              rfl
      | none =>
        simp only [h3] at h
        cases h4 : stripPre "goodreads.com/book/".data r2 with
        | none => rw [h4] at h; exact absurd h (by simp)
        | some r4 =>
          simp only [h4] at h
          have hD := stripPre_some _ _ _ h4
          cases h5 : stripPre "show/".data r4 with
          | some r5 =>
            simp only [h5] at h
            have hE := stripPre_some _ _ _ h5
            obtain ⟨d, r, rfl, hdig⟩ := digit_head_of_takeWhile r5 h
            refine ⟨"https".data, [], "show/".data, d, r,
              Or.inr rfl, Or.inl rfl, Or.inl rfl, hdig, ?_⟩
            rw [hA, hB, hD, hE]
            rfl
          | none =>
            simp only [h5] at h
            cases h6 : stripPre "details/".data r4 with
            | none => rw [h6] at h; exact absurd h (by simp)
            | some r5 =>
              simp only [h6] at h
              have hE := stripPre_some _ _ _ h6
              obtain ⟨d, r, rfl, hdig⟩ := digit_head_of_takeWhile r5 h
              refine ⟨"https".data, [], "details/".data, d, r,
                Or.inr rfl, Or.inl rfl, Or.inr rfl, hdig, ?_⟩
              rw [hA, hB, hD, hE]
              rfl
    | none =>
      simp only [h2] at h
      cases h2b : stripPre "://".data r1 with
      | none => rw [h2b] at h; exact absurd h (by simp)
      | some r2 =>
        simp only [h2b] at h
        have hB := stripPre_some _ _ _ h2b
        cases h3 : stripPre "www.".data r2 with
        | some r3 =>
          simp only [h3] at h
          have hC := stripPre_some _ _ _ h3
          cases h4 : stripPre "goodreads.com/book/".data r3 with
          | none => rw [h4] at h; exact absurd h (by simp)
          | some r4 =>
            simp only [h4] at h
            have hD := stripPre_some _ _ _ h4
            cases h5 : stripPre "show/".data r4 with
            | some r5 =>
              simp only [h5] at h
              have hE := stripPre_some _ _ _ h5
              obtain ⟨d, r, rfl, hdig⟩ := digit_head_of_takeWhile r5 h
              refine ⟨"http".data, "www.".data, "show/".data, d, r,
                Or.inl rfl, Or.inr rfl, Or.inl rfl, hdig, ?_⟩
              rw [hA, hB, hC, hD, hE]
              rfl
            | none =>
              simp only [h5] at h
              cases h6 : stripPre "details/".data r4 with
              | none => rw [h6] at h; exact absurd h (by simp)
              | some r5 =>
                simp only [h6] at h
                have hE := stripPre_some _ _ _ h6
                obtain ⟨d, r, rfl, hdig⟩ := digit_head_of_takeWhile r5 h
                refine ⟨"http".data, "www.".data, "details/".data, d, r,
                  Or.inl rfl, Or.inr rfl, Or.inr rfl, hdig, ?_⟩
                rw [hA, hB, hC, hD, hE]
                rfl
        | none =>
          simp only [h3] at h
          cases h4 : stripPre "goodreads.com/book/".data r2 with
          | none => rw [h4] at h; exact absurd h (by simp)
          | some r4 =>
            simp only [h4] at h
            have hD := stripPre_some _ _ _ h4
            cases h5 : stripPre "show/".data r4 with
            | some r5 =>
              simp only [h5] at h
              have hE := stripPre_some _ _ _ h5
              obtain ⟨d, r, rfl, hdig⟩ := digit_head_of_takeWhile r5 h
              refine ⟨"http".data, [], "show/".data, d, r,
                Or.inl rfl, Or.inl rfl, Or.inl rfl, hdig, ?_⟩
              rw [hA, hB, hD, hE]
              rfl
            | none =>
              simp only [h5] at h
              cases h6 : stripPre "details/".data r4 with
              | none => rw [h6] at h; exact absurd h (by simp)
              | some r5 =>
                simp only [h6] at h
                have hE := stripPre_some _ _ _ h6
                obtain ⟨d, r, rfl, hdig⟩ := digit_head_of_takeWhile r5 h
                refine ⟨"http".data, [], "details/".data, d, r,
                  Or.inl rfl, Or.inl rfl, Or.inr rfl, hdig, ?_⟩
                rw [hA, hB, hD, hE]
                rfl

theorem normalize_full_eq (sch host sd ds slug tail : List Char) (base : String)
    (hsch : sch = "http".data ∨ sch = "https".data)
    (hhost : ∀ c ∈ host, isNetlocEnd c = false)
    (hsd : sd = "show/".data ∨ sd = "details/".data)
    (hds : ds ≠ [] ∧ ∀ c ∈ ds, c.isDigit = true)
    (hslug : (∀ c ∈ slug, isPathEnd c = false) ∧
      (slug = [] ∨ ∃ c cs, slug = c :: cs ∧ c.isDigit = false))
    (htail : tail = [] ∨ ∃ c cs, tail = c :: cs ∧ isPathEnd c = true) :
    _normalize_book_link
        (String.mk (sch ++ "://".data ++ host ++ ("/book/".data ++ sd ++ (ds ++ slug) ++ tail)))
        base =
      String.mk (sch ++ "://".data ++ host ++ ("/book/show/".data ++ ds)) := by
  have hschN : splitScheme sch = none := by rcases hsch with rfl | rfl <;> rfl
  have hmemP : ∀ c ∈ ("/book/".data ++ sd ++ (ds ++ slug)),
      (fun c => !(isPathEnd c)) c = true := by
    intro c hc
    simp only [List.append_assoc, List.mem_append] at hc
    rcases hc with hc | hc | hc | hc
    · have h0 := (by decide : ∀ x ∈ ("/book/".data : List Char), isPathEnd x = false)
      simp [h0 c hc]
    · rcases hsd with rfl | rfl
      · have h0 := (by decide : ∀ x ∈ ("show/".data : List Char), isPathEnd x = false)
        simp [h0 c hc]
      · have h0 := (by decide : ∀ x ∈ ("details/".data : List Char), isPathEnd x = false)
        simp [h0 c hc]
    · simp [digit_not_pathEnd c (hds.2 c hc)]
    · simp [hslug.1 c hc]
  have habs : _abs
      (String.mk (sch ++ "://".data ++ host ++ ("/book/".data ++ sd ++ (ds ++ slug) ++ tail)))
      base =
      String.mk (sch ++ "://".data ++ host ++ ("/book/".data ++ sd ++ (ds ++ slug) ++ tail)) := by
    rcases hsch with rfl | rfl <;> (rw [_abs, if_pos]; rfl)
  have hassoc : sch ++ "://".data ++ host ++ ("/book/".data ++ sd ++ (ds ++ slug) ++ tail) =
      sch ++ ':' :: '/' :: '/' ::
        (host ++ ("/book/".data ++ sd ++ (ds ++ slug) ++ tail)) := by
    simp only [List.append_assoc]
    rfl
  have hparse : parseUrl
      (String.mk (sch ++ "://".data ++ host ++ ("/book/".data ++ sd ++ (ds ++ slug) ++ tail))).data =
      { scheme := sch, netloc := host,
        path := ("/book/".data ++ sd ++ (ds ++ slug) ++ tail).takeWhile
          (fun c => !(isPathEnd c)) } := by
    have h1 : (String.mk (sch ++ "://".data ++ host ++
        ("/book/".data ++ sd ++ (ds ++ slug) ++ tail))).data =
        sch ++ ':' :: '/' :: '/' ::
          (host ++ ("/book/".data ++ sd ++ (ds ++ slug) ++ tail)) := hassoc
    rw [h1]
    exact parseUrl_full sch host _ hschN hhost
      (Or.inr ⟨'b' :: 'o' :: 'o' :: 'k' :: '/' :: [] ++ sd ++ (ds ++ slug) ++ tail, by
        simp only [List.append_assoc]
        rfl⟩)
  have htake : ("/book/".data ++ sd ++ (ds ++ slug) ++ tail).takeWhile
      (fun c => !(isPathEnd c)) = "/book/".data ++ sd ++ (ds ++ slug) := by
    rw [takeWhile_append_all _ _ _ hmemP, takeWhile_stop, List.append_nil]
    rcases htail with rfl | ⟨c, cs, rfl, hc⟩
    · exact Or.inl rfl
    · exact Or.inr ⟨c, cs, rfl, by simp [hc]⟩
  have htake2 : ("/book/".data ++ sd ++ (ds ++ slug)).takeWhile
      (fun c => !(isPathEnd c)) = "/book/".data ++ sd ++ (ds ++ slug) :=
    takeWhile_all _ _ hmemP
  have hmatch := matchBookPath_eval sd ds slug hsd hds hslug.2
  have hrw : rewriteBookPath ("/book/".data ++ sd ++ (ds ++ slug)) =
      "/book/show/".data ++ ds := by
    simp only [rewriteBookPath, hmatch]
    rcases hsd with rfl | rfl
    · have : replaceSub "/details/".data "/show/".data
          ('/' :: ("book/".data ++ "show/".data)) = "/book/show/".data := by decide
      rw [this]
    · have : replaceSub "/details/".data "/show/".data
          ('/' :: ("book/".data ++ "details/".data)) = "/book/show/".data := by decide
      rw [this]
  rw [_normalize_book_link]
  simp only [habs, hparse, htake, htake2, hrw]

theorem hasScheme_slash (xs : List Char) : hasScheme ('/' :: xs) = false := by
  rw [hasScheme]
  cases hsp : splitScheme ('/' :: xs) with
  | none => rfl
  | some ab =>
    obtain ⟨a, b⟩ := ab
    have h := splitScheme_some _ a b hsp
    cases a with
    | nil =>
      have h1 := h.1
      rw [List.nil_append] at h1
      injection h1 with h1 _
      exact absurd h1 (by decide)
    | cons c a2 =>
      have h1 := h.1
      rw [List.cons_append] at h1
      injection h1 with h1 _
      have hf : (fun c => c.isAlphanum || c = '+' || c = '-' || c = '.') '/' = false := by
        decide
      rw [← h1]
      simp [List.all_cons, hf]

theorem abs_of_http (l : List Char) (b : String) (hpre : isPreOf "http".data l = true) :
    _abs (String.mk l) b = String.mk l := by
  rw [_abs, if_pos]
  exact hpre

theorem normalize_via_abs (s1 s2 b1 b2 : String) (h : _abs s1 b1 = _abs s2 b2) :
    _normalize_book_link s1 b1 = _normalize_book_link s2 b2 := by
  rw [_normalize_book_link, _normalize_book_link, h]

theorem abs_relative_eval (sch host bpath p : List Char)
    (hsch : sch = "http".data ∨ sch = "https".data)
    (hhost : ∀ c ∈ host, isNetlocEnd c = false)
    (hbp : bpath = [] ∨ ∃ t, bpath = '/' :: t)
    (hp : ∃ rest, p = '/' :: 'b' :: rest) :
    _abs (String.mk p) (String.mk (sch ++ "://".data ++ host ++ bpath)) =
      String.mk (sch ++ "://".data ++ host ++ p) := by
  obtain ⟨rest, rfl⟩ := hp
  have hschN : splitScheme sch = none := by rcases hsch with rfl | rfl <;> rfl
  have hf : isPreOf "http".data (String.mk ('/' :: 'b' :: rest)).data = false := rfl
  rw [_abs, if_neg (by simp [hf])]
  have hg : hasScheme (String.mk ('/' :: 'b' :: rest)).data = false := hasScheme_slash _
  have hij : isPreOf ['/', '/'] (String.mk ('/' :: 'b' :: rest)).data = false := rfl
  have hk : isPreOf ['/'] (String.mk ('/' :: 'b' :: rest)).data = true := rfl
  rw [urljoinModel, if_neg (by simp [hg]), if_neg (by simp [hij]), if_pos hk]
  have hassocB : sch ++ "://".data ++ host ++ bpath =
      sch ++ ':' :: '/' :: '/' :: (host ++ bpath) := by
    simp only [List.append_assoc]
    rfl
  have hparseB : parseUrl (String.mk (sch ++ "://".data ++ host ++ bpath)).data =
      { scheme := sch, netloc := host,
        path := bpath.takeWhile (fun c => !(isPathEnd c)) } := by
    have h1 : (String.mk (sch ++ "://".data ++ host ++ bpath)).data =
        sch ++ ':' :: '/' :: '/' :: (host ++ bpath) := hassocB
    rw [h1]
    exact parseUrl_full sch host _ hschN hhost hbp
  simp only [hparseB]

/-- C4: `_normalize_book_link` is idempotent — applied to a canonical link it has
already produced, it returns that link unchanged — and it maps differently-spelled
references to the same numeric resource id (relative versus absolute, `/details/`
versus `/show/`, with or without a query string / fragment tail or a trailing
non-digit title slug) to the same canonical string
`scheme://host/book/show/<id>`, stripping query and fragment and preserving the
numeric identifier. -/
theorem link_canonicalizer_collapses (sch host sd ds slug tail bpath : List Char)
    (base : String)
    (hsch : sch = "http".data ∨ sch = "https".data)
    (hhost : ∀ c ∈ host, isNetlocEnd c = false)
    (hsd : sd = "show/".data ∨ sd = "details/".data)
    (hds : ds ≠ [] ∧ ∀ c ∈ ds, c.isDigit = true)
    (hslug : (∀ c ∈ slug, isPathEnd c = false) ∧
      (slug = [] ∨ ∃ c cs, slug = c :: cs ∧ c.isDigit = false))
    (htail : tail = [] ∨ ∃ c cs, tail = c :: cs ∧ isPathEnd c = true)
    (hbp : bpath = [] ∨ ∃ t, bpath = '/' :: t) :
    _normalize_book_link
        (String.mk (sch ++ "://".data ++ host ++ ("/book/".data ++ sd ++ (ds ++ slug) ++ tail)))
        base =
      String.mk (sch ++ "://".data ++ host ++ ("/book/show/".data ++ ds)) ∧
    _normalize_book_link (String.mk ("/book/".data ++ sd ++ (ds ++ slug) ++ tail))
        (String.mk (sch ++ "://".data ++ host ++ bpath)) =
      String.mk (sch ++ "://".data ++ host ++ ("/book/show/".data ++ ds)) ∧
    _normalize_book_link
        (String.mk (sch ++ "://".data ++ host ++ ("/book/show/".data ++ ds))) base =
      String.mk (sch ++ "://".data ++ host ++ ("/book/show/".data ++ ds)) := by
  have habs := normalize_full_eq sch host sd ds slug tail base hsch hhost hsd hds hslug htail
  refine ⟨habs, ?_, ?_⟩
  · have h1 : _abs (String.mk ("/book/".data ++ sd ++ (ds ++ slug) ++ tail))
        (String.mk (sch ++ "://".data ++ host ++ bpath)) =
        String.mk (sch ++ "://".data ++ host ++
          ("/book/".data ++ sd ++ (ds ++ slug) ++ tail)) :=
      abs_relative_eval sch host bpath _ hsch hhost hbp
        ⟨'o' :: 'o' :: 'k' :: '/' :: (sd ++ (ds ++ slug) ++ tail), rfl⟩
    have h2 : _abs (String.mk (sch ++ "://".data ++ host ++
        ("/book/".data ++ sd ++ (ds ++ slug) ++ tail))) base =
        String.mk (sch ++ "://".data ++ host ++
          ("/book/".data ++ sd ++ (ds ++ slug) ++ tail)) :=
      abs_of_http _ _ (by rcases hsch with rfl | rfl <;> rfl)
    rw [normalize_via_abs _ _ _ _ (h1.trans h2.symm)]
    exact habs
  · have h3 := normalize_full_eq sch host "show/".data ds [] [] base hsch hhost
      (Or.inl rfl) hds ⟨by simp, Or.inl rfl⟩ (Or.inl rfl)
    have harg : sch ++ "://".data ++ host ++
        ("/book/".data ++ "show/".data ++ (ds ++ []) ++ []) =
        sch ++ "://".data ++ host ++ ("/book/show/".data ++ ds) := by
      simp only [List.append_nil]
      rfl
    rw [harg] at h3
    exact h3

theorem link_canonicalizer_collapses_witness :
    (("123" : String).data ≠ [] ∧ ∀ c ∈ ("123" : String).data, c.isDigit = true) ∧
    (_normalize_book_link
        (String.mk ("https".data ++ "://".data ++ "www.goodreads.com".data ++
          ("/book/".data ++ "details/".data ++ ("123".data ++ "-great".data) ++ "?x=1".data)))
        "https://example.org/" =
      String.mk ("https".data ++ "://".data ++ "www.goodreads.com".data ++
        ("/book/show/".data ++ "123".data)) ∧
    _normalize_book_link
        (String.mk ("/book/".data ++ "details/".data ++ ("123".data ++ "-great".data) ++
          "?x=1".data))
        (String.mk ("https".data ++ "://".data ++ "www.goodreads.com".data ++ "/blog".data)) =
      String.mk ("https".data ++ "://".data ++ "www.goodreads.com".data ++
        ("/book/show/".data ++ "123".data)) ∧
    _normalize_book_link
        (String.mk ("https".data ++ "://".data ++ "www.goodreads.com".data ++
          ("/book/show/".data ++ "123".data))) "https://example.org/" =
      String.mk ("https".data ++ "://".data ++ "www.goodreads.com".data ++
        ("/book/show/".data ++ "123".data))) :=
  ⟨⟨by decide, by decide⟩,
    link_canonicalizer_collapses "https".data "www.goodreads.com".data "details/".data
      "123".data "-great".data "?x=1".data "/blog".data "https://example.org/"
      (Or.inr rfl) (by decide) (Or.inr rfl) ⟨by decide, by decide⟩
      ⟨by decide, Or.inr ⟨'-', "great".data, rfl, by decide⟩⟩
      (Or.inr ⟨'?', "x=1".data, rfl, by decide⟩)
      (Or.inr ⟨"blog".data, rfl⟩)⟩

theorem normalize_match_shape (href base : String)
    (hm : bookShowAbsMatch (_normalize_book_link href base) = true) :
    ∃ sch host ds,
      (sch = "http".data ∨ sch = "https".data) ∧
      (host = "goodreads.com".data ∨ host = "www.goodreads.com".data) ∧
      ds ≠ [] ∧ (∀ c ∈ ds, c.isDigit = true) ∧
      (_normalize_book_link href base).data =
        sch ++ "://".data ++ host ++ ("/book/show/".data ++ ds) := by
  obtain ⟨A, N, PU, hu⟩ : ∃ A N PU, parseUrl (_abs href base).data =
      { scheme := A, netloc := N, path := PU } := ⟨_, _, _, rfl⟩
  have hL : (_normalize_book_link href base).data =
      A ++ "://".data ++ N ++
        rewriteBookPath (PU.takeWhile (fun c => !(isPathEnd c))) := by
    show (parseUrl (_abs href base).data).scheme ++ "://".data ++
        (parseUrl (_abs href base).data).netloc ++
        rewriteBookPath ((parseUrl (_abs href base).data).path.takeWhile
          (fun c => !(isPathEnd c))) =
      A ++ "://".data ++ N ++
        rewriteBookPath (PU.takeWhile (fun c => !(isPathEnd c)))
    rw [hu]
  have hAn : splitScheme A = none := by
    have h0 := scheme_split_none (_abs href base).data
    rw [hu] at h0
    exact h0
  have hNe : ∀ c ∈ N, isNetlocEnd c = false := by
    intro c hc
    exact netloc_no_end (_abs href base).data c (by rw [hu]; exact hc)
  obtain ⟨sch, w, sd, d, r, hsch, hw, hsd, hd, hdata⟩ := bookShowAbsMatch_inv _ hm
  have hschN : splitScheme sch = none := by rcases hsch with rfl | rfl <;> rfl
  have h2 : (_normalize_book_link href base).data =
      A ++ ':' :: '/' :: '/' ::
        (N ++ rewriteBookPath (PU.takeWhile (fun c => !(isPathEnd c)))) := by
    rw [hL]
    simp only [List.append_assoc]
    rfl
  have hs1 : splitScheme (_normalize_book_link href base).data =
      some (A, N ++ rewriteBookPath (PU.takeWhile (fun c => !(isPathEnd c)))) := by
    rw [h2]
    exact splitScheme_append _ _ hAn
  have hs2 : splitScheme (_normalize_book_link href base).data =
      some (sch, (w ++ "goodreads.com".data) ++
        '/' :: 'b' :: 'o' :: 'o' :: 'k' :: '/' :: (sd ++ d :: r)) := by
    rw [hdata]
    exact splitScheme_append _ _ hschN
  have hAs : A = sch ∧
      N ++ rewriteBookPath (PU.takeWhile (fun c => !(isPathEnd c))) =
        (w ++ "goodreads.com".data) ++
          '/' :: 'b' :: 'o' :: 'o' :: 'k' :: '/' :: (sd ++ d :: r) := by
    have h3 := Option.some.inj (hs1.symm.trans hs2)
    rw [Prod.mk.injEq] at h3
    exact h3
  have hAne : A ≠ [] := by
    rw [hAs.1]
    rcases hsch with rfl | rfl <;> decide
  have hPU : PU = [] ∨ ∃ t, PU = '/' :: t := by
    have h0 := path_shape (_abs href base).data (by rw [hu]; exact hAne)
    rw [hu] at h0
    exact h0
  have hP0 : PU.takeWhile (fun c => !(isPathEnd c)) = [] ∨
      ∃ t2, PU.takeWhile (fun c => !(isPathEnd c)) = '/' :: t2 := by
    rcases hPU with rfl | ⟨t, rfl⟩
    · exact Or.inl rfl
    · rw [List.takeWhile_cons, if_pos (by decide)]
      exact Or.inr ⟨_, rfl⟩
  have hwG : ∀ c ∈ w ++ "goodreads.com".data, isNetlocEnd c = false := by
    rcases hw with rfl | rfl <;> decide
  cases hmatch : matchBookPath (PU.takeWhile (fun c => !(isPathEnd c))) with
  | none =>
    exfalso
    have hPP : rewriteBookPath (PU.takeWhile (fun c => !(isPathEnd c))) =
        PU.takeWhile (fun c => !(isPathEnd c)) := by
      rw [rewriteBookPath, hmatch]
    have hvP : rewriteBookPath (PU.takeWhile (fun c => !(isPathEnd c))) = [] ∨
        ∃ c cs, rewriteBookPath (PU.takeWhile (fun c => !(isPathEnd c))) = c :: cs ∧
          isNetlocEnd c = true := by
      rcases hP0 with he | ⟨t2, he⟩
      · exact Or.inl (by rw [hPP, he])
      · exact Or.inr ⟨'/', t2, by rw [hPP, he], by decide⟩
    obtain ⟨hN2, hP2⟩ := unique_split isNetlocEnd N _ (w ++ "goodreads.com".data) _
      hAs.2 hNe hwG hvP
      (Or.inr ⟨'/', 'b' :: 'o' :: 'o' :: 'k' :: '/' :: (sd ++ d :: r), rfl, by decide⟩)
    rw [hPP] at hP2
    have hr2 : (d :: r : List Char) =
        (d :: r.takeWhile Char.isDigit) ++ r.dropWhile Char.isDigit := by
      rw [List.cons_append, List.takeWhile_append_dropWhile]
    have hsome : matchBookPath ('/' :: 'b' :: 'o' :: 'o' :: 'k' :: '/' ::
        (sd ++ ((d :: r.takeWhile Char.isDigit) ++ r.dropWhile Char.isDigit))) =
        some ('/' :: ("book/".data ++ sd), d :: r.takeWhile Char.isDigit) :=
      matchBookPath_eval sd (d :: r.takeWhile Char.isDigit) (r.dropWhile Char.isDigit)
        hsd
        ⟨by simp, by
          intro c hc
          rcases List.mem_cons.mp hc with rfl | hc2
          · exact hd
          · exact List.mem_takeWhile_imp hc2⟩
        (by
          rcases dropWhile_head Char.isDigit r with he | ⟨c, cs, he, hcd⟩
          · exact Or.inl he
          · exact Or.inr ⟨c, cs, he, hcd⟩)
    rw [hP2, hr2] at hmatch
    rw [hmatch] at hsome
    exact Option.noConfusion hsome
  | some gd =>
    obtain ⟨g1, ds2⟩ := gd
    have hinv := matchBookPath_inv _ _ _ hmatch
    have hPP : rewriteBookPath (PU.takeWhile (fun c => !(isPathEnd c))) =
        replaceSub "/details/".data "/show/".data g1 ++ ds2 := by
      rw [rewriteBookPath, hmatch]
    rcases hinv.1 with hg | hg | hg | hg
    · have hrepl : replaceSub "/details/".data "/show/".data g1 = "/book/show/".data := by
        rw [hg]; decide
      obtain ⟨hN2, hP2⟩ := unique_split isNetlocEnd N _ (w ++ "goodreads.com".data) _
        hAs.2 hNe hwG
        (Or.inr ⟨'/', 'b' :: 'o' :: 'o' :: 'k' :: '/' :: 's' :: 'h' :: 'o' :: 'w' :: '/' :: ds2,
          by rw [hPP, hrepl]; rfl, by decide⟩)
        (Or.inr ⟨'/', 'b' :: 'o' :: 'o' :: 'k' :: '/' :: (sd ++ d :: r), rfl, by decide⟩)
      refine ⟨sch, N, ds2, hsch, ?_, hinv.2.1, hinv.2.2, ?_⟩
      · rcases hw with rfl | rfl
        · exact Or.inl (hN2.trans (List.nil_append _))
        · exact Or.inr (by rw [hN2]; rfl)
      · rw [hL, hPP, hrepl, hAs.1]
    · have hrepl : replaceSub "/details/".data "/show/".data g1 = "/book/show/".data := by
        rw [hg]; decide
      obtain ⟨hN2, hP2⟩ := unique_split isNetlocEnd N _ (w ++ "goodreads.com".data) _
        hAs.2 hNe hwG
        (Or.inr ⟨'/', 'b' :: 'o' :: 'o' :: 'k' :: '/' :: 's' :: 'h' :: 'o' :: 'w' :: '/' :: ds2,
          by rw [hPP, hrepl]; rfl, by decide⟩)
        (Or.inr ⟨'/', 'b' :: 'o' :: 'o' :: 'k' :: '/' :: (sd ++ d :: r), rfl, by decide⟩)
      refine ⟨sch, N, ds2, hsch, ?_, hinv.2.1, hinv.2.2, ?_⟩
      · rcases hw with rfl | rfl
        · exact Or.inl (hN2.trans (List.nil_append _))
        · exact Or.inr (by rw [hN2]; rfl)
      · rw [hL, hPP, hrepl, hAs.1]
    · exfalso
      have hrepl : replaceSub "/details/".data "/show/".data g1 = "/en/book/show/".data := by
        rw [hg]; decide
      obtain ⟨hN2, hP2⟩ := unique_split isNetlocEnd N _ (w ++ "goodreads.com".data) _
        hAs.2 hNe hwG
        (Or.inr ⟨'/', 'e' :: 'n' :: '/' :: 'b' :: 'o' :: 'o' :: 'k' :: '/' :: 's' :: 'h' ::
          'o' :: 'w' :: '/' :: ds2, by rw [hPP, hrepl]; rfl, by decide⟩)
        (Or.inr ⟨'/', 'b' :: 'o' :: 'o' :: 'k' :: '/' :: (sd ++ d :: r), rfl, by decide⟩)
      rw [hPP, hrepl] at hP2
      injection hP2 with ha hb
      injection hb with hb _
      exact absurd hb (by decide)
    · exfalso
      have hrepl : replaceSub "/details/".data "/show/".data g1 = "/en/book/show/".data := by
        rw [hg]; decide
      obtain ⟨hN2, hP2⟩ := unique_split isNetlocEnd N _ (w ++ "goodreads.com".data) _
        hAs.2 hNe hwG
        (Or.inr ⟨'/', 'e' :: 'n' :: '/' :: 'b' :: 'o' :: 'o' :: 'k' :: '/' :: 's' :: 'h' ::
          'o' :: 'w' :: '/' :: ds2, by rw [hPP, hrepl]; rfl, by decide⟩)
        (Or.inr ⟨'/', 'b' :: 'o' :: 'o' :: 'k' :: '/' :: (sd ++ d :: r), rfl, by decide⟩)
      rw [hPP, hrepl] at hP2
      injection hP2 with ha hb
      injection hb with hb _
      exact absurd hb (by decide)

theorem tooltipRecord_some (base_url : String) (c : Card) (r : BookRecord)
    (h : tooltipRecord base_url c = some r) :
    ∃ a, c.anchor = some a ∧
      r.link = _normalize_book_link a.href base_url ∧
      bookShowAbsMatch r.link = true ∧
      r.gr_id = _book_id_from_href r.link := by
  cases hA : c.anchor with
  | none => rw [tooltipRecord, hA] at h; exact absurd h (by simp)
  | some a =>
    rw [tooltipRecord] at h
    simp only [hA] at h
    by_cases hb : bookShowAbsMatch (_normalize_book_link a.href base_url) = true
    · rw [if_neg (by simp [hb])] at h
      by_cases hg : _book_id_from_href (_normalize_book_link a.href base_url) = ""
      · rw [if_pos hg] at h
        exact absurd h (by simp)
      · rw [if_neg hg] at h
        by_cases ht : tooltipTitle c a = ""
        · rw [if_pos ht] at h
          exact absurd h (by simp)
        · rw [if_neg ht] at h
          have hr := Option.some.inj h
          refine ⟨a, rfl, ?_, ?_, ?_⟩
          · rw [← hr]
          · rw [← hr]; exact hb
          · rw [← hr]
    · rw [if_pos (by simp [hb])] at h
      exact absurd h (by simp)

theorem genericRecord_some (base_url : String) (c : Card) (r : BookRecord)
    (h : genericRecord base_url c = some r) :
    ∃ a, c.anchor = some a ∧
      r.link = _normalize_book_link a.href base_url ∧
      bookShowAbsMatch r.link = true ∧
      r.gr_id = _book_id_from_href r.link := by
  cases hA : c.anchor with
  | none => rw [genericRecord, hA] at h; exact absurd h (by simp)
  | some a =>
    rw [genericRecord] at h
    simp only [hA] at h
    by_cases hb : bookShowAbsMatch (_normalize_book_link a.href base_url) = true
    · rw [if_neg (by simp [hb])] at h
      by_cases hg : _book_id_from_href (_normalize_book_link a.href base_url) = ""
      · rw [if_pos hg] at h
        exact absurd h (by simp)
      · rw [if_neg hg] at h
        by_cases ht : genericTitle c a = ""
        · rw [if_pos ht] at h
          exact absurd h (by simp)
        · rw [if_neg ht] at h
          have hr := Option.some.inj h
          refine ⟨a, rfl, ?_, ?_, ?_⟩
          · rw [← hr]
          · rw [← hr]; exact hb
          · rw [← hr]
    · rw [if_pos (by simp [hb])] at h
      exact absurd h (by simp)

theorem record_link_shape_core (href base : String) (r : BookRecord)
    (hlink : r.link = _normalize_book_link href base)
    (hmatch : bookShowAbsMatch r.link = true)
    (hgid : r.gr_id = _book_id_from_href r.link) :
    ∃ sch host,
      (sch = "http".data ∨ sch = "https".data) ∧
      (host = "goodreads.com".data ∨ host = "www.goodreads.com".data) ∧
      r.gr_id ≠ "" ∧ (∀ c ∈ r.gr_id.data, c.isDigit = true) ∧
      r.link = String.mk (sch ++ "://".data ++ host ++
        ("/book/show/".data ++ r.gr_id.data)) := by
  obtain ⟨sch, host, ds, hsch, hhost, hne, hdig, hdata⟩ :=
    normalize_match_shape href base (hlink ▸ hmatch)
  have hlink2 : _normalize_book_link href base =
      String.mk (sch ++ "://".data ++ host ++ ("/book/show/".data ++ ds)) :=
    congrArg String.mk hdata
  have hgid2 : r.gr_id = String.mk ds := by
    rw [hgid, hlink, hlink2, ← List.append_assoc]
    exact book_id_canon sch host ds hsch hhost ⟨hne, hdig⟩
  refine ⟨sch, host, hsch, hhost, ?_, ?_, ?_⟩
  · rw [hgid2]
    intro hq
    exact hne (congrArg String.data hq)
  · intro ch hch
    rw [hgid2] at hch
    exact hdig ch hch
  · rw [hlink, hlink2, hgid2]

/-- C10: every record returned by either extraction strategy of the previous
scraper carries a link of the exact form `scheme://host/book/show/<gr_id>`:
the scheme is `http` or `https`, the host is `goodreads.com` or
`www.goodreads.com`, the digits after `/book/show/` are exactly the record's
own non-empty all-digit `gr_id`, and nothing — no `/details/` form, query
string, fragment, or title slug — follows the identifier. -/
theorem extracted_record_link_shape (cards : List Card) (base_url : String)
    (r : BookRecord)
    (hr : r ∈ _extract_tooltip_triggers cards base_url ∨
      r ∈ _extract_generic_scoped cards base_url) :
    ∃ sch host,
      (sch = "http".data ∨ sch = "https".data) ∧
      (host = "goodreads.com".data ∨ host = "www.goodreads.com".data) ∧
      r.gr_id ≠ "" ∧ (∀ c ∈ r.gr_id.data, c.isDigit = true) ∧
      r.link = String.mk (sch ++ "://".data ++ host ++
        ("/book/show/".data ++ r.gr_id.data)) := by
  have hsome : ∃ c, c ∈ cards ∧
      (tooltipRecord base_url c = some r ∨ genericRecord base_url c = some r) := by
    rcases hr with hr | hr
    · rw [extract_tooltip_eq_dedupe] at hr
      have hmem := (dedupeNew_sublist [] _).subset hr
      rcases List.mem_filterMap.mp hmem with ⟨c, hc, he⟩
      exact ⟨c, hc, Or.inl he⟩
    · rw [extract_generic_eq_dedupe] at hr
      have hmem := (dedupeNew_sublist [] _).subset hr
      rcases List.mem_filterMap.mp hmem with ⟨c, hc, he⟩
      exact ⟨c, hc, Or.inr he⟩
  obtain ⟨c, hc, hcase⟩ := hsome
  rcases hcase with he | he
  · obtain ⟨a, _, hlink, hmatch, hgid⟩ := tooltipRecord_some base_url c r he
    exact record_link_shape_core a.href base_url r hlink hmatch hgid
  · obtain ⟨a, _, hlink, hmatch, hgid⟩ := genericRecord_some base_url c r he
    exact record_link_shape_core a.href base_url r hlink hmatch hgid

/-- A concrete card whose anchor spells the book reference with `/details/`
and a query string. -/
def anchorKappa : AnchorInfo :=
  { href := "https://www.goodreads.com/book/details/77?ref=x",
    titleAttr := "Kappa Book", text := "" }

def cardKappa : Card :=
  { anchor := some anchorKappa, img := none, authorText := none, bookTitleText := none }

def recKappa : BookRecord :=
  { title := "Kappa Book", author := "",
    link := "https://www.goodreads.com/book/show/77", cover := "", gr_id := "77" }

theorem extracted_record_link_shape_witness :
    (recKappa ∈ _extract_tooltip_triggers [cardKappa] "https://www.goodreads.com/blog" ∨
      recKappa ∈ _extract_generic_scoped [cardKappa] "https://www.goodreads.com/blog") ∧
    (∃ sch host,
      (sch = "http".data ∨ sch = "https".data) ∧
      (host = "goodreads.com".data ∨ host = "www.goodreads.com".data) ∧
      recKappa.gr_id ≠ "" ∧ (∀ c ∈ recKappa.gr_id.data, c.isDigit = true) ∧
      recKappa.link = String.mk (sch ++ "://".data ++ host ++
        ("/book/show/".data ++ recKappa.gr_id.data))) :=
  ⟨Or.inl (by decide),
    extracted_record_link_shape [cardKappa] "https://www.goodreads.com/blog" recKappa
      (Or.inl (by decide))⟩
